import Mathlib

/-!
Verification of the `animated-text` timeline model and text codec.

Modelling conventions, fixed throughout this file:
* Rust `f32` values are modelled as exact rationals `ℚ`.  All arithmetic is
  exact; division is total with `x / 0 = 0` (Rust would produce `NaN`/`inf`
  there).  The 3-decimal formatting `{:.3}` is modelled as rounding to the
  nearest multiple of `1/1000` (half away from zero via `round`).
* Rust `String` values are modelled as `List Char`.  `str::len()` is byte
  length in Rust; we use character count, which coincides on ASCII text.
* `str::parse::<f32>` is modelled by `parseQ`, which accepts an optional
  sign followed by a plain decimal numeral (Rust additionally accepts
  exponent forms such as `1e3`, `inf`, `NaN`; those never arise from the
  encoder, and the strings we instantiate failure hypotheses with fail in
  Rust as well).
* `str::lines()` is modelled by splitting on `'\n'`; the decoder trims every
  fragment and skips blank fragments, so the `'\r'` stripping and
  trailing-newline behaviour of `lines()` make no observable difference.
-/

attribute [local semireducible] Rat.mul Rat.add Rat.inv Rat.sub Rat.ofScientific

/-- Characters Rust's `str::trim` removes, restricted to the ASCII whitespace
that can actually appear here. -/
def isWs (c : Char) : Bool :=
  c == ' ' || c == '\t' || c == '\n' || c == '\r'

/-- Unicode control characters (category Cc), as tested by
`char::is_control`. -/
def isCtrl (c : Char) : Bool :=
  c.toNat < 32 || (127 ≤ c.toNat && c.toNat ≤ 159)

/-- The decimal digit character for `n < 10`. -/
def natDigit (n : Nat) : Char := Char.ofNat (48 + n)

/-- Numeric value of a digit string (most significant first). -/
def digitsVal (l : List Char) : Nat :=
  l.foldl (fun a c => a * 10 + (c.toNat - 48)) 0

/-- Fuelled little-endian digit printer (fuel keeps it structural so the
kernel can evaluate it). -/
def ntdGo : Nat → Nat → List Char
  | 0, _ => []
  | _ + 1, n => if n < 10 then [natDigit n] else natDigit (n % 10) :: ntdGo n (n / 10)

/-- Decimal digits of `n`, most significant first. -/
def natToDigits (n : Nat) : List Char := (ntdGo (n + 1) n).reverse

/-- Zero-padded three-digit rendering of `m < 1000`. -/
def pad3 (m : Nat) : List Char :=
  if m < 10 then '0' :: '0' :: natToDigits m
  else if m < 100 then '0' :: natToDigits m
  else natToDigits m

/-- Model of Rust's `format!("{:.3}", x)`: round to 3 decimals and print. -/
def fmt3 (q : ℚ) : List Char :=
  let n : ℤ := round (q * 1000)
  let a : ℕ := n.natAbs
  (if n < 0 then ['-'] else []) ++ natToDigits (a / 1000) ++ '.' :: pad3 (a % 1000)

/-- The rational actually recovered after the 3-decimal round trip. -/
def round3 (q : ℚ) : ℚ := ((round (q * 1000) : ℤ) : ℚ) / 1000

/-- Split on a single character, keeping empty pieces (Rust `str::split`). -/
def splitChar (c : Char) : List Char → List (List Char)
  | [] => [[]]
  | x :: xs =>
    if x = c then [] :: splitChar c xs
    else match splitChar c xs with
      | [] => [[x]]
      | p :: ps => (x :: p) :: ps

/-- Split at the first occurrence of `c` (Rust `str::split_once`). -/
def splitOnce (c : Char) : List Char → Option (List Char × List Char)
  | [] => none
  | x :: xs =>
    if x = c then some ([], xs)
    else (splitOnce c xs).map (fun p => (x :: p.1, p.2))

/-- Join pieces with a separator (Rust `Vec::join`). -/
def joinSep (sep : List Char) : List (List Char) → List Char
  | [] => []
  | [p] => p
  | p :: ps => p ++ sep ++ joinSep sep ps

/-- Index of the first occurrence of `pat` as a contiguous sublist
(Rust `str::find` with a string pattern). -/
def findSub (pat : List Char) : List Char → Option Nat
  | [] => if pat.isPrefixOf [] then some 0 else none
  | x :: t =>
    if pat.isPrefixOf (x :: t) then some 0
    else (findSub pat t).map (· + 1)

/-- Fuelled splitter on a multi-character separator. -/
def splitOnSubGo (sep : List Char) : Nat → List Char → List (List Char)
  | 0, s => [s]
  | fuel + 1, s =>
    match findSub sep s with
    | none => [s]
    | some pos => s.take pos :: splitOnSubGo sep fuel (s.drop (pos + sep.length))

/-- Split on every occurrence of `sep` (Rust `str::split` with a `&str`
pattern; our separators are never empty). -/
def splitOnSub (sep s : List Char) : List (List Char) :=
  splitOnSubGo sep (s.length + 1) s

/-- Rust `str::trim_start` (whitespace). -/
def trimLeftWs (s : List Char) : List Char := s.dropWhile isWs

/-- Rust `str::trim_end` (whitespace). -/
def trimRightWs (s : List Char) : List Char := (s.reverse.dropWhile isWs).reverse

/-- Rust `str::trim`. -/
def trimWs (s : List Char) : List Char := trimLeftWs (trimRightWs s)

/-- Rust `trim_matches(|c| c == '(' || c == ')')`. -/
def trimParens (s : List Char) : List Char :=
  let p : Char → Bool := fun c => c == '(' || c == ')'
  ((s.dropWhile p).reverse.dropWhile p).reverse

/-- The sign-free part of the numeric parser: an integer part and an
optional fractional part around a single dot. -/
def parseQcore (neg : Bool) (r : List Char) : Option ℚ :=
  let sgn : ℚ := if neg then -1 else 1
  match splitChar '.' r with
  | [ip] =>
    if ip ≠ [] ∧ ip.all Char.isDigit then some (sgn * (digitsVal ip : ℚ)) else none
  | [ip, fp] =>
    if (ip ≠ [] ∨ fp ≠ []) ∧ ip.all Char.isDigit ∧ fp.all Char.isDigit then
      some (sgn * ((digitsVal ip : ℚ) + (digitsVal fp : ℚ) / (10 : ℚ) ^ fp.length))
    else none
  | _ => none

/-- Model of `str::parse::<f32>` (see the header comment for the idealisation). -/
def parseQ (s : List Char) : Option ℚ :=
  match s with
  | '-' :: r => parseQcore true r
  | '+' :: r => parseQcore false r
  | r => parseQcore false r

-- ## The data model (src/model.rs)

/-- `struct Keyframe { time: f32, index: f32 }` -/
structure Keyframe where
  time : ℚ
  index : ℚ
deriving DecidableEq, Repr, Inhabited

/-- `struct LyricLine` -/
structure LyricLine where
  text : List Char
  part : Option (List Char)
  start : ℚ
  «end» : ℚ
  keyframes : List Keyframe
deriving DecidableEq, Repr, Inhabited

/-- `struct AnimationData { lines: Vec<LyricLine> }` -/
structure AnimationData where
  lines : List LyricLine
deriving DecidableEq, Repr, Inhabited

/-- The comparison `a.time.partial_cmp(&b.time).unwrap_or(Equal)` used by
`sort_keyframes`, as a `≤`-style relation on exact rationals. -/
def kfLe (a b : Keyframe) : Prop := a.time ≤ b.time

instance : DecidableRel kfLe := fun a b => inferInstanceAs (Decidable (a.time ≤ b.time))

instance : IsTotal Keyframe kfLe := ⟨fun a b => le_total a.time b.time⟩

instance : IsTrans Keyframe kfLe := ⟨fun _ _ _ h1 h2 => le_trans h1 h2⟩

/-- `Keyframe::to_string_pct` -/
def Keyframe.to_string_pct (kf : Keyframe) (line_len : ℚ) : List Char :=
  let pct : ℚ := if line_len > 0 then kf.index / line_len else 0
  fmt3 kf.time ++ '/' :: fmt3 pct

/-- `Keyframe::from_string_pct` -/
def Keyframe.from_string_pct (s : List Char) (line_len : ℚ) : Option Keyframe :=
  match splitOnce '/' s with
  | none => none
  | some (time_str, pct_str) =>
    match parseQ time_str, parseQ pct_str with
    | some time, some pct => some ⟨time, pct * line_len⟩
    | _, _ => none

/-- `LyricLine::new` -/
def LyricLine.new (text : List Char) (start «end» : ℚ) : LyricLine :=
  ⟨text, none, start, «end», []⟩

/-- The scan over consecutive keyframe pairs inside
`LyricLine::get_current_index` (`for i in 0..len-1 { ... return ... }`). -/
def scanPairs : List Keyframe → ℚ → Option ℚ
  | k1 :: k2 :: rest, rel =>
    if k1.time ≤ rel ∧ rel ≤ k2.time then
      some (k1.index + (k2.index - k1.index) * ((rel - k1.time) / (k2.time - k1.time)))
    else scanPairs (k2 :: rest) rel
  | _, _ => none

/-- `LyricLine::get_current_index` -/
def LyricLine.get_current_index (l : LyricLine) (rel_time : ℚ) : ℚ :=
  if l.keyframes.isEmpty then 0
  else
    match scanPairs l.keyframes rel_time with
    | some v => v
    | none => ((l.keyframes.getLast?).map Keyframe.index).getD 0

/-- `LyricLine::sort_keyframes` (Rust `sort_by` is stable; `insertionSort`
is the stable sort, and stable sorts for a total preorder agree). -/
def LyricLine.sort_keyframes (l : LyricLine) : LyricLine :=
  { l with keyframes := List.insertionSort kfLe l.keyframes }

/-- `LyricLine::add_keyframe` -/
def LyricLine.add_keyframe (l : LyricLine) (time index : ℚ) : LyricLine :=
  LyricLine.sort_keyframes { l with keyframes := l.keyframes ++ [⟨time, index⟩] }

/-- `LyricLine::add_kf_pct` -/
def LyricLine.add_kf_pct (l : LyricLine) (time pct : ℚ) : LyricLine :=
  l.add_keyframe time ((⌊(l.text.length : ℚ) * pct⌋ : ℤ) : ℚ)

/-- `AnimationData::demo` (the `add_line`/`add_kf_pct` builder chains,
inlined: each chain mutates the line just pushed). -/
def AnimationData.demo : AnimationData :=
  let l1 := (((LyricLine.new ("City of stars".toList) 0 3.42).add_kf_pct 0 0).add_kf_pct
    1.2 0.7).add_kf_pct 3.42 1
  let l2 := ((((LyricLine.new ("You never shined so brightly".toList) (3.42 + 0.5)
    (3.42 + 0.5 + 7.112)).add_kf_pct 0 0).add_kf_pct 0.4 0.20).add_kf_pct
    5.4 0.90).add_kf_pct 7.0 1.0
  ⟨[l1, l2]⟩

-- ## The text codec (Display / FromStr in src/model.rs)

/-- `static DATA_SECTION_SPLIT_MARKER: &str = "[//]"` -/
def DATA_SECTION_SPLIT_MARKER : List Char := "[//]".toList

/-- `static LINE_BY_LINE_TIMESTAMP_MARKER: &str = "[lbl]"` -/
def LINE_BY_LINE_TIMESTAMP_MARKER : List Char := "[lbl]".toList

/-- `static LINE_SYLABLE_KEYFRAME_MARKER: &str = "[lsk]"` -/
def LINE_SYLABLE_KEYFRAME_MARKER : List Char := "[lsk]".toList

/-- The separator the keyframe block is split on: `"),("`. -/
def KF_GROUP_SEP : List Char := "),(".toList

/-- The text sanitisation in `Display`: strip control characters and the
reserved characters. -/
def sanitize (s : List Char) : List Char :=
  s.filter (fun c => !isCtrl c && !(c == '/') && !(c == '[') && !(c == ']'))

/-- The per-line contribution to the text section of the encoded document. -/
def pieceOf (l : LyricLine) : List Char :=
  match l.part with
  | some p => '\n' :: '[' :: (p ++ ']' :: '\n' :: sanitize l.text)
  | none => sanitize l.text

/-- The per-line timestamp entry `"{:.3}/{:.3}"`. -/
def tsStrOf (l : LyricLine) : List Char := fmt3 l.start ++ '/' :: fmt3 l.«end»

/-- The keyframe list of one line, joined with commas. -/
def innerOf (l : LyricLine) : List Char :=
  joinSep [','] (l.keyframes.map (fun kf => kf.to_string_pct (l.text.length : ℚ)))

/-- The parenthesised keyframe group `"({})"` of one line. -/
def kfGroupOf (l : LyricLine) : List Char := '(' :: innerOf l ++ [')']

/-- `impl fmt::Display for AnimationData`: the full encoded document
`"{s1}\n[//]\n[lbl][{s2}]\n[lsk][{s3}]"`. -/
def AnimationData.toString (d : AnimationData) : List Char :=
  let s1 := joinSep ['\n'] (d.lines.map pieceOf)
  let s2 := joinSep [','] (d.lines.map tsStrOf)
  let s3 := joinSep [','] (d.lines.map kfGroupOf)
  s1 ++ '\n' :: (DATA_SECTION_SPLIT_MARKER ++ '\n' ::
    (LINE_BY_LINE_TIMESTAMP_MARKER ++ '[' :: (s2 ++ ']' :: '\n' ::
      (LINE_SYLABLE_KEYFRAME_MARKER ++ '[' :: (s3 ++ [']'])))))

/-- The text-section parser of `from_str`: fragments are trimmed, blank ones
skipped, `[label]` fragments set the sticky current part, everything else
becomes a `LyricLine` with `start`/`end` zero and no keyframes. -/
def parseLinesGo (cp : Option (List Char)) : List (List Char) → List LyricLine
  | [] => []
  | f :: fs =>
    let t := trimWs f
    if t = [] then parseLinesGo cp fs
    else if t.head? = some '[' ∧ t.getLast? = some ']' then
      parseLinesGo (some ((t.drop 1).dropLast)) fs
    else ⟨t, cp, 0, 0, []⟩ :: parseLinesGo cp fs

/-- Stage 1 of `from_str`: parse the (already trimmed) text section. -/
def parseTextSection (ts : List Char) : List LyricLine :=
  parseLinesGo none (splitChar '\n' ts)

/-- First index satisfying a predicate (Rust `str::find` with a char
predicate pattern). -/
def findIdxQ (p : Char → Bool) : List Char → Option Nat
  | [] => none
  | x :: t => if p x then some 0 else (findIdxQ p t).map (· + 1)

/-- The `extract_data` closure of `from_str`: find the marker, then the next
`[`, then the next `]`, and return the enclosed text. -/
def extract_data (data_section marker : List Char) : Except (List Char) (List Char) :=
  match findSub marker data_section with
  | none => Except.error ("Missing ".toList ++ marker)
  | some start_idx =>
    let rest := data_section.drop (start_idx + marker.length)
    match findIdxQ (· == '[') rest with
    | none => Except.error ("Missing [".toList)
    | some ob =>
      let afterOpen := rest.drop ob
      match findIdxQ (· == ']') afterOpen with
      | none => Except.error ("Missing ]".toList)
      | some cb => Except.ok ((afterOpen.drop 1).take (cb - 1))

/-- Stage 3 of `from_str`: assign `start`/`end` from one timestamp pair
(numeric failures default to `0.0`; a pair without exactly two `/`-fields
leaves the line untouched). -/
def applyTs (l : LyricLine) (pair : List Char) : LyricLine :=
  if (splitChar '/' pair).length = 2 then
    { l with start := (parseQ ((splitChar '/' pair).getD 0 [])).getD 0,
             «end» := (parseQ ((splitChar '/' pair).getD 1 [])).getD 0 }
  else l

/-- Stage 4 of `from_str`, one group: trim parentheses, split entries on
commas, keep the entries `Keyframe::from_string_pct` accepts, then sort. -/
def applyGroup (l : LyricLine) (g : List Char) : LyricLine :=
  let clean := trimParens g
  let kfs := (splitChar ',' clean).filterMap
    (fun e => Keyframe.from_string_pct e (l.text.length : ℚ))
  { l with keyframes := List.insertionSort kfLe (l.keyframes ++ kfs) }

/-- Stage 4 of `from_str`, the enumeration loop: groups beyond the line
count are ignored (`break`), lines beyond the group count stay untouched. -/
def applyKfGroups : List LyricLine → List (List Char) → List LyricLine
  | ls, [] => ls
  | [], _ => []
  | l :: ls, g :: gs => applyGroup l g :: applyKfGroups ls gs

/-- Error message for a missing `[//]` separator. -/
def msgNoSep : List Char := "Format error: Missing [//] separator".toList

/-- Error message for a timestamp-count mismatch. -/
def msgMismatch : List Char := "Line count mismatch with timestamps".toList

/-- Stages 2-4 of `from_str`, on the trimmed text and data sections:
metadata extraction, the timestamp-count check, timestamp assignment and
keyframe parsing. -/
def from_str_tail (text_section data_section : List Char) :
    Except (List Char) AnimationData :=
  match extract_data data_section LINE_BY_LINE_TIMESTAMP_MARKER with
  | Except.error e => Except.error e
  | Except.ok lbl_raw =>
    match extract_data data_section LINE_SYLABLE_KEYFRAME_MARKER with
    | Except.error e => Except.error e
    | Except.ok lsk_raw =>
      if (splitChar ',' lbl_raw).length ≠ (parseTextSection text_section).length then
        Except.error msgMismatch
      else
        Except.ok ⟨applyKfGroups
          (List.zipWith applyTs (parseTextSection text_section) (splitChar ',' lbl_raw))
          (splitOnSub KF_GROUP_SEP lsk_raw)⟩

/-- `impl FromStr for AnimationData` (stage 1 here, stages 2-4 in
`from_str_tail`). -/
def AnimationData.from_str (input : List Char) : Except (List Char) AnimationData :=
  match splitOnSub DATA_SECTION_SPLIT_MARKER input with
  | sec0 :: sec1 :: _ => from_str_tail (trimWs sec0) (trimWs sec1)
  | _ => Except.error msgNoSep

theorem from_str_tail_lbl_error (ts ds e : List Char)
    (h : extract_data ds LINE_BY_LINE_TIMESTAMP_MARKER = Except.error e) :
    from_str_tail ts ds = Except.error e := by
  unfold from_str_tail
  rw [h]

theorem from_str_tail_lsk_error (ts ds lbl e : List Char)
    (h1 : extract_data ds LINE_BY_LINE_TIMESTAMP_MARKER = Except.ok lbl)
    (h2 : extract_data ds LINE_SYLABLE_KEYFRAME_MARKER = Except.error e) :
    from_str_tail ts ds = Except.error e := by
  unfold from_str_tail
  rw [h1, h2]

theorem from_str_tail_cnt_error (ts ds lbl lsk : List Char)
    (h1 : extract_data ds LINE_BY_LINE_TIMESTAMP_MARKER = Except.ok lbl)
    (h2 : extract_data ds LINE_SYLABLE_KEYFRAME_MARKER = Except.ok lsk)
    (hcnt : (splitChar ',' lbl).length ≠ (parseTextSection ts).length) :
    from_str_tail ts ds = Except.error msgMismatch := by
  unfold from_str_tail
  rw [h1, h2]
  show (if (splitChar ',' lbl).length ≠ (parseTextSection ts).length then
      Except.error msgMismatch
    else Except.ok (⟨applyKfGroups
      (List.zipWith applyTs (parseTextSection ts) (splitChar ',' lbl))
      (splitOnSub KF_GROUP_SEP lsk)⟩ : AnimationData)) = _
  rw [if_pos hcnt]

theorem from_str_tail_ok (ts ds lbl lsk : List Char)
    (h1 : extract_data ds LINE_BY_LINE_TIMESTAMP_MARKER = Except.ok lbl)
    (h2 : extract_data ds LINE_SYLABLE_KEYFRAME_MARKER = Except.ok lsk)
    (hcnt : (splitChar ',' lbl).length = (parseTextSection ts).length) :
    from_str_tail ts ds = Except.ok
      ⟨applyKfGroups (List.zipWith applyTs (parseTextSection ts) (splitChar ',' lbl))
        (splitOnSub KF_GROUP_SEP lsk)⟩ := by
  unfold from_str_tail
  rw [h1, h2]
  show (if (splitChar ',' lbl).length ≠ (parseTextSection ts).length then
      Except.error msgMismatch
    else Except.ok (⟨applyKfGroups
      (List.zipWith applyTs (parseTextSection ts) (splitChar ',' lbl))
      (splitOnSub KF_GROUP_SEP lsk)⟩ : AnimationData)) = _
  rw [if_neg (by simp [hcnt])]

-- ## Editor commands (src/main.rs, handle_keyframe_editor_keys)

/-- `App::find_closest_kf_idx`: index minimising `|time - rel_time|`;
`Iterator::min_by` keeps the first of equally minimal elements. -/
def find_closest_kf_idx (kfs : List Keyframe) (rel_time : ℚ) : Option Nat :=
  match kfs with
  | [] => none
  | k0 :: rest => some (go rest 1 0 |k0.time - rel_time|)
where
  go : List Keyframe → Nat → Nat → ℚ → Nat
    | [], _, bi, _ => bi
    | k :: t, i, bi, bd =>
      if |k.time - rel_time| < bd then go t (i + 1) i |k.time - rel_time|
      else go t (i + 1) bi bd

/-- The `'f'` command: push a keyframe at the current relative time with the
interpolated index, then re-sort. -/
def addKfCommand (l : LyricLine) (rel_time : ℚ) : LyricLine :=
  LyricLine.sort_keyframes
    { l with keyframes := l.keyframes ++ [⟨rel_time, l.get_current_index rel_time⟩] }

/-- The `'g'`/`Delete` command: remove the keyframe closest to the current
relative time, but only when more than one keyframe remains. -/
def removeKfCommand (l : LyricLine) (rel_time : ℚ) : LyricLine :=
  if l.keyframes.length > 1 then
    match find_closest_kf_idx l.keyframes rel_time with
    | some ki => { l with keyframes := l.keyframes.eraseIdx ki }
    | none => l
  else l

/-- The `Up`/`Down` command in `Time` submode, for the selected keyframe
`ki` (the caller guarantees `ki` is in range; Rust would panic otherwise). -/
def adjustTimeKf (l : LyricLine) (ki : Nat) (up : Bool) : LyricLine :=
  match l.keyframes[ki]? with
  | none => l
  | some kf =>
    let mult : ℚ := if up then 1 else -1
    let rel_time := max (kf.time + 0.05 * mult) 0
    let kfs := l.keyframes.set ki { kf with time := rel_time }
    if ki = l.keyframes.length - 1 then
      let e := max (l.start + rel_time) (l.start + 0.01)
      { l with «end» := e, keyframes := kfs.set ki { kf with time := e - l.start } }
    else { l with keyframes := kfs }

/-- The `Up`/`Down` command in `Progress` submode, for the selected
keyframe: `index ± 0.5`, clamped to `[0, line length]`. -/
def adjustProgressKf (l : LyricLine) (ki : Nat) (up : Bool) : LyricLine :=
  match l.keyframes[ki]? with
  | none => l
  | some kf =>
    let mult : ℚ := if up then 1 else -1
    let kf2 := { kf with index := min (max (kf.index + 0.5 * mult) 0) (l.text.length : ℚ) }
    { l with keyframes := l.keyframes.set ki kf2 }

/-- First keyframe (with its position) whose time is more than `0.01` ahead
of `rel_time` (the `'k'` search). -/
def findNextKf (kfs : List Keyframe) (rel_time : ℚ) : Option (Nat × Keyframe) :=
  go kfs 0
where
  go : List Keyframe → Nat → Option (Nat × Keyframe)
    | [], _ => none
    | k :: t, i => if k.time > rel_time + 0.01 then some (i, k) else go t (i + 1)

/-- Last keyframe (with its position) whose time is more than `0.01` behind
`rel_time` (the `'j'` search, `.rev().find(...)`). -/
def findPrevKf (kfs : List Keyframe) (rel_time : ℚ) : Option (Nat × Keyframe) :=
  go kfs 0 none
where
  go : List Keyframe → Nat → Option (Nat × Keyframe) → Option (Nat × Keyframe)
    | [], _, acc => acc
    | k :: t, i, acc =>
      if k.time < rel_time - 0.01 then go t (i + 1) (some (i, k)) else go t (i + 1) acc

/-- The slice of `App` state the keyframe-jump commands touch. -/
structure AppJ where
  data : AnimationData
  current_time : ℚ
  is_playing : Bool
  focus_line_index : Option Nat
  active_kf_index : Option Nat
deriving DecidableEq, Repr

/-- The `'k'` (jump to next keyframe) command.  In Focus mode
`focus_line_index` is set; the `get_active_line_index` fallback of the Rust
code (used when no focus is locked) is outside this model, which returns the
state unchanged in that case, as the Rust handler does when both are `None`. -/
def handleNextKf (s : AppJ) : AppJ :=
  match s.focus_line_index with
  | none => s
  | some idx =>
    match s.data.lines[idx]? with
    | none => s
    | some line =>
      let rel_time := s.current_time - line.start
      match findNextKf line.keyframes rel_time with
      | some (i, kf) =>
        { s with active_kf_index := some i, current_time := line.start + kf.time }
      | none =>
        if h : idx + 1 < s.data.lines.length then
          let next_line := s.data.lines[idx + 1]
          { s with focus_line_index := some (idx + 1),
                   current_time := next_line.start,
                   active_kf_index := some 0,
                   is_playing := false }
        else { s with is_playing := false }

/-- The `'j'` (jump to previous keyframe) command; same modelling caveat as
`handleNextKf`. -/
def handlePrevKf (s : AppJ) : AppJ :=
  match s.focus_line_index with
  | none => s
  | some idx =>
    match s.data.lines[idx]? with
    | none => s
    | some line =>
      let rel_time := s.current_time - line.start
      match findPrevKf line.keyframes rel_time with
      | some (i, kf) =>
        { s with active_kf_index := some i, current_time := line.start + kf.time }
      | none =>
        if idx > 0 then
          match s.data.lines[idx - 1]? with
          | none => { s with is_playing := false }
          | some prev_line =>
            { s with focus_line_index := some (idx - 1),
                     current_time := prev_line.start,
                     active_kf_index := some (prev_line.keyframes.length - 1),
                     is_playing := false }
        else { s with is_playing := false }

-- ## Generic instances and small helpers

instance {ε α : Type} [DecidableEq ε] [DecidableEq α] : DecidableEq (Except ε α) := fun a b =>
  match a, b with
  | Except.ok x, Except.ok y =>
    if h : x = y then Decidable.isTrue (by rw [h])
    else Decidable.isFalse (fun c => h (Except.ok.inj c))
  | Except.error x, Except.error y =>
    if h : x = y then Decidable.isTrue (by rw [h])
    else Decidable.isFalse (fun c => h (Except.error.inj c))
  | Except.ok _, Except.error _ => Decidable.isFalse (fun c => Except.noConfusion c)
  | Except.error _, Except.ok _ => Decidable.isFalse (fun c => Except.noConfusion c)

-- ## C3: the built-in demo's first line

/-- **C3, counterexample.**  On the demo's first line, `get_current_index`
at `rel_time = 1.2` returns exactly `9`, not `13 * 0.7 = 9.1`:
`add_kf_pct` floors the derived index, so the keyframe at `1.2` stores
index `⌊13 * 0.7⌋ = 9` (in `f32`, `(13.0 * 0.7).floor()` is likewise `9.0`),
and `9` is not within any floating rounding of `9.1`. -/
theorem C3_counterexample :
    (AnimationData.demo.lines.getD 0 default).get_current_index 1.2 = 9 ∧
    ¬ ((9 : ℚ) = 13 * 0.7) ∧ |(9 : ℚ) - 13 * 0.7| = 1 / 10 := by
  decide

/-- **C3, amended.**  The demo's first line is "City of stars" (13
characters) spanning `[0, 3.42]`, with keyframes at times `0, 1.2, 3.42`
built from percentages `0, 0.7, 1` whose indices are floored
(`⌊13 * 0.7⌋ = 9`); `get_current_index` returns `9` at `rel_time = 1.2`
and `13` at `rel_time = 3.42`. -/
theorem C3_demo_first_line :
    (AnimationData.demo.lines.getD 0 default).text = "City of stars".toList ∧
    (AnimationData.demo.lines.getD 0 default).text.length = 13 ∧
    (AnimationData.demo.lines.getD 0 default).start = 0 ∧
    (AnimationData.demo.lines.getD 0 default).«end» = 3.42 ∧
    (AnimationData.demo.lines.getD 0 default).keyframes =
      [⟨0, 0⟩, ⟨1.2, 9⟩, ⟨3.42, 13⟩] ∧
    (9 : ℚ) = ((⌊(13 : ℚ) * 0.7⌋ : ℤ) : ℚ) ∧
    (AnimationData.demo.lines.getD 0 default).get_current_index 1.2 = 9 ∧
    (AnimationData.demo.lines.getD 0 default).get_current_index 3.42 = 13 := by
  decide

-- ## C2: the interpolation contract of get_current_index

/-- `rel` lies in the closed interval spanned by the consecutive keyframe
pair starting at position `i`. -/
def bracketsAt (kfs : List Keyframe) (rel : ℚ) (i : Nat) : Prop :=
  i + 1 < kfs.length ∧ (kfs.getD i default).time ≤ rel ∧
    rel ≤ (kfs.getD (i + 1) default).time

instance (kfs : List Keyframe) (rel : ℚ) (i : Nat) : Decidable (bracketsAt kfs rel i) :=
  inferInstanceAs (Decidable (_ ∧ _ ∧ _))

/-- The value the loop body of `get_current_index` returns for the pair at
`i`. -/
def interpAt (kfs : List Keyframe) (rel : ℚ) (i : Nat) : ℚ :=
  let k1 := kfs.getD i default
  let k2 := kfs.getD (i + 1) default
  k1.index + (k2.index - k1.index) * ((rel - k1.time) / (k2.time - k1.time))

theorem bracketsAt_cons_succ (k : Keyframe) (kfs : List Keyframe) (rel : ℚ) (i : Nat) :
    bracketsAt (k :: kfs) rel (i + 1) ↔ bracketsAt kfs rel i := by
  unfold bracketsAt
  rw [List.length_cons, List.getD_cons_succ, List.getD_cons_succ]
  constructor
  · rintro ⟨h1, h2⟩; exact ⟨by omega, h2⟩
  · rintro ⟨h1, h2⟩; exact ⟨by omega, h2⟩

theorem scanPairs_of_not_brackets (kfs : List Keyframe) (rel : ℚ)
    (h : ∀ i, ¬ bracketsAt kfs rel i) : scanPairs kfs rel = none := by
  induction kfs with
  | nil => rfl
  | cons k1 rest ih =>
    cases rest with
    | nil => rfl
    | cons k2 rest2 =>
      have h0 : ¬ (k1.time ≤ rel ∧ rel ≤ k2.time) := by
        intro hc
        refine h 0 ⟨?_, ?_, ?_⟩
        · simp only [List.length_cons]; omega
        · rw [List.getD_cons_zero]; exact hc.1
        · rw [List.getD_cons_succ, List.getD_cons_zero]; exact hc.2
      simp only [scanPairs, if_neg h0]
      exact ih (fun i hi => h (i + 1) ((bracketsAt_cons_succ k1 (k2 :: rest2) rel i).mpr hi))

theorem scanPairs_of_brackets : ∀ (kfs : List Keyframe) (rel : ℚ) (i : Nat),
    bracketsAt kfs rel i → (∀ j, j < i → ¬ bracketsAt kfs rel j) →
    scanPairs kfs rel = some (interpAt kfs rel i) := by
  intro kfs
  induction kfs with
  | nil =>
    intro rel i hb _
    exact absurd hb.1 (by simp)
  | cons k1 rest ih =>
    intro rel i hb hmin
    cases rest with
    | nil =>
      have := hb.1
      simp only [List.length_cons, List.length_nil] at this
      omega
    | cons k2 rest2 =>
      cases i with
      | zero =>
        have ht : k1.time ≤ rel ∧ rel ≤ k2.time := by
          refine ⟨?_, ?_⟩
          · have := hb.2.1; rwa [List.getD_cons_zero] at this
          · have := hb.2.2; rwa [List.getD_cons_succ, List.getD_cons_zero] at this
        simp only [scanPairs, if_pos ht]
        unfold interpAt
        rw [List.getD_cons_zero, List.getD_cons_succ, List.getD_cons_zero]
      | succ j =>
        have h0 : ¬ (k1.time ≤ rel ∧ rel ≤ k2.time) := by
          intro hc
          refine hmin 0 (Nat.succ_pos j) ⟨?_, ?_, ?_⟩
          · simp only [List.length_cons]; omega
          · rw [List.getD_cons_zero]; exact hc.1
          · rw [List.getD_cons_succ, List.getD_cons_zero]; exact hc.2
        simp only [scanPairs, if_neg h0]
        have hb' := (bracketsAt_cons_succ k1 (k2 :: rest2) rel j).mp hb
        have hmin' : ∀ j2, j2 < j → ¬ bracketsAt (k2 :: rest2) rel j2 := fun j2 hj2 hc =>
          hmin (j2 + 1) (Nat.succ_lt_succ hj2)
            ((bracketsAt_cons_succ k1 (k2 :: rest2) rel j2).mpr hc)
        have hint : interpAt (k1 :: k2 :: rest2) rel (j + 1) = interpAt (k2 :: rest2) rel j := by
          unfold interpAt
          rw [List.getD_cons_succ, List.getD_cons_succ]
        rw [hint]
        exact ih rel j hb' hmin'

theorem get_current_index_of_not_brackets (l : LyricLine) (rel : ℚ)
    (hne : l.keyframes ≠ []) (hnb : ∀ i, ¬ bracketsAt l.keyframes rel i) :
    l.get_current_index rel = ((l.keyframes.getLast?).map Keyframe.index).getD 0 := by
  unfold LyricLine.get_current_index
  rw [if_neg (by simpa [List.isEmpty_iff] using hne)]
  rw [scanPairs_of_not_brackets _ _ hnb]

/-- In a time-sorted keyframe list, the head's time is minimal. -/
theorem sorted_head_time_le (kfs : List Keyframe) (hs : List.Sorted kfLe kfs)
    (i : Nat) (hi : i < kfs.length) :
    ((kfs.head?).map Keyframe.time).getD 0 ≤ (kfs.getD i default).time := by
  cases kfs with
  | nil => simp at hi
  | cons k t =>
    simp only [List.head?_cons, Option.map_some', Option.getD_some]
    cases i with
    | zero => simp [List.getD_cons_zero]
    | succ j =>
      rw [List.getD_cons_succ]
      have hj : j < t.length := by simpa [List.length_cons] using hi
      have hmem : t.getD j default ∈ t := by
        rw [List.getD_eq_getElem t default hj]
        exact List.getElem_mem hj
      exact (List.pairwise_cons.mp hs).1 _ hmem

/-- **C2.**  `get_current_index` returns `0` for a line without keyframes;
otherwise it returns the linear interpolation over the first consecutive
pair bracketing `rel_time`, and the last keyframe's index when no pair
brackets `rel_time` — which, for a time-sorted keyframe list, includes
every `rel_time` strictly before the first keyframe's time. -/
theorem C2_get_current_index_spec (l : LyricLine) (rel : ℚ) :
    (l.keyframes = [] → l.get_current_index rel = 0) ∧
    (∀ i, bracketsAt l.keyframes rel i →
      (∀ j, j < i → ¬ bracketsAt l.keyframes rel j) →
      l.get_current_index rel = interpAt l.keyframes rel i) ∧
    (l.keyframes ≠ [] → (∀ i, ¬ bracketsAt l.keyframes rel i) →
      l.get_current_index rel = ((l.keyframes.getLast?).map Keyframe.index).getD 0) ∧
    (List.Sorted kfLe l.keyframes → l.keyframes ≠ [] →
      rel < ((l.keyframes.head?).map Keyframe.time).getD 0 →
      l.get_current_index rel = ((l.keyframes.getLast?).map Keyframe.index).getD 0) := by
  refine ⟨?_, ?_, ?_, ?_⟩
  · intro h
    unfold LyricLine.get_current_index
    rw [if_pos (by simp [h])]
  · intro i hb hmin
    have hne : l.keyframes ≠ [] := by
      intro h
      rw [h] at hb
      exact absurd hb.1 (by simp)
    unfold LyricLine.get_current_index
    rw [if_neg (by simpa [List.isEmpty_iff] using hne)]
    rw [scanPairs_of_brackets _ _ _ hb hmin]
  · exact get_current_index_of_not_brackets l rel
  · intro hs hne hlt
    refine get_current_index_of_not_brackets l rel hne (fun i hb => ?_)
    have hi : i < l.keyframes.length := by have := hb.1; omega
    have hhead := sorted_head_time_le l.keyframes hs i hi
    exact absurd (le_trans hhead hb.2.1) (not_le.mpr hlt)

/-- Witness for C2, on the demo's first line: at `rel_time = 1.2` the first
bracketing pair is the pair at `0` and the result is its interpolation; at
`rel_time = -1` (before the first keyframe of the sorted list) the result
is the last keyframe's index, `13`. -/
theorem C2_witness :
    ((AnimationData.demo.lines.getD 0 default).get_current_index 1.2 =
      interpAt (AnimationData.demo.lines.getD 0 default).keyframes 1.2 0) ∧
    ((AnimationData.demo.lines.getD 0 default).get_current_index (-1) =
      (((AnimationData.demo.lines.getD 0 default).keyframes.getLast?).map
        Keyframe.index).getD 0) := by
  constructor
  · exact (C2_get_current_index_spec (AnimationData.demo.lines.getD 0 default) 1.2).2.1 0
      (by decide) (fun j hj => absurd hj (Nat.not_lt_zero j))
  · exact (C2_get_current_index_spec (AnimationData.demo.lines.getD 0 default) (-1)).2.2.2
      (by decide) (by decide) (by decide)

-- ## C7: removing the nearest keyframe

/-- Custom `getD`-over-append lemma: indices inside the left part. -/
theorem getD_append_lt {α : Type} [Inhabited α] (a b : List α) (i : Nat) (h : i < a.length) :
    (a ++ b).getD i default = a.getD i default := by
  induction a generalizing i with
  | nil => simp at h
  | cons x xs ih =>
    cases i with
    | zero => simp
    | succ j =>
      simp only [List.cons_append, List.getD_cons_succ]
      exact ih j (by simpa [List.length_cons] using h)

/-- Custom `getD`-over-append lemma: indices at or past the left part. -/
theorem getD_append_add {α : Type} [Inhabited α] (a b : List α) (i : Nat) :
    (a ++ b).getD (a.length + i) default = b.getD i default := by
  induction a with
  | nil => simp
  | cons x xs ih =>
    simp only [List.cons_append, List.length_cons]
    rw [show xs.length + 1 + i = (xs.length + i) + 1 by omega, List.getD_cons_succ]
    exact ih

theorem fc_go_spec (rel : ℚ) : ∀ (t pre : List Keyframe) (bi : Nat) (bd : ℚ),
    bi < pre.length →
    |(pre.getD bi default).time - rel| = bd →
    (∀ j, j < pre.length → bd ≤ |(pre.getD j default).time - rel|) →
    (find_closest_kf_idx.go rel t pre.length bi bd < (pre ++ t).length ∧
     ∀ j, j < (pre ++ t).length →
       |((pre ++ t).getD (find_closest_kf_idx.go rel t pre.length bi bd) default).time - rel| ≤
         |((pre ++ t).getD j default).time - rel|) := by
  intro t
  induction t with
  | nil =>
    intro pre bi bd hbi hbd hmin
    simp only [find_closest_kf_idx.go, List.append_nil]
    exact ⟨hbi, fun j hj => hbd ▸ hmin j hj⟩
  | cons k t' ih =>
    intro pre bi bd hbi hbd hmin
    have hgetk : (pre ++ [k]).getD pre.length default = k := by
      have h0 := getD_append_add pre [k] 0
      rw [Nat.add_zero] at h0
      rw [h0, List.getD_cons_zero]
    have hpre1 : (pre ++ [k]).length = pre.length + 1 := by simp
    have hassoc : (pre ++ [k]) ++ t' = pre ++ k :: t' := by simp
    simp only [find_closest_kf_idx.go]
    by_cases hc : |k.time - rel| < bd
    · rw [if_pos hc]
      have h1 : pre.length < (pre ++ [k]).length := by simp
      have h2 : |((pre ++ [k]).getD pre.length default).time - rel| = |k.time - rel| := by
        rw [hgetk]
      have h3 : ∀ j, j < (pre ++ [k]).length →
          |k.time - rel| ≤ |((pre ++ [k]).getD j default).time - rel| := by
        intro j hj
        rcases Nat.lt_or_ge j pre.length with hj2 | hj2
        · rw [getD_append_lt pre [k] j hj2]
          exact le_trans (le_of_lt hc) (hmin j hj2)
        · have : j = pre.length := by
            simp only [List.length_append, List.length_singleton] at hj
            omega
          rw [this, hgetk]
      have := ih (pre ++ [k]) pre.length |k.time - rel| h1 h2 h3
      rw [hpre1, hassoc] at this
      exact this
    · rw [if_neg hc]
      have h1 : bi < (pre ++ [k]).length := by
        simp only [List.length_append, List.length_singleton]
        omega
      have h2 : |((pre ++ [k]).getD bi default).time - rel| = bd := by
        rw [getD_append_lt pre [k] bi hbi]
        exact hbd
      have h3 : ∀ j, j < (pre ++ [k]).length →
          bd ≤ |((pre ++ [k]).getD j default).time - rel| := by
        intro j hj
        rcases Nat.lt_or_ge j pre.length with hj2 | hj2
        · rw [getD_append_lt pre [k] j hj2]
          exact hmin j hj2
        · have : j = pre.length := by
            simp only [List.length_append, List.length_singleton] at hj
            omega
          rw [this, hgetk]
          exact not_lt.mp hc
      have := ih (pre ++ [k]) bi bd h1 h2 h3
      rw [hpre1, hassoc] at this
      exact this

/-- `find_closest_kf_idx` returns an in-range index minimising the distance
of `time` to `rel_time`, whenever the list is nonempty. -/
theorem find_closest_spec (kfs : List Keyframe) (rel : ℚ) (hne : kfs ≠ []) :
    ∃ ki, find_closest_kf_idx kfs rel = some ki ∧ ki < kfs.length ∧
      ∀ j, j < kfs.length →
        |(kfs.getD ki default).time - rel| ≤ |(kfs.getD j default).time - rel| := by
  cases kfs with
  | nil => exact absurd rfl hne
  | cons k0 rest =>
    have h := fc_go_spec rel rest [k0] 0 |k0.time - rel| (by simp) (by simp)
      (by
        intro j hj
        have : j = 0 := by simpa using hj
        simp [this])
    have hl : ([k0] : List Keyframe).length = 1 := rfl
    rw [hl] at h
    have happ : ([k0] : List Keyframe) ++ rest = k0 :: rest := rfl
    rw [happ] at h
    exact ⟨_, rfl, h.1, h.2⟩

/-- **C7.**  The remove-keyframe command is a no-op on a line with exactly
one keyframe; with more than one, it removes precisely the keyframe whose
time is nearest the current relative time, leaving `len - 1 ≥ 1` keyframes. -/
theorem C7_remove_keyframe (l : LyricLine) (rel : ℚ) :
    (l.keyframes.length = 1 → removeKfCommand l rel = l) ∧
    (l.keyframes.length > 1 →
      ∃ ki, find_closest_kf_idx l.keyframes rel = some ki ∧ ki < l.keyframes.length ∧
        (∀ j, j < l.keyframes.length →
          |(l.keyframes.getD ki default).time - rel| ≤
            |(l.keyframes.getD j default).time - rel|) ∧
        (removeKfCommand l rel).keyframes = l.keyframes.eraseIdx ki ∧
        (removeKfCommand l rel).keyframes.length = l.keyframes.length - 1 ∧
        1 ≤ (removeKfCommand l rel).keyframes.length) := by
  constructor
  · intro h1
    unfold removeKfCommand
    rw [if_neg (by omega)]
  · intro hgt
    have hne : l.keyframes ≠ [] := by
      intro h
      rw [h] at hgt
      simp at hgt
    obtain ⟨ki, hfc, hki, hmin⟩ := find_closest_spec l.keyframes rel hne
    have hr : (removeKfCommand l rel).keyframes = l.keyframes.eraseIdx ki := by
      unfold removeKfCommand
      rw [if_pos hgt, hfc]
    have hlen : (l.keyframes.eraseIdx ki).length = l.keyframes.length - 1 := by
      rw [List.length_eraseIdx]
      simp [hki]
    exact ⟨ki, hfc, hki, hmin, hr, by rw [hr, hlen], by rw [hr, hlen]; omega⟩

/-- Witness for C7 at a concrete two-keyframe line. -/
theorem C7_witness :
    (removeKfCommand ⟨"ab".toList, none, 0, 2, [⟨0, 0⟩, ⟨1, 2⟩]⟩ 0.9).keyframes.length = 1 ∧
    (removeKfCommand ⟨"ab".toList, none, 0, 2, [⟨0, 0⟩]⟩ 0.9 =
      ⟨"ab".toList, none, 0, 2, [⟨0, 0⟩]⟩) := by
  constructor
  · obtain ⟨ki, _, _, _, _, hlen, _⟩ :=
      (C7_remove_keyframe ⟨"ab".toList, none, 0, 2, [⟨0, 0⟩, ⟨1, 2⟩]⟩ 0.9).2 (by decide)
    rw [hlen]
    decide
  · exact (C7_remove_keyframe ⟨"ab".toList, none, 0, 2, [⟨0, 0⟩]⟩ 0.9).1 (by decide)

-- ## C8: the Time-submode value adjustment

/-- The clamped new relative time `max(time ± 0.05, 0)` the Time-submode
adjustment computes for keyframe `ki`. -/
def newRelTime (l : LyricLine) (ki : Nat) (up : Bool) : ℚ :=
  max ((l.keyframes.getD ki default).time + 0.05 * (if up then 1 else -1)) 0

/-- **C8.**  With a selected keyframe `ki` on the focus line, the Time
adjustment moves that keyframe's time by `±0.05`, floor-clamped at `0`.
When `ki` is not the last keyframe nothing else changes; when it is the
last, the line's `end` becomes `start + new_time` clamped to a minimum
duration of `0.01`, and the keyframe's time is re-pinned to
`end - start`. -/
theorem C8_adjust_time_spec (l : LyricLine) (ki : Nat) (up : Bool)
    (h : ki < l.keyframes.length) :
    (0 : ℚ) ≤ newRelTime l ki up ∧
    (ki ≠ l.keyframes.length - 1 →
      adjustTimeKf l ki up =
        { l with keyframes :=
            l.keyframes.set ki ⟨newRelTime l ki up, (l.keyframes.getD ki default).index⟩ }) ∧
    (ki = l.keyframes.length - 1 →
      (adjustTimeKf l ki up).«end» =
        max (l.start + newRelTime l ki up) (l.start + 0.01) ∧
      (adjustTimeKf l ki up).«end» - l.start ≥ 0.01 ∧
      ((adjustTimeKf l ki up).keyframes.getD ki default).time =
        (adjustTimeKf l ki up).«end» - l.start ∧
      (adjustTimeKf l ki up).start = l.start ∧
      (adjustTimeKf l ki up).text = l.text ∧
      (adjustTimeKf l ki up).keyframes.length = l.keyframes.length) := by
  have hk : l.keyframes[ki]? = some (l.keyframes.getD ki default) := by
    rw [List.getD_eq_getElem l.keyframes default h]
    exact List.getElem?_eq_getElem h
  refine ⟨le_max_right _ _, ?_, ?_⟩
  · intro hne
    unfold adjustTimeKf
    rw [hk]
    simp only [if_neg hne]
    rfl
  · intro heq
    unfold adjustTimeKf
    rw [hk]
    simp only [if_pos heq]
    refine ⟨by trivial, ?_, ?_, by trivial, by trivial, by simp⟩
    · have hle : l.start + 0.01 ≤
          max (l.start + max ((l.keyframes.getD ki default).time +
            0.05 * (if up then 1 else -1)) 0) (l.start + 0.01) := le_max_right _ _
      set e := max (l.start + max ((l.keyframes.getD ki default).time +
        0.05 * (if up then 1 else -1)) 0) (l.start + 0.01) with he
      show e - l.start ≥ 0.01
      linarith
    · set kf := l.keyframes.getD ki default with hkf
      set rel := max (kf.time + 0.05 * (if up then 1 else -1)) 0 with hrel
      set e := max (l.start + rel) (l.start + 0.01) with he
      have hlen : ki < ((l.keyframes.set ki { kf with time := rel }).set ki
          { kf with time := e - l.start }).length := by
        simpa using h
      show (((l.keyframes.set ki { kf with time := rel }).set ki
          { kf with time := e - l.start }).getD ki default).time = e - l.start
      rw [List.getD_eq_getElem _ default hlen]
      rw [List.getElem_set_self]

/-- Witness for C8: on a two-keyframe line with `start = 1`, adjusting the
last keyframe upward moves `end` to `start + 1.05` and re-pins the
keyframe's time to `end - start`. -/
theorem C8_witness :
    (adjustTimeKf ⟨"ab".toList, none, 1, 2, [⟨0, 0⟩, ⟨1, 2⟩]⟩ 1 true).«end» =
      max (1 + newRelTime ⟨"ab".toList, none, 1, 2, [⟨0, 0⟩, ⟨1, 2⟩]⟩ 1 true) (1 + 0.01) ∧
    ((adjustTimeKf ⟨"ab".toList, none, 1, 2, [⟨0, 0⟩, ⟨1, 2⟩]⟩ 1 true).keyframes.getD 1
        default).time =
      (adjustTimeKf ⟨"ab".toList, none, 1, 2, [⟨0, 0⟩, ⟨1, 2⟩]⟩ 1 true).«end» - 1 := by
  have h := C8_adjust_time_spec ⟨"ab".toList, none, 1, 2, [⟨0, 0⟩, ⟨1, 2⟩]⟩ 1 true (by decide)
  exact ⟨(h.2.2 (by decide)).1, (h.2.2 (by decide)).2.2.1⟩

-- ## C9: the keyframe jump commands

/-- The line the keyframe-editor commands operate on (`self.data.lines[idx]`). -/
def focusLine (s : AppJ) (idx : Nat) : LyricLine := s.data.lines.getD idx default

/-- `let rel_time = self.current_time - line.start`. -/
def relTimeAt (s : AppJ) (idx : Nat) : ℚ := s.current_time - (focusLine s idx).start

theorem fn_go_none (rel : ℚ) : ∀ (t : List Keyframe) (i0 : Nat),
    findNextKf.go rel t i0 = none → ∀ k ∈ t, ¬(k.time > rel + 0.01) := by
  intro t
  induction t with
  | nil =>
    intro i0 _ k hk
    simp at hk
  | cons k1 t' ih =>
    intro i0 hgo k hk
    by_cases hc : k1.time > rel + 0.01
    · simp only [findNextKf.go, if_pos hc] at hgo
      exact Option.noConfusion hgo
    · simp only [findNextKf.go, if_neg hc] at hgo
      rcases List.mem_cons.mp hk with h | h
      · rw [h]; exact hc
      · exact ih (i0 + 1) hgo k h

theorem fn_go_some (rel : ℚ) : ∀ (t : List Keyframe) (i0 i : Nat) (kf : Keyframe),
    findNextKf.go rel t i0 = some (i, kf) →
    ∃ a, i = i0 + a ∧ a < t.length ∧ t.getD a default = kf ∧ kf.time > rel + 0.01 ∧
      ∀ b, b < a → ¬((t.getD b default).time > rel + 0.01) := by
  intro t
  induction t with
  | nil =>
    intro i0 i kf hgo
    simp [findNextKf.go] at hgo
  | cons k1 t' ih =>
    intro i0 i kf hgo
    by_cases hc : k1.time > rel + 0.01
    · simp only [findNextKf.go, if_pos hc, Option.some.injEq, Prod.mk.injEq] at hgo
      refine ⟨0, by omega, by simp, ?_, ?_, fun b hb => absurd hb (Nat.not_lt_zero b)⟩
      · rw [List.getD_cons_zero, hgo.2]
      · rw [← hgo.2]; exact hc
    · simp only [findNextKf.go, if_neg hc] at hgo
      obtain ⟨a, ha1, ha2, ha3, ha4, ha5⟩ := ih (i0 + 1) i kf hgo
      refine ⟨a + 1, by omega, by simp only [List.length_cons]; omega,
        by rw [List.getD_cons_succ]; exact ha3, ha4, ?_⟩
      intro b hb
      cases b with
      | zero => rw [List.getD_cons_zero]; exact hc
      | succ b' =>
        rw [List.getD_cons_succ]
        exact ha5 b' (by omega)

theorem fp_go_none (rel : ℚ) : ∀ (t : List Keyframe) (i0 : Nat)
    (acc : Option (Nat × Keyframe)), (∀ k ∈ t, ¬(k.time < rel - 0.01)) →
    findPrevKf.go rel t i0 acc = acc := by
  intro t
  induction t with
  | nil => intro i0 acc _; rfl
  | cons k1 t' ih =>
    intro i0 acc hno
    have hc : ¬(k1.time < rel - 0.01) := hno k1 (List.mem_cons_self k1 t')
    simp only [findPrevKf.go, if_neg hc]
    exact ih (i0 + 1) acc (fun k hk => hno k (List.mem_cons_of_mem k1 hk))

theorem fp_go_last (rel : ℚ) : ∀ (t : List Keyframe) (i0 : Nat)
    (acc : Option (Nat × Keyframe)) (a : Nat), a < t.length →
    (t.getD a default).time < rel - 0.01 →
    (∀ b, a < b → b < t.length → ¬((t.getD b default).time < rel - 0.01)) →
    findPrevKf.go rel t i0 acc = some (i0 + a, t.getD a default) := by
  intro t
  induction t with
  | nil =>
    intro i0 acc a ha
    simp at ha
  | cons k1 t' ih =>
    intro i0 acc a ha hmatch hlast
    cases a with
    | zero =>
      rw [List.getD_cons_zero] at hmatch ⊢
      have hnone : ∀ k ∈ t', ¬(k.time < rel - 0.01) := by
        intro k hk
        obtain ⟨b, hb, hbeq⟩ := List.mem_iff_getElem.mp hk
        have := hlast (b + 1) (Nat.succ_pos b) (by simp only [List.length_cons]; omega)
        rw [List.getD_cons_succ, List.getD_eq_getElem t' default hb, hbeq] at this
        exact this
      simp only [findPrevKf.go, if_pos hmatch]
      rw [fp_go_none rel t' (i0 + 1) (some (i0, k1)) hnone]
      rw [Nat.add_zero]
    | succ a' =>
      have ha' : a' < t'.length := by
        simp only [List.length_cons] at ha
        omega
      have hmatch' : (t'.getD a' default).time < rel - 0.01 := by
        rwa [List.getD_cons_succ] at hmatch
      have hlast' : ∀ b, a' < b → b < t'.length → ¬((t'.getD b default).time < rel - 0.01) := by
        intro b hb1 hb2
        have := hlast (b + 1) (by omega) (by simp only [List.length_cons]; omega)
        rwa [List.getD_cons_succ] at this
      have hres : ∀ acc2, findPrevKf.go rel t' (i0 + 1) acc2 =
          some ((i0 + 1) + a', t'.getD a' default) :=
        fun acc2 => ih (i0 + 1) acc2 a' ha' hmatch' hlast'
      by_cases hc : k1.time < rel - 0.01
      · simp only [findPrevKf.go, if_pos hc]
        rw [hres, List.getD_cons_succ]
        congr 1
        rw [Prod.mk.injEq]
        exact ⟨by omega, rfl⟩
      · simp only [findPrevKf.go, if_neg hc]
        rw [hres, List.getD_cons_succ]
        congr 1
        rw [Prod.mk.injEq]
        exact ⟨by omega, rfl⟩

/-- Among the indices below `n` satisfying a decidable predicate, there is a
last one. -/
theorem exists_last_match (P : Nat → Prop) [DecidablePred P] :
    ∀ n : Nat, (∃ a, a < n ∧ P a) →
    ∃ a, a < n ∧ P a ∧ ∀ b, a < b → b < n → ¬P b := by
  intro n
  induction n with
  | zero =>
    rintro ⟨a, ha, _⟩
    omega
  | succ m ih =>
    rintro ⟨a, ha, hPa⟩
    by_cases hPm : P m
    · exact ⟨m, by omega, hPm, fun b hb1 hb2 => by omega⟩
    · have hex : ∃ a, a < m ∧ P a := by
        rcases Nat.lt_succ_iff_lt_or_eq.mp ha with h | h
        · exact ⟨a, h, hPa⟩
        · rw [h] at hPa
          exact absurd hPa hPm
      obtain ⟨a', ha', hPa', hlast⟩ := ih hex
      refine ⟨a', by omega, hPa', fun b hb1 hb2 => ?_⟩
      rcases Nat.lt_succ_iff_lt_or_eq.mp hb2 with h | h
      · exact hlast b hb1 h
      · rw [h]
        exact hPm

/-- What a successful backwards search means: the returned index is the
last one whose time is more than `0.01` behind `rel`. -/
theorem findPrevKf_some (kfs : List Keyframe) (rel : ℚ) (i : Nat) (kf : Keyframe)
    (h : findPrevKf kfs rel = some (i, kf)) :
    i < kfs.length ∧ kfs.getD i default = kf ∧ kf.time < rel - 0.01 ∧
    ∀ j, i < j → j < kfs.length → ¬((kfs.getD j default).time < rel - 0.01) := by
  by_cases hex : ∃ a, a < kfs.length ∧ (kfs.getD a default).time < rel - 0.01
  · obtain ⟨a, ha, hPa, hlast⟩ :=
      exists_last_match (fun a => (kfs.getD a default).time < rel - 0.01) kfs.length hex
    have := fp_go_last rel kfs 0 none a ha hPa hlast
    rw [Nat.zero_add] at this
    unfold findPrevKf at h
    rw [this, Option.some.injEq, Prod.mk.injEq] at h
    obtain ⟨h1, h2⟩ := h
    refine ⟨h1 ▸ ha, h1 ▸ h2, ?_, h1 ▸ hlast⟩
    rw [← h2]
    exact hPa
  · have hno : ∀ k ∈ kfs, ¬(k.time < rel - 0.01) := by
      intro k hk hlt
      obtain ⟨b, hb, hbeq⟩ := List.mem_iff_getElem.mp hk
      exact hex ⟨b, hb, by rw [List.getD_eq_getElem kfs default hb, hbeq]; exact hlt⟩
    unfold findPrevKf at h
    rw [fp_go_none rel kfs 0 none hno] at h
    exact absurd h (by simp)

/-- **C9, counterexample.**  In Focus mode with a playing state where a
keyframe more than `0.01s` ahead exists, the jump-to-next-keyframe command
selects it and seeks the playhead to it, but playback is **not** paused:
the handler returns before reaching `is_playing = false`. -/
theorem C9_counterexample :
    (handleNextKf ⟨⟨[⟨"ab".toList, none, 0, 2, [⟨0, 0⟩, ⟨1, 5⟩]⟩]⟩, 0, true, some 0, none⟩
      ).active_kf_index = some 1 ∧
    (handleNextKf ⟨⟨[⟨"ab".toList, none, 0, 2, [⟨0, 0⟩, ⟨1, 5⟩]⟩]⟩, 0, true, some 0, none⟩
      ).current_time = 1 ∧
    (handleNextKf ⟨⟨[⟨"ab".toList, none, 0, 2, [⟨0, 0⟩, ⟨1, 5⟩]⟩]⟩, 0, true, some 0, none⟩
      ).is_playing = true := by
  decide

/-- **C9, amended.**  For the jump-to-next/previous keyframe commands in
Focus mode: when a keyframe more than `0.01s` ahead (resp. behind) exists in
the current line, the first (resp. last) such keyframe is selected and the
playhead seeks to it, and the playing state is left unchanged (not paused);
only when the search is exhausted does the command pause playback, moving
focus to the adjacent line (first resp. last keyframe selected) when one
exists. -/
theorem C9_jump_pause_spec (s : AppJ) (idx : Nat)
    (hf : s.focus_line_index = some idx) (hl : idx < s.data.lines.length) :
    (∀ i kf, findNextKf (focusLine s idx).keyframes (relTimeAt s idx) = some (i, kf) →
      handleNextKf s =
        { s with
            active_kf_index := some i,
            current_time := (focusLine s idx).start + kf.time } ∧
      (handleNextKf s).is_playing = s.is_playing ∧
      i < (focusLine s idx).keyframes.length ∧
      (focusLine s idx).keyframes.getD i default = kf ∧
      kf.time > relTimeAt s idx + 0.01 ∧
      (∀ j, j < i →
        ¬(((focusLine s idx).keyframes.getD j default).time > relTimeAt s idx + 0.01))) ∧
    (findNextKf (focusLine s idx).keyframes (relTimeAt s idx) = none →
      (∀ k ∈ (focusLine s idx).keyframes, ¬(k.time > relTimeAt s idx + 0.01)) ∧
      (idx + 1 < s.data.lines.length →
        handleNextKf s =
          { s with
              focus_line_index := some (idx + 1),
              current_time := (s.data.lines.getD (idx + 1) default).start,
              active_kf_index := some 0,
              is_playing := false }) ∧
      (¬(idx + 1 < s.data.lines.length) →
        handleNextKf s = { s with is_playing := false })) ∧
    (∀ i kf, findPrevKf (focusLine s idx).keyframes (relTimeAt s idx) = some (i, kf) →
      handlePrevKf s =
        { s with
            active_kf_index := some i,
            current_time := (focusLine s idx).start + kf.time } ∧
      (handlePrevKf s).is_playing = s.is_playing ∧
      i < (focusLine s idx).keyframes.length ∧
      (focusLine s idx).keyframes.getD i default = kf ∧
      kf.time < relTimeAt s idx - 0.01 ∧
      (∀ j, i < j → j < (focusLine s idx).keyframes.length →
        ¬(((focusLine s idx).keyframes.getD j default).time < relTimeAt s idx - 0.01))) ∧
    (findPrevKf (focusLine s idx).keyframes (relTimeAt s idx) = none →
      (0 < idx →
        handlePrevKf s =
          { s with
              focus_line_index := some (idx - 1),
              current_time := (s.data.lines.getD (idx - 1) default).start,
              active_kf_index :=
                some ((s.data.lines.getD (idx - 1) default).keyframes.length - 1),
              is_playing := false }) ∧
      (¬(0 < idx) → handlePrevKf s = { s with is_playing := false })) := by
  have hk : s.data.lines[idx]? = some (s.data.lines.getD idx default) := by
    rw [List.getD_eq_getElem s.data.lines default hl]
    exact List.getElem?_eq_getElem hl
  have hfl : focusLine s idx = s.data.lines.getD idx default := rfl
  have hrt : relTimeAt s idx = s.current_time - (s.data.lines.getD idx default).start := rfl
  refine ⟨?_, ?_, ?_, ?_⟩
  · intro i kf hfind
    obtain ⟨a, ha1, ha2, ha3, ha4, ha5⟩ := fn_go_some (relTimeAt s idx)
      (focusLine s idx).keyframes 0 i kf hfind
    rw [Nat.zero_add] at ha1
    rw [hfl, hrt] at hfind
    have hh : handleNextKf s =
        { s with
            active_kf_index := some i,
            current_time := (focusLine s idx).start + kf.time } := by
      simp only [handleNextKf, hf, hk, hfind, hfl]
    exact ⟨hh, by rw [hh], ha1 ▸ ha2, ha1 ▸ ha3, ha4, ha1 ▸ ha5⟩
  · intro hfind
    rw [hfl, hrt] at hfind
    refine ⟨?_, ?_, ?_⟩
    · have := fn_go_none (s.current_time - (s.data.lines.getD idx default).start)
        (s.data.lines.getD idx default).keyframes 0 hfind
      rw [hfl, hrt]
      exact this
    · intro hnext
      simp only [handleNextKf, hf, hk, hfind, dif_pos hnext,
        List.getD_eq_getElem s.data.lines default hnext]
    · intro hnext
      simp only [handleNextKf, hf, hk, hfind, dif_neg hnext]
  · intro i kf hfind
    obtain ⟨ha2, ha3, ha4, ha5⟩ :=
      findPrevKf_some (focusLine s idx).keyframes (relTimeAt s idx) i kf hfind
    rw [hfl, hrt] at hfind
    have hh : handlePrevKf s =
        { s with
            active_kf_index := some i,
            current_time := (focusLine s idx).start + kf.time } := by
      simp only [handlePrevKf, hf, hk, hfind, hfl]
    exact ⟨hh, by rw [hh], ha2, ha3, ha4, ha5⟩
  · intro hfind
    rw [hfl, hrt] at hfind
    constructor
    · intro hpos
      have hl2 : idx - 1 < s.data.lines.length := by omega
      have hk2 : s.data.lines[idx - 1]? = some (s.data.lines.getD (idx - 1) default) := by
        rw [List.getD_eq_getElem s.data.lines default hl2]
        exact List.getElem?_eq_getElem hl2
      simp only [handlePrevKf, hf, hk, hfind, if_pos hpos, hk2]
    · intro hpos
      simp only [handlePrevKf, hf, hk, hfind, if_neg hpos]

/-- Witness for C9: on a concrete two-line state focused on line `1`, the
found case of `'k'` leaves `is_playing` unchanged, and the exhausted case
of `'j'` moves focus to line `0`, selects its last keyframe, and pauses. -/
theorem C9_witness :
    ((handleNextKf ⟨⟨[⟨"a".toList, none, 0, 1, [⟨0, 0⟩]⟩,
        ⟨"b".toList, none, 1, 2, [⟨0, 0⟩, ⟨0.5, 1⟩]⟩]⟩, 1, true, some 1, none⟩).is_playing =
      true) ∧
    (handlePrevKf ⟨⟨[⟨"a".toList, none, 0, 1, [⟨0, 0⟩]⟩,
        ⟨"b".toList, none, 1, 2, [⟨0, 0⟩, ⟨0.5, 1⟩]⟩]⟩, 1, true, some 1, none⟩ =
      ⟨⟨[⟨"a".toList, none, 0, 1, [⟨0, 0⟩]⟩,
        ⟨"b".toList, none, 1, 2, [⟨0, 0⟩, ⟨0.5, 1⟩]⟩]⟩, 0, false, some 0, some 0⟩) := by
  have h := C9_jump_pause_spec ⟨⟨[⟨"a".toList, none, 0, 1, [⟨0, 0⟩]⟩,
    ⟨"b".toList, none, 1, 2, [⟨0, 0⟩, ⟨0.5, 1⟩]⟩]⟩, 1, true, some 1, none⟩ 1 rfl (by decide)
  constructor
  · exact (h.1 1 ⟨0.5, 1⟩ (by decide)).2.1
  · have h2 := (h.2.2.2 (by decide)).1 (by decide)
    rw [h2]
    decide

-- ## Decode-pipeline inversion lemmas (shared by C4, C6, C10, C5, C1)

/-- If decoding succeeds, each pipeline stage succeeded, and the result is
the stage-4 output. -/
theorem from_str_ok_inv (input : List Char) (d : AnimationData)
    (hok : AnimationData.from_str input = Except.ok d) :
    ∃ sec0 sec1 rest lbl_raw lsk_raw,
      splitOnSub DATA_SECTION_SPLIT_MARKER input = sec0 :: sec1 :: rest ∧
      extract_data (trimWs sec1) LINE_BY_LINE_TIMESTAMP_MARKER = Except.ok lbl_raw ∧
      extract_data (trimWs sec1) LINE_SYLABLE_KEYFRAME_MARKER = Except.ok lsk_raw ∧
      (splitChar ',' lbl_raw).length = (parseTextSection (trimWs sec0)).length ∧
      d = ⟨applyKfGroups
            (List.zipWith applyTs (parseTextSection (trimWs sec0)) (splitChar ',' lbl_raw))
            (splitOnSub KF_GROUP_SEP lsk_raw)⟩ := by
  unfold AnimationData.from_str at hok
  cases hsec : splitOnSub DATA_SECTION_SPLIT_MARKER input with
  | nil =>
    rw [hsec] at hok
    exact Except.noConfusion hok
  | cons sec0 tail =>
    cases tail with
    | nil =>
      rw [hsec] at hok
      exact Except.noConfusion hok
    | cons sec1 rest =>
      rw [hsec] at hok
      replace hok : from_str_tail (trimWs sec0) (trimWs sec1) = Except.ok d := hok
      cases hlbl : extract_data (trimWs sec1) LINE_BY_LINE_TIMESTAMP_MARKER with
      | error e =>
        rw [from_str_tail_lbl_error _ _ _ hlbl] at hok
        exact Except.noConfusion hok
      | ok lbl_raw =>
        cases hlsk : extract_data (trimWs sec1) LINE_SYLABLE_KEYFRAME_MARKER with
        | error e =>
          rw [from_str_tail_lsk_error _ _ _ _ hlbl hlsk] at hok
          exact Except.noConfusion hok
        | ok lsk_raw =>
          by_cases hcnt :
            (splitChar ',' lbl_raw).length = (parseTextSection (trimWs sec0)).length
          · rw [from_str_tail_ok _ _ _ _ hlbl hlsk hcnt] at hok
            exact ⟨sec0, sec1, rest, lbl_raw, lsk_raw, rfl, hlbl, hlsk, hcnt,
              (Except.ok.inj hok).symm⟩
          · rw [from_str_tail_cnt_error _ _ _ _ hlbl hlsk hcnt] at hok
            exact Except.noConfusion hok

/-- If each stage succeeds, decoding succeeds with the stage-4 output. -/
theorem from_str_eq_ok (input sec0 sec1 : List Char) (rest : List (List Char))
    (lbl_raw lsk_raw : List Char)
    (hsec : splitOnSub DATA_SECTION_SPLIT_MARKER input = sec0 :: sec1 :: rest)
    (hlbl : extract_data (trimWs sec1) LINE_BY_LINE_TIMESTAMP_MARKER = Except.ok lbl_raw)
    (hlsk : extract_data (trimWs sec1) LINE_SYLABLE_KEYFRAME_MARKER = Except.ok lsk_raw)
    (hcnt : (splitChar ',' lbl_raw).length = (parseTextSection (trimWs sec0)).length) :
    AnimationData.from_str input = Except.ok
      ⟨applyKfGroups
        (List.zipWith applyTs (parseTextSection (trimWs sec0)) (splitChar ',' lbl_raw))
        (splitOnSub KF_GROUP_SEP lsk_raw)⟩ := by
  unfold AnimationData.from_str
  rw [hsec]
  show from_str_tail (trimWs sec0) (trimWs sec1) = _
  exact from_str_tail_ok _ _ _ _ hlbl hlsk hcnt

-- ## C6: keyframe sequences stay sorted

theorem parseLinesGo_keyframes : ∀ (cp : Option (List Char)) (fs : List (List Char)),
    ∀ l ∈ parseLinesGo cp fs, l.keyframes = [] := by
  intro cp fs
  induction fs generalizing cp with
  | nil =>
    intro l hl
    simp [parseLinesGo] at hl
  | cons f fs' ih =>
    intro l hl
    unfold parseLinesGo at hl
    by_cases h1 : trimWs f = []
    · rw [if_pos h1] at hl
      exact ih cp l hl
    · rw [if_neg h1] at hl
      by_cases h2 : (trimWs f).head? = some '[' ∧ (trimWs f).getLast? = some ']'
      · rw [if_pos h2] at hl
        exact ih _ l hl
      · rw [if_neg h2] at hl
        rcases List.mem_cons.mp hl with h | h
        · rw [h]
        · exact ih cp l h

theorem applyTs_keyframes (l : LyricLine) (p : List Char) :
    (applyTs l p).keyframes = l.keyframes := by
  unfold applyTs
  split
  · rfl
  · rfl

theorem mem_zipWith_exists {α β γ : Type} (f : α → β → γ) :
    ∀ (as : List α) (bs : List β) (c : γ), c ∈ List.zipWith f as bs →
    ∃ a ∈ as, ∃ b ∈ bs, c = f a b := by
  intro as
  induction as with
  | nil =>
    intro bs c hc
    simp at hc
  | cons a as' ih =>
    intro bs c hc
    cases bs with
    | nil => simp at hc
    | cons b bs' =>
      rcases List.mem_cons.mp hc with h | h
      · exact ⟨a, List.mem_cons_self a as', b, List.mem_cons_self b bs', h⟩
      · obtain ⟨a2, ha2, b2, hb2, hc2⟩ := ih bs' c h
        exact ⟨a2, List.mem_cons_of_mem a ha2, b2, List.mem_cons_of_mem b hb2, hc2⟩

theorem applyKfGroups_mem : ∀ (ls : List LyricLine) (gs : List (List Char)),
    ∀ l ∈ applyKfGroups ls gs, (∃ l0 ∈ ls, ∃ g, l = applyGroup l0 g) ∨ l ∈ ls := by
  intro ls
  induction ls with
  | nil =>
    intro gs l hl
    cases gs with
    | nil => simp [applyKfGroups] at hl
    | cons g gs' => simp [applyKfGroups] at hl
  | cons l0 ls' ih =>
    intro gs l hl
    cases gs with
    | nil =>
      exact Or.inr hl
    | cons g gs' =>
      unfold applyKfGroups at hl
      rcases List.mem_cons.mp hl with h | h
      · exact Or.inl ⟨l0, List.mem_cons_self l0 ls', g, h⟩
      · rcases ih gs' l h with ⟨l2, hl2, g2, he⟩ | hmem
        · exact Or.inl ⟨l2, List.mem_cons_of_mem l0 hl2, g2, he⟩
        · exact Or.inr (List.mem_cons_of_mem l0 hmem)

theorem applyGroup_sorted (l : LyricLine) (g : List Char) :
    List.Sorted kfLe ((applyGroup l g)).keyframes :=
  List.sorted_insertionSort kfLe _

/-- **C6.**  Every operation that adds, removes or reorders keyframes keeps
each line's keyframe sequence sorted ascending by time: `add_keyframe`, the
Focus-mode add command, the remove command (on a sorted line), and every
line of a successfully decoded document. -/
theorem C6_keyframes_sorted :
    (∀ (l : LyricLine) (t i : ℚ), List.Sorted kfLe (l.add_keyframe t i).keyframes) ∧
    (∀ (l : LyricLine) (rel : ℚ), List.Sorted kfLe (addKfCommand l rel).keyframes) ∧
    (∀ (l : LyricLine) (rel : ℚ), List.Sorted kfLe l.keyframes →
      List.Sorted kfLe (removeKfCommand l rel).keyframes) ∧
    (∀ (input : List Char) (d : AnimationData),
      AnimationData.from_str input = Except.ok d →
      ∀ l ∈ d.lines, List.Sorted kfLe l.keyframes) := by
  refine ⟨?_, ?_, ?_, ?_⟩
  · intro l t i
    exact List.sorted_insertionSort kfLe _
  · intro l rel
    exact List.sorted_insertionSort kfLe _
  · intro l rel hs
    unfold removeKfCommand
    by_cases h : l.keyframes.length > 1
    · rw [if_pos h]
      cases hfc : find_closest_kf_idx l.keyframes rel with
      | none => exact hs
      | some ki =>
        exact List.Pairwise.sublist (List.eraseIdx_sublist l.keyframes ki) hs
    · rw [if_neg h]
      exact hs
  · intro input d hok l hl
    obtain ⟨sec0, sec1, rest, lbl_raw, lsk_raw, hsec, hlbl, hlsk, hcnt, hd⟩ :=
      from_str_ok_inv input d hok
    rw [hd] at hl
    rcases applyKfGroups_mem _ _ l hl with ⟨l2, _, g, he⟩ | hmem
    · rw [he]
      exact applyGroup_sorted l2 g
    · obtain ⟨l3, hl3, p, _, he⟩ := mem_zipWith_exists applyTs _ _ l hmem
      have hkf : l.keyframes = [] := by
        rw [he, applyTs_keyframes]
        exact parseLinesGo_keyframes none _ l3 hl3
      rw [hkf]
      exact List.Pairwise.nil

/-- Witness for C6: a removal on a concrete sorted line stays sorted, and
the single line of a concrete decoded document has sorted keyframes (the
second conjunct's line value is exactly the decode of the document in the
proof). -/
theorem C6_witness :
    List.Sorted kfLe
      (removeKfCommand ⟨"ab".toList, none, 0, 2, [⟨0, 0⟩, ⟨1, 1⟩, ⟨2, 2⟩]⟩ 0.4).keyframes ∧
    List.Sorted kfLe
      (⟨"hi".toList, none, 0, 2, [⟨0.2, 0.2⟩, ⟨1, 1⟩]⟩ : LyricLine).keyframes := by
  constructor
  · exact (C6_keyframes_sorted).2.2.1 ⟨"ab".toList, none, 0, 2, [⟨0, 0⟩, ⟨1, 1⟩, ⟨2, 2⟩]⟩ 0.4
      (by decide)
  · exact (C6_keyframes_sorted).2.2.2
      ("hi\n[//]\n[lbl][0.000/2.000]\n[lsk][(1.0/0.5,0.2/0.1)]".toList)
      ⟨[⟨"hi".toList, none, 0, 2, [⟨0.2, 0.2⟩, ⟨1, 1⟩]⟩]⟩ (by decide)
      ⟨"hi".toList, none, 0, 2, [⟨0.2, 0.2⟩, ⟨1, 1⟩]⟩ (by decide)

-- ## C4 and C10: the decode failure conditions

theorem splitOnSubGo_ne_nil (sep : List Char) :
    ∀ (fuel : Nat) (s : List Char), splitOnSubGo sep fuel s ≠ [] := by
  intro fuel s
  cases fuel with
  | zero => exact List.cons_ne_nil s []
  | succ f =>
    unfold splitOnSubGo
    cases findSub sep s with
    | none => exact List.cons_ne_nil s []
    | some pos => exact List.cons_ne_nil _ _

theorem splitOnSub_of_findSub_none (sep s : List Char) (h : findSub sep s = none) :
    splitOnSub sep s = [s] := by
  unfold splitOnSub
  show (match findSub sep s with
    | none => [s]
    | some pos => s.take pos :: splitOnSubGo sep s.length (s.drop (pos + sep.length))) = [s]
  rw [h]

theorem splitOnSub_of_findSub_some (sep s : List Char) (pos : Nat)
    (h : findSub sep s = some pos) :
    splitOnSub sep s =
      s.take pos :: splitOnSubGo sep s.length (s.drop (pos + sep.length)) := by
  unfold splitOnSub
  show (match findSub sep s with
    | none => [s]
    | some pos => s.take pos :: splitOnSubGo sep s.length (s.drop (pos + sep.length))) = _
  rw [h]

/-- When the separator occurs, the section list has the two-section shape. -/
theorem sections_shape_of_some (input : List Char) (pos : Nat)
    (h : findSub DATA_SECTION_SPLIT_MARKER input = some pos) :
    ∃ sec0 sec1 rest,
      splitOnSub DATA_SECTION_SPLIT_MARKER input = sec0 :: sec1 :: rest := by
  rw [splitOnSub_of_findSub_some _ _ _ h]
  cases hgo : splitOnSubGo DATA_SECTION_SPLIT_MARKER input.length
      (input.drop (pos + DATA_SECTION_SPLIT_MARKER.length)) with
  | nil => exact absurd hgo (splitOnSubGo_ne_nil _ _ _)
  | cons sec1 rest => exact ⟨_, sec1, rest, rfl⟩

/-- The section list the decoder splits the input into. -/
def sectionsOf (input : List Char) : List (List Char) :=
  splitOnSub DATA_SECTION_SPLIT_MARKER input

/-- The trimmed text section (`sections[0].trim()`). -/
def textSectionTrim (input : List Char) : List Char := trimWs ((sectionsOf input).getD 0 [])

/-- The trimmed data section (`sections[1].trim()`). -/
def dataSectionOf (input : List Char) : List Char := trimWs ((sectionsOf input).getD 1 [])

/-- The timestamp-block extraction on the data section. -/
def lblExtract (input : List Char) : Except (List Char) (List Char) :=
  extract_data (dataSectionOf input) LINE_BY_LINE_TIMESTAMP_MARKER

/-- The keyframe-block extraction on the data section. -/
def lskExtract (input : List Char) : Except (List Char) (List Char) :=
  extract_data (dataSectionOf input) LINE_SYLABLE_KEYFRAME_MARKER

/-- The lines parsed from the text section. -/
def parsedLinesOf (input : List Char) : List LyricLine :=
  parseTextSection (textSectionTrim input)

/-- **C4.**  Decoding fails — with a whole-document error and no partial
model — exactly when the separator is absent, a metadata extraction fails
(missing marker or missing bracket), or the timestamp count differs from
the parsed line count; a missing separator yields the separator error
message, a count mismatch yields the distinct mismatch message, and every
extraction error is propagated verbatim. -/
theorem C4_decode_failure_spec (input : List Char) :
    ((∃ e, AnimationData.from_str input = Except.error e) ↔
      (findSub DATA_SECTION_SPLIT_MARKER input = none ∨
       (∃ e, lblExtract input = Except.error e) ∨
       (∃ e, lskExtract input = Except.error e) ∨
       (∃ lbl_raw, lblExtract input = Except.ok lbl_raw ∧
         (splitChar ',' lbl_raw).length ≠ (parsedLinesOf input).length))) ∧
    (findSub DATA_SECTION_SPLIT_MARKER input = none →
      AnimationData.from_str input = Except.error msgNoSep) ∧
    (∀ e, findSub DATA_SECTION_SPLIT_MARKER input ≠ none →
      lblExtract input = Except.error e →
      AnimationData.from_str input = Except.error e) ∧
    (∀ lbl_raw e, findSub DATA_SECTION_SPLIT_MARKER input ≠ none →
      lblExtract input = Except.ok lbl_raw → lskExtract input = Except.error e →
      AnimationData.from_str input = Except.error e) ∧
    (∀ lbl_raw lsk_raw, findSub DATA_SECTION_SPLIT_MARKER input ≠ none →
      lblExtract input = Except.ok lbl_raw → lskExtract input = Except.ok lsk_raw →
      (splitChar ',' lbl_raw).length ≠ (parsedLinesOf input).length →
      AnimationData.from_str input = Except.error msgMismatch) ∧
    msgNoSep ≠ msgMismatch := by
  have hE1 : findSub DATA_SECTION_SPLIT_MARKER input = none →
      AnimationData.from_str input = Except.error msgNoSep := by
    intro h
    unfold AnimationData.from_str
    rw [splitOnSub_of_findSub_none _ _ h]
  have hshape : findSub DATA_SECTION_SPLIT_MARKER input ≠ none →
      ∃ sec0 sec1 rest,
        splitOnSub DATA_SECTION_SPLIT_MARKER input = sec0 :: sec1 :: rest ∧
        textSectionTrim input = trimWs sec0 ∧ dataSectionOf input = trimWs sec1 := by
    intro h
    cases hf : findSub DATA_SECTION_SPLIT_MARKER input with
    | none => exact absurd hf h
    | some pos =>
      obtain ⟨sec0, sec1, rest, hsec⟩ := sections_shape_of_some input pos hf
      refine ⟨sec0, sec1, rest, hsec, ?_, ?_⟩
      · unfold textSectionTrim sectionsOf
        rw [hsec]
        rfl
      · unfold dataSectionOf sectionsOf
        rw [hsec]
        rfl
  have hE2 : ∀ e, findSub DATA_SECTION_SPLIT_MARKER input ≠ none →
      lblExtract input = Except.error e →
      AnimationData.from_str input = Except.error e := by
    intro e h hlbl
    obtain ⟨sec0, sec1, rest, hsec, hts, hds⟩ := hshape h
    unfold AnimationData.from_str
    rw [hsec]
    show from_str_tail (trimWs sec0) (trimWs sec1) = _
    refine from_str_tail_lbl_error _ _ _ ?_
    rw [← hds]
    exact hlbl
  have hE3 : ∀ lbl_raw e, findSub DATA_SECTION_SPLIT_MARKER input ≠ none →
      lblExtract input = Except.ok lbl_raw → lskExtract input = Except.error e →
      AnimationData.from_str input = Except.error e := by
    intro lbl_raw e h hlbl hlsk
    obtain ⟨sec0, sec1, rest, hsec, hts, hds⟩ := hshape h
    unfold AnimationData.from_str
    rw [hsec]
    show from_str_tail (trimWs sec0) (trimWs sec1) = _
    refine from_str_tail_lsk_error _ _ lbl_raw _ ?_ ?_
    · rw [← hds]; exact hlbl
    · rw [← hds]; exact hlsk
  have hE4 : ∀ lbl_raw lsk_raw, findSub DATA_SECTION_SPLIT_MARKER input ≠ none →
      lblExtract input = Except.ok lbl_raw → lskExtract input = Except.ok lsk_raw →
      (splitChar ',' lbl_raw).length ≠ (parsedLinesOf input).length →
      AnimationData.from_str input = Except.error msgMismatch := by
    intro lbl_raw lsk_raw h hlbl hlsk hcnt
    obtain ⟨sec0, sec1, rest, hsec, hts, hds⟩ := hshape h
    unfold AnimationData.from_str
    rw [hsec]
    show from_str_tail (trimWs sec0) (trimWs sec1) = _
    refine from_str_tail_cnt_error _ _ lbl_raw lsk_raw ?_ ?_ ?_
    · rw [← hds]; exact hlbl
    · rw [← hds]; exact hlsk
    · unfold parsedLinesOf at hcnt
      rw [hts] at hcnt
      exact hcnt
  refine ⟨?_, hE1, hE2, hE3, hE4, by decide⟩
  constructor
  · rintro ⟨e, herr⟩
    cases hf : findSub DATA_SECTION_SPLIT_MARKER input with
    | none => exact Or.inl rfl
    | some pos =>
      have hne : findSub DATA_SECTION_SPLIT_MARKER input ≠ none := by rw [hf]; simp
      obtain ⟨sec0, sec1, rest, hsec, hts, hds⟩ := hshape hne
      cases hlbl : lblExtract input with
      | error e2 => exact Or.inr (Or.inl ⟨e2, rfl⟩)
      | ok lbl_raw =>
        cases hlsk : lskExtract input with
        | error e2 => exact Or.inr (Or.inr (Or.inl ⟨e2, rfl⟩))
        | ok lsk_raw =>
          by_cases hcnt : (splitChar ',' lbl_raw).length = (parsedLinesOf input).length
          · exfalso
            have hok := from_str_eq_ok input sec0 sec1 rest lbl_raw lsk_raw hsec
              (by rw [← hds]; exact hlbl) (by rw [← hds]; exact hlsk)
              (by unfold parsedLinesOf at hcnt; rw [hts] at hcnt; exact hcnt)
            rw [herr] at hok
            exact Except.noConfusion hok
          · exact Or.inr (Or.inr (Or.inr ⟨lbl_raw, rfl, hcnt⟩))
  · intro hcond
    rcases hcond with h | ⟨e, h⟩ | ⟨e, h⟩ | ⟨lbl_raw, hlbl, hcnt⟩
    · exact ⟨msgNoSep, hE1 h⟩
    · by_cases hf : findSub DATA_SECTION_SPLIT_MARKER input = none
      · exact ⟨msgNoSep, hE1 hf⟩
      · exact ⟨e, hE2 e hf h⟩
    · by_cases hf : findSub DATA_SECTION_SPLIT_MARKER input = none
      · exact ⟨msgNoSep, hE1 hf⟩
      · cases hlbl : lblExtract input with
        | error e2 => exact ⟨e2, hE2 e2 hf hlbl⟩
        | ok lbl_raw => exact ⟨e, hE3 lbl_raw e hf hlbl h⟩
    · by_cases hf : findSub DATA_SECTION_SPLIT_MARKER input = none
      · exact ⟨msgNoSep, hE1 hf⟩
      · cases hlsk : lskExtract input with
        | error e2 => exact ⟨e2, hE3 lbl_raw e2 hf hlbl hlsk⟩
        | ok lsk_raw => exact ⟨msgMismatch, hE4 lbl_raw lsk_raw hf hlbl hlsk hcnt⟩

/-- Witness for C4: a string with no separator fails with the separator
message, and a two-line document with one timestamp entry fails with the
distinct mismatch message. -/
theorem C4_witness :
    AnimationData.from_str ("abc".toList) = Except.error msgNoSep ∧
    AnimationData.from_str ("a\nb\n[//]\n[lbl][1/2]\n[lsk][]".toList) =
      Except.error msgMismatch := by
  constructor
  · exact (C4_decode_failure_spec ("abc".toList)).2.1 (by decide)
  · exact (C4_decode_failure_spec ("a\nb\n[//]\n[lbl][1/2]\n[lsk][]".toList)).2.2.2.2.1
      ("1/2".toList) [] (by decide) (by decide) (by decide) (by decide)

theorem applyKfGroups_length : ∀ (ls : List LyricLine) (gs : List (List Char)),
    (applyKfGroups ls gs).length = ls.length := by
  intro ls
  induction ls with
  | nil =>
    intro gs
    cases gs with
    | nil => rfl
    | cons g gs' => rfl
  | cons l ls' ih =>
    intro gs
    cases gs with
    | nil => rfl
    | cons g gs' =>
      unfold applyKfGroups
      rw [List.length_cons, List.length_cons, ih gs']

theorem applyKfGroups_getD_of_ge : ∀ (ls : List LyricLine) (gs : List (List Char)) (i : Nat),
    gs.length ≤ i → (applyKfGroups ls gs).getD i default = ls.getD i default := by
  intro ls
  induction ls with
  | nil =>
    intro gs i _
    cases gs with
    | nil => rfl
    | cons g gs' => rfl
  | cons l ls' ih =>
    intro gs i hge
    cases gs with
    | nil => rfl
    | cons g gs' =>
      unfold applyKfGroups
      cases i with
      | zero => simp at hge
      | succ j =>
        rw [List.getD_cons_succ, List.getD_cons_succ]
        exact ih gs' j (by simpa [List.length_cons, Nat.succ_le_succ_iff] using hge)

theorem zipWith_applyTs_getD_keyframes : ∀ (ls : List LyricLine) (ps : List (List Char))
    (i : Nat), i < ls.length → i < ps.length →
    ((List.zipWith applyTs ls ps).getD i default).keyframes =
      (ls.getD i default).keyframes := by
  intro ls
  induction ls with
  | nil =>
    intro ps i h1 _
    simp at h1
  | cons l ls' ih =>
    intro ps i h1 h2
    cases ps with
    | nil => simp at h2
    | cons p ps' =>
      rw [List.zipWith_cons_cons]
      cases i with
      | zero =>
        rw [List.getD_cons_zero, List.getD_cons_zero]
        exact applyTs_keyframes l p
      | succ j =>
        rw [List.getD_cons_succ, List.getD_cons_succ]
        exact ih ps' j (by simpa [List.length_cons] using h1)
          (by simpa [List.length_cons] using h2)

/-- **C10.**  Decoding never fails because of the keyframe-group count:
once the separator, both extractions and the timestamp count are in order,
the decode succeeds, the number of lines equals the number of parsed text
lines (extra keyframe groups are silently ignored), and every line beyond
the group count keeps an empty keyframe list. -/
theorem C10_kf_group_count (input lbl_raw lsk_raw : List Char)
    (hsep : findSub DATA_SECTION_SPLIT_MARKER input ≠ none)
    (hlbl : lblExtract input = Except.ok lbl_raw)
    (hlsk : lskExtract input = Except.ok lsk_raw)
    (hcnt : (splitChar ',' lbl_raw).length = (parsedLinesOf input).length) :
    ∃ d, AnimationData.from_str input = Except.ok d ∧
      d.lines.length = (parsedLinesOf input).length ∧
      ∀ i, (splitOnSub KF_GROUP_SEP lsk_raw).length ≤ i → i < d.lines.length →
        (d.lines.getD i default).keyframes = [] := by
  cases hf : findSub DATA_SECTION_SPLIT_MARKER input with
  | none => exact absurd hf hsep
  | some pos =>
    obtain ⟨sec0, sec1, rest, hsec⟩ := sections_shape_of_some input pos hf
    have hts : textSectionTrim input = trimWs sec0 := by
      unfold textSectionTrim sectionsOf
      rw [hsec]
      rfl
    have hds : dataSectionOf input = trimWs sec1 := by
      unfold dataSectionOf sectionsOf
      rw [hsec]
      rfl
    have hok := from_str_eq_ok input sec0 sec1 rest lbl_raw lsk_raw hsec
      (by rw [← hds]; exact hlbl) (by rw [← hds]; exact hlsk)
      (by unfold parsedLinesOf at hcnt; rw [hts] at hcnt; exact hcnt)
    refine ⟨_, hok, ?_, ?_⟩
    · rw [applyKfGroups_length, List.length_zipWith, hcnt]
      unfold parsedLinesOf
      rw [hts]
      exact Nat.min_self _
    · intro i hge hlt
      have hlen : (List.zipWith applyTs (parseTextSection (trimWs sec0))
          (splitChar ',' lbl_raw)).length = (parseTextSection (trimWs sec0)).length := by
        rw [List.length_zipWith]
        unfold parsedLinesOf at hcnt
        rw [hts] at hcnt
        rw [hcnt]
        exact Nat.min_self _
      have hlt2 : i < (parseTextSection (trimWs sec0)).length := by
        rw [applyKfGroups_length, hlen] at hlt
        exact hlt
      rw [applyKfGroups_getD_of_ge _ _ i hge]
      rw [zipWith_applyTs_getD_keyframes _ _ i hlt2 (by
        unfold parsedLinesOf at hcnt
        rw [hts] at hcnt
        rw [hcnt]
        exact hlt2)]
      have hmem : (parseTextSection (trimWs sec0)).getD i default ∈
          parseTextSection (trimWs sec0) := by
        rw [List.getD_eq_getElem _ default hlt2]
        exact List.getElem_mem hlt2
      exact parseLinesGo_keyframes none _ _ hmem

/-- Witness for C10: a two-line document with a single keyframe group
decodes successfully and leaves the second line's keyframes empty. -/
theorem C10_witness :
    ∃ d, AnimationData.from_str ("a\nb\n[//]\n[lbl][1/2,3/4]\n[lsk][(0.5/0.5)]".toList) =
        Except.ok d ∧
      d.lines.length =
        (parsedLinesOf ("a\nb\n[//]\n[lbl][1/2,3/4]\n[lsk][(0.5/0.5)]".toList)).length ∧
      (d.lines.getD 1 default).keyframes = [] := by
  obtain ⟨d, h1, h2, h3⟩ := C10_kf_group_count
    ("a\nb\n[//]\n[lbl][1/2,3/4]\n[lsk][(0.5/0.5)]".toList)
    ("1/2,3/4".toList) ("(0.5/0.5)".toList)
    (by decide) (by decide) (by decide) (by decide)
  refine ⟨d, h1, h2, h3 1 (by decide) ?_⟩
  rw [h2]
  decide

-- ## C1 and C5: counterexamples

/-- **C1, counterexample.**  The empty `AnimationData` satisfies every
hypothesis of the claim vacuously (no line texts at all), yet decoding its
encoding fails: the empty timestamp block splits into one (empty) entry
while zero lines were parsed, so `from_str` reports the count mismatch
instead of reproducing the value. -/
theorem C1_counterexample :
    AnimationData.from_str (AnimationData.toString ⟨[]⟩) = Except.error msgMismatch := by
  decide

/-- **C5, counterexample.**  In a decode that succeeds, a keyframe entry
with an unparsable time (`x/0.5`) is silently dropped from the line — the
resulting line has **no** keyframes — rather than appearing with the field
defaulted to `0.0` as the claim states. -/
theorem C5_counterexample :
    AnimationData.from_str ("hi\n[//]\n[lbl][x/2.5]\n[lsk][(x/0.5)]".toList) =
      Except.ok ⟨[⟨"hi".toList, none, 0, 2.5, []⟩]⟩ ∧
    (Keyframe.from_string_pct ("x/0.5".toList) 2 = none) := by
  constructor
  · decide
  · decide

-- ## Number formatting and parsing lemmas (towards C5 and C1)

theorem natDigit_toNat (n : Nat) (h : n < 10) : (natDigit n).toNat = 48 + n := by
  interval_cases n <;> rfl

theorem natDigit_isDigit (n : Nat) (h : n < 10) : (natDigit n).isDigit = true := by
  interval_cases n <;> rfl

/-- A digit character differs from every non-digit character. -/
theorem isDigit_ne (c : Char) (h : c.isDigit = true) (x : Char)
    (hx : x.isDigit = false) : c ≠ x := by
  intro he
  rw [he, hx] at h
  exact Bool.noConfusion h

/-- Digit characters are not whitespace. -/
theorem not_ws_of_isDigit (c : Char) (h : c.isDigit = true) : isWs c = false := by
  by_cases h1 : c = ' '
  · rw [h1] at h; exact absurd h (by decide)
  by_cases h2 : c = '\t'
  · rw [h2] at h; exact absurd h (by decide)
  by_cases h3 : c = '\n'
  · rw [h3] at h; exact absurd h (by decide)
  by_cases h4 : c = '\r'
  · rw [h4] at h; exact absurd h (by decide)
  unfold isWs
  rw [beq_false_of_ne h1, beq_false_of_ne h2, beq_false_of_ne h3, beq_false_of_ne h4]
  rfl

theorem digitsVal_append_singleton (a : List Char) (c : Char) :
    digitsVal (a ++ [c]) = digitsVal a * 10 + (c.toNat - 48) := by
  unfold digitsVal
  rw [List.foldl_append]
  rfl

theorem ntdGo_fuel_eq : ∀ (n f1 f2 : Nat), n < f1 → n < f2 → ntdGo f1 n = ntdGo f2 n := by
  intro n
  induction n using Nat.strong_induction_on with
  | _ n ih =>
    intro f1 f2 h1 h2
    cases f1 with
    | zero => omega
    | succ g1 =>
      cases f2 with
      | zero => omega
      | succ g2 =>
        simp only [ntdGo]

theorem natToDigits_spec : ∀ n : Nat,
    digitsVal (natToDigits n) = n ∧ natToDigits n ≠ [] ∧
    ∀ c ∈ natToDigits n, c.isDigit = true := by
  intro n
  induction n using Nat.strong_induction_on with
  | _ n ih =>
    by_cases h : n < 10
    · have he : natToDigits n = [natDigit n] := by
        unfold natToDigits
        simp only [ntdGo]
        rw [if_pos h]
        rfl
      refine ⟨?_, by rw [he]; exact List.cons_ne_nil _ _, ?_⟩
      · rw [he]
        show 0 * 10 + ((natDigit n).toNat - 48) = n
        rw [natDigit_toNat n h]
        omega
      · intro c hc
        rw [he] at hc
        rcases List.mem_singleton.mp hc with h2
        rw [h2]
        exact natDigit_isDigit n h
    · have hd : n / 10 < n := Nat.div_lt_self (by omega) (by omega)
      have he : natToDigits n = natToDigits (n / 10) ++ [natDigit (n % 10)] := by
        unfold natToDigits
        simp only [ntdGo]
        rw [if_neg h, List.reverse_cons, ntdGo_fuel_eq (n / 10) n (n / 10 + 1) hd (by omega)]
        simp only [ntdGo]
      obtain ⟨ihv, ihne, ihd⟩ := ih (n / 10) hd
      refine ⟨?_, ?_, ?_⟩
      · rw [he, digitsVal_append_singleton, ihv, natDigit_toNat (n % 10) (by omega)]
        omega
      · rw [he]
        intro hcon
        exact ihne (List.append_eq_nil.mp hcon).1
      · intro c hc
        rw [he] at hc
        rcases List.mem_append.mp hc with h2 | h2
        · exact ihd c h2
        · rw [List.mem_singleton.mp h2]
          exact natDigit_isDigit (n % 10) (by omega)

theorem natToDigits_length_one (m : Nat) (h : m < 10) : natToDigits m = [natDigit m] := by
  unfold natToDigits
  simp only [ntdGo]
  rw [if_pos h]
  rfl

theorem natToDigits_length_two (m : Nat) (h1 : 10 ≤ m) (h2 : m < 100) :
    natToDigits m = [natDigit (m / 10), natDigit (m % 10)] := by
  unfold natToDigits
  simp only [ntdGo]
  rw [if_neg (by omega)]
  rw [ntdGo_fuel_eq (m / 10) m (m / 10 + 1) (by omega) (by omega)]
  simp only [ntdGo]
  rw [if_pos (by omega)]
  rfl

theorem natToDigits_length_three (m : Nat) (h1 : 100 ≤ m) (h2 : m < 1000) :
    natToDigits m = [natDigit (m / 10 / 10), natDigit (m / 10 % 10), natDigit (m % 10)] := by
  unfold natToDigits
  simp only [ntdGo]
  rw [if_neg (by omega)]
  rw [ntdGo_fuel_eq (m / 10) m (m / 10 + 1) (by omega) (by omega)]
  simp only [ntdGo]
  rw [if_neg (by omega)]
  rw [ntdGo_fuel_eq (m / 10 / 10) (m / 10) (m / 10 / 10 + 1) (by omega) (by omega)]
  simp only [ntdGo]
  rw [if_pos (by omega)]
  rfl

theorem digitsVal_cons (c : Char) (t : List Char) :
    digitsVal (c :: t) = List.foldl (fun a x => a * 10 + (x.toNat - 48)) (c.toNat - 48) t := by
  unfold digitsVal
  simp [List.foldl_cons]

theorem pad3_spec (m : Nat) (h : m < 1000) :
    (pad3 m).length = 3 ∧ digitsVal (pad3 m) = m ∧ ∀ c ∈ pad3 m, c.isDigit = true := by
  obtain ⟨hv, hne, hd⟩ := natToDigits_spec m
  unfold pad3
  by_cases h1 : m < 10
  · rw [if_pos h1, natToDigits_length_one m h1]
    refine ⟨rfl, ?_, ?_⟩
    · unfold digitsVal
      simp only [List.foldl_cons, List.foldl_nil]
      rw [natDigit_toNat m h1]
      have h48 : ('0').toNat = 48 := rfl
      rw [h48]
      omega
    · intro c hc
      rcases List.mem_cons.mp hc with h2 | hc
      · rw [h2]; rfl
      rcases List.mem_cons.mp hc with h2 | hc
      · rw [h2]; rfl
      rw [List.mem_singleton.mp hc]
      exact natDigit_isDigit m h1
  · rw [if_neg h1]
    by_cases h2 : m < 100
    · rw [if_pos h2, natToDigits_length_two m (by omega) h2]
      refine ⟨rfl, ?_, ?_⟩
      · unfold digitsVal
        simp only [List.foldl_cons, List.foldl_nil]
        rw [natDigit_toNat (m / 10) (by omega), natDigit_toNat (m % 10) (by omega)]
        have h48 : ('0').toNat = 48 := rfl
        rw [h48]
        omega
      · intro c hc
        rcases List.mem_cons.mp hc with h3 | hc
        · rw [h3]; rfl
        rcases List.mem_cons.mp hc with h3 | hc
        · rw [h3]; exact natDigit_isDigit (m / 10) (by omega)
        rw [List.mem_singleton.mp hc]
        exact natDigit_isDigit (m % 10) (by omega)
    · rw [if_neg h2]
      refine ⟨?_, hv, hd⟩
      rw [natToDigits_length_three m (by omega) h]
      rfl

-- ## splitChar and friends

theorem splitChar_cons_eq (c x : Char) (xs : List Char) :
    splitChar c (x :: xs) = if x = c then [] :: splitChar c xs
      else match splitChar c xs with
        | [] => [[x]]
        | p :: ps => (x :: p) :: ps := rfl

theorem splitChar_ne_nil (c : Char) : ∀ s : List Char, splitChar c s ≠ [] := by
  intro s
  cases s with
  | nil => exact List.cons_ne_nil _ _
  | cons x xs =>
    rw [splitChar_cons_eq]
    by_cases h : x = c
    · rw [if_pos h]
      exact List.cons_ne_nil _ _
    · rw [if_neg h]
      cases splitChar c xs with
      | nil => exact List.cons_ne_nil _ _
      | cons p ps => exact List.cons_ne_nil _ _

theorem splitChar_append (c : Char) : ∀ (a b : List Char),
    splitChar c (a ++ c :: b) = splitChar c a ++ splitChar c b := by
  intro a
  induction a with
  | nil =>
    intro b
    show splitChar c (c :: b) = [[]] ++ splitChar c b
    rw [splitChar_cons_eq, if_pos rfl]
    rfl
  | cons x xs ih =>
    intro b
    show splitChar c (x :: (xs ++ c :: b)) = splitChar c (x :: xs) ++ splitChar c b
    rw [splitChar_cons_eq c x (xs ++ c :: b), splitChar_cons_eq c x xs]
    by_cases h : x = c
    · rw [if_pos h, if_pos h, ih b]
      rfl
    · rw [if_neg h, if_neg h, ih b]
      cases hs : splitChar c xs with
      | nil => exact absurd hs (splitChar_ne_nil c xs)
      | cons p ps => rfl

theorem splitChar_of_not_mem (c : Char) : ∀ (s : List Char), c ∉ s →
    splitChar c s = [s] := by
  intro s
  induction s with
  | nil => intro _; rfl
  | cons x xs ih =>
    intro h
    have hx : x ≠ c := fun he => h (he ▸ List.mem_cons_self x xs)
    have hxs : c ∉ xs := fun hm => h (List.mem_cons_of_mem x hm)
    rw [splitChar_cons_eq, if_neg hx, ih hxs]

theorem splitChar_joinSep (c : Char) : ∀ (parts : List (List Char)), parts ≠ [] →
    (∀ p ∈ parts, c ∉ p) →
    splitChar c (joinSep [c] parts) = parts := by
  intro parts
  induction parts with
  | nil => intro h; exact absurd rfl h
  | cons p ps ih =>
    intro _ hmem
    cases ps with
    | nil =>
      show splitChar c p = [p]
      exact splitChar_of_not_mem c p (hmem p (List.mem_cons_self p []))
    | cons q rest =>
      have hj : joinSep [c] (p :: q :: rest) = p ++ c :: joinSep [c] (q :: rest) := by
        simp only [joinSep]
        rw [List.append_assoc]
        rfl
      rw [hj, splitChar_append, splitChar_of_not_mem c p (hmem p (List.mem_cons_self p _))]
      rw [ih (List.cons_ne_nil q rest) (fun x hx => hmem x (List.mem_cons_of_mem p hx))]
      rfl

theorem splitOnce_cons_eq (c x : Char) (xs : List Char) :
    splitOnce c (x :: xs) = if x = c then some ([], xs)
      else (splitOnce c xs).map (fun p => (x :: p.1, p.2)) := rfl

theorem splitOnce_not_mem (c : Char) : ∀ (s : List Char), c ∉ s → splitOnce c s = none := by
  intro s
  induction s with
  | nil => intro _; rfl
  | cons x xs ih =>
    intro h
    have hx : x ≠ c := fun he => h (he ▸ List.mem_cons_self x xs)
    rw [splitOnce_cons_eq, if_neg hx, ih (fun hm => h (List.mem_cons_of_mem x hm))]
    rfl

theorem splitOnce_append (c : Char) : ∀ (a b : List Char), c ∉ a →
    splitOnce c (a ++ c :: b) = some (a, b) := by
  intro a
  induction a with
  | nil =>
    intro b _
    show splitOnce c (c :: b) = some ([], b)
    rw [splitOnce_cons_eq, if_pos rfl]
  | cons x xs ih =>
    intro b h
    have hx : x ≠ c := fun he => h (he ▸ List.mem_cons_self x xs)
    show splitOnce c (x :: (xs ++ c :: b)) = some (x :: xs, b)
    rw [splitOnce_cons_eq, if_neg hx, ih b (fun hm => h (List.mem_cons_of_mem x hm))]
    rfl

theorem findIdxQ_cons_eq (p : Char → Bool) (x : Char) (xs : List Char) :
    findIdxQ p (x :: xs) = if p x then some 0 else (findIdxQ p xs).map (· + 1) := rfl

theorem findIdxQ_skip (p : Char → Bool) : ∀ (a b : List Char), (∀ x ∈ a, p x = false) →
    findIdxQ p (a ++ b) = (findIdxQ p b).map (· + a.length) := by
  intro a
  induction a with
  | nil =>
    intro b _
    show findIdxQ p b = (findIdxQ p b).map (· + 0)
    cases findIdxQ p b with
    | none => rfl
    | some i => rfl
  | cons x xs ih =>
    intro b h
    show findIdxQ p (x :: (xs ++ b)) = (findIdxQ p b).map (· + (xs.length + 1))
    rw [findIdxQ_cons_eq, if_neg (by rw [h x (List.mem_cons_self x xs)]; exact Bool.noConfusion),
      ih b (fun y hy => h y (List.mem_cons_of_mem x hy))]
    cases findIdxQ p b with
    | none => rfl
    | some i =>
      show some (i + xs.length + 1) = some (i + (xs.length + 1))
      rw [Nat.add_assoc]

-- ## fmt3 and parseQ round trip

theorem fmt3_eq (q : ℚ) : fmt3 q =
    (if round (q * 1000) < 0 then ['-'] else []) ++
      natToDigits ((round (q * 1000)).natAbs / 1000) ++
      '.' :: pad3 ((round (q * 1000)).natAbs % 1000) := rfl

theorem round3_eq (q : ℚ) : round3 q = ((round (q * 1000) : ℤ) : ℚ) / 1000 := rfl

theorem fmt3_chars (q : ℚ) : ∀ c ∈ fmt3 q, c.isDigit = true ∨ c = '.' ∨ c = '-' := by
  intro c hc
  rw [fmt3_eq] at hc
  rcases List.mem_append.mp hc with h | h
  · rcases List.mem_append.mp h with h2 | h2
    · by_cases hneg : round (q * 1000) < 0
      · rw [if_pos hneg] at h2
        exact Or.inr (Or.inr (List.mem_singleton.mp h2))
      · rw [if_neg hneg] at h2
        simp at h2
    · exact Or.inl ((natToDigits_spec _).2.2 c h2)
  · rcases List.mem_cons.mp h with h2 | h2
    · exact Or.inr (Or.inl h2)
    · exact Or.inl ((pad3_spec _ (Nat.mod_lt _ (by omega))).2.2 c h2)

theorem numChar_ne (c : Char) (h : c.isDigit = true ∨ c = '.' ∨ c = '-') (x : Char)
    (hx : x.isDigit = false) (h1 : x ≠ '.') (h2 : x ≠ '-') : c ≠ x := by
  rcases h with h | h | h
  · exact isDigit_ne c h x hx
  · rw [h]; exact fun he => h1 he.symm
  · rw [h]; exact fun he => h2 he.symm

theorem numChar_not_ws (c : Char) (h : c.isDigit = true ∨ c = '.' ∨ c = '-') :
    isWs c = false := by
  rcases h with h | h | h
  · exact not_ws_of_isDigit c h
  · rw [h]; rfl
  · rw [h]; rfl

theorem parseQcore_value (neg : Bool) (ip fp : List Char) (r : List Char)
    (hsplit : splitChar '.' r = [ip, fp])
    (hne : ip ≠ []) (hip : ∀ c ∈ ip, c.isDigit = true) (hfp : ∀ c ∈ fp, c.isDigit = true) :
    parseQcore neg r = some ((if neg then -1 else 1) *
      ((digitsVal ip : ℚ) + (digitsVal fp : ℚ) / (10 : ℚ) ^ fp.length)) := by
  unfold parseQcore
  rw [hsplit]
  show (if (ip ≠ [] ∨ fp ≠ []) ∧ ip.all Char.isDigit ∧ fp.all Char.isDigit then
      some ((if neg then (-1 : ℚ) else 1) *
        ((digitsVal ip : ℚ) + (digitsVal fp : ℚ) / (10 : ℚ) ^ fp.length))
    else none) = _
  rw [if_pos ⟨Or.inl hne, List.all_eq_true.mpr hip, List.all_eq_true.mpr hfp⟩]

theorem fmt3_body_value (a : Nat) :
    (digitsVal (natToDigits (a / 1000)) : ℚ) +
      (digitsVal (pad3 (a % 1000)) : ℚ) / (10 : ℚ) ^ (pad3 (a % 1000)).length =
    (a : ℚ) / 1000 := by
  have hfr : a % 1000 < 1000 := Nat.mod_lt _ (by omega)
  obtain ⟨hp3len, hp3val, _⟩ := pad3_spec (a % 1000) hfr
  rw [(natToDigits_spec (a / 1000)).1, hp3val, hp3len]
  have key : ((a / 1000 : ℕ) : ℚ) * 1000 + ((a % 1000 : ℕ) : ℚ) = (a : ℚ) := by
    exact_mod_cast (by omega : a / 1000 * 1000 + a % 1000 = a)
  rw [show ((10 : ℚ)) ^ (3 : ℕ) = 1000 by norm_num]
  rw [eq_div_iff (by norm_num : (1000 : ℚ) ≠ 0)]
  rw [add_mul, div_mul_cancel₀ _ (by norm_num : (1000 : ℚ) ≠ 0)]
  exact key

theorem parseQ_fmt3 (q : ℚ) : parseQ (fmt3 q) = some (round3 q) := by
  have hfr : (round (q * 1000)).natAbs % 1000 < 1000 := Nat.mod_lt _ (by omega)
  have hsplit : splitChar '.' (natToDigits ((round (q * 1000)).natAbs / 1000) ++
      '.' :: pad3 ((round (q * 1000)).natAbs % 1000)) =
      [natToDigits ((round (q * 1000)).natAbs / 1000),
       pad3 ((round (q * 1000)).natAbs % 1000)] := by
    rw [splitChar_append]
    rw [splitChar_of_not_mem '.' _ (fun hm =>
      absurd ((natToDigits_spec _).2.2 '.' hm) (by decide))]
    rw [splitChar_of_not_mem '.' _ (fun hm =>
      absurd ((pad3_spec _ hfr).2.2 '.' hm) (by decide))]
    rfl
  have hcore : ∀ neg, parseQcore neg (natToDigits ((round (q * 1000)).natAbs / 1000) ++
      '.' :: pad3 ((round (q * 1000)).natAbs % 1000)) =
      some ((if neg then -1 else 1) * (((round (q * 1000)).natAbs : ℚ) / 1000)) := by
    intro neg
    rw [parseQcore_value neg _ _ _ hsplit (natToDigits_spec _).2.1 (natToDigits_spec _).2.2
      (pad3_spec _ hfr).2.2]
    rw [fmt3_body_value]
  by_cases hneg : round (q * 1000) < 0
  · have hfmt : fmt3 q = '-' :: (natToDigits ((round (q * 1000)).natAbs / 1000) ++
        '.' :: pad3 ((round (q * 1000)).natAbs % 1000)) := by
      rw [fmt3_eq, if_pos hneg]
      rfl
    have hcast : (((round (q * 1000)).natAbs : ℚ)) = -((round (q * 1000) : ℤ) : ℚ) := by
      rw [Int.cast_natAbs, abs_of_neg hneg]
      exact Int.cast_neg _
    rw [hfmt]
    show parseQcore true (natToDigits ((round (q * 1000)).natAbs / 1000) ++
      '.' :: pad3 ((round (q * 1000)).natAbs % 1000)) = some (round3 q)
    rw [hcore true, round3_eq, hcast]
    congr 1
    rw [if_pos rfl]
    ring
  · have hfmt : fmt3 q = natToDigits ((round (q * 1000)).natAbs / 1000) ++
        '.' :: pad3 ((round (q * 1000)).natAbs % 1000) := by
      rw [fmt3_eq, if_neg hneg]
      rfl
    have hcast : (((round (q * 1000)).natAbs : ℚ)) = ((round (q * 1000) : ℤ) : ℚ) := by
      rw [Int.cast_natAbs, abs_of_nonneg (le_of_not_lt hneg)]
    cases hnd : natToDigits ((round (q * 1000)).natAbs / 1000) with
    | nil => exact absurd hnd (natToDigits_spec _).2.1
    | cons d ds =>
      have hmem : d ∈ natToDigits ((round (q * 1000)).natAbs / 1000) := by
        rw [hnd]
        exact List.mem_cons_self d ds
      have hd : d.isDigit = true := (natToDigits_spec _).2.2 d hmem
      have hc := hcore false
      rw [hnd, List.cons_append] at hc
      rw [hfmt, hnd, List.cons_append]
      unfold parseQ
      split
      · rename_i heq
        injection heq with h1 h2
        exact absurd h1 (isDigit_ne d hd '-' (by decide))
      · rename_i heq
        injection heq with h1 h2
        exact absurd h1 (isDigit_ne d hd '+' (by decide))
      · rw [hc, round3_eq, hcast]
        congr 1
        rw [if_neg (by decide)]
        ring

theorem round3_abs_le (q : ℚ) : |round3 q - q| ≤ 1 / 1000 := by
  rw [round3_eq]
  have h := abs_sub_round (q * 1000)
  have h1000 : (0 : ℚ) < 1000 := by norm_num
  rw [show ((round (q * 1000) : ℤ) : ℚ) / 1000 - q =
      (((round (q * 1000) : ℤ) : ℚ) - q * 1000) / 1000 by ring]
  rw [abs_div, abs_of_pos h1000, div_le_div_iff h1000 h1000]
  calc |((round (q * 1000) : ℤ) : ℚ) - q * 1000| * 1000
      = |q * 1000 - ((round (q * 1000) : ℤ) : ℚ)| * 1000 := by rw [abs_sub_comm]
    _ ≤ (1 / 2) * 1000 := by
        have := mul_le_mul_of_nonneg_right h (le_of_lt h1000)
        exact this
    _ ≤ 1 * 1000 := by norm_num

theorem round3_mono {a b : ℚ} (h : a ≤ b) : round3 a ≤ round3 b := by
  rw [round3_eq, round3_eq]
  have hr : round (a * 1000) ≤ round (b * 1000) := by
    rw [round_eq, round_eq]
    exact Int.floor_mono (by linarith)
  have : ((round (a * 1000) : ℤ) : ℚ) ≤ ((round (b * 1000) : ℤ) : ℚ) := by
    exact_mod_cast hr
  linarith

-- ## Substring-occurrence toolkit

theorem length_dropWhile_le (p : Char → Bool) : ∀ l : List Char,
    (l.dropWhile p).length ≤ l.length := by
  intro l
  induction l with
  | nil => exact Nat.le_refl 0
  | cons x xs ih =>
    rw [List.dropWhile_cons]
    by_cases h : p x
    · rw [if_pos h]
      exact Nat.le_succ_of_le ih
    · rw [if_neg h]

theorem dropWhile_length_eq (p : Char → Bool) : ∀ l : List Char,
    (l.dropWhile p).length = l.length → l.dropWhile p = l := by
  intro l
  cases l with
  | nil => intro _; rfl
  | cons x xs =>
    intro h
    rw [List.dropWhile_cons] at h ⊢
    by_cases hx : p x
    · rw [if_pos hx] at h
      have := length_dropWhile_le p xs
      rw [List.length_cons] at h
      omega
    · rw [if_neg hx]

theorem dropWhile_all_false (p : Char → Bool) : ∀ l : List Char,
    (∀ c ∈ l, p c = false) → l.dropWhile p = l := by
  intro l
  induction l with
  | nil => intro _; rfl
  | cons x xs _ =>
    intro h
    rw [List.dropWhile_cons,
      if_neg (by rw [h x (List.mem_cons_self x xs)]; exact Bool.noConfusion)]

theorem infix_cons_extend (x : Char) (l t : List Char) (h : l <:+: t) :
    l <:+: x :: t := by
  obtain ⟨s, u, hs⟩ := h
  exact ⟨x :: s, u, by rw [← hs]; rfl⟩

theorem pair_not_infix_of_not_mem_left (x y : Char) (s : List Char) (h : x ∉ s) :
    ¬ [x, y] <:+: s :=
  fun hinf => h (hinf.subset (List.mem_cons_self x [y]))

theorem pair_not_infix_short (x y : Char) (s : List Char) (h : s.length < 2) :
    ¬ [x, y] <:+: s := by
  intro hinf
  have hl := hinf.length_le
  rw [List.length_cons, List.length_cons, List.length_nil] at hl
  omega

theorem pair_infix_append_cases (x y : Char) (a b : List Char)
    (h : [x, y] <:+: a ++ b) :
    [x, y] <:+: a ∨ [x, y] <:+: b ∨ (a.getLast? = some x ∧ b.head? = some y) := by
  obtain ⟨s, t, hst⟩ := h
  by_cases h1 : s.length + 2 ≤ a.length
  · refine Or.inl ⟨s, t.take (a.length - s.length - 2), ?_⟩
    have ha : a = (a ++ b).take a.length := (List.take_left a b).symm
    rw [← hst] at ha
    rw [show a.length = (s ++ [x, y]).length + (a.length - s.length - 2) by
      rw [List.length_append, List.length_cons, List.length_cons, List.length_nil]
      omega] at ha
    rw [List.take_append] at ha
    exact ha.symm
  · by_cases h2 : a.length ≤ s.length
    · refine Or.inr (Or.inl ⟨s.drop a.length, t, ?_⟩)
      have hb : b = (a ++ b).drop a.length := (List.drop_left a b).symm
      rw [← hst, List.append_assoc, List.drop_append_eq_append_drop,
        Nat.sub_eq_zero_of_le h2, List.drop_zero] at hb
      rw [hb, List.append_assoc]
    · have h3 : a.length = s.length + 1 := by omega
      refine Or.inr (Or.inr ⟨?_, ?_⟩)
      · have ha : a = (a ++ b).take a.length := (List.take_left a b).symm
        rw [← hst, List.append_assoc, h3, List.take_append] at ha
        rw [show ([x, y] ++ t).take 1 = [x] from rfl] at ha
        rw [ha]
        exact List.getLast?_concat s
      · have hb : b = (a ++ b).drop a.length := (List.drop_left a b).symm
        rw [← hst, List.append_assoc, h3, List.drop_append] at hb
        rw [show ([x, y] ++ t).drop 1 = y :: t from rfl] at hb
        rw [hb]
        rfl

theorem isPrefixOf_cons_eq (p x : Char) (pt t : List Char) :
    (p :: pt).isPrefixOf (x :: t) = (p == x && pt.isPrefixOf t) := rfl

theorem isPrefixOf_cons_of_ne (p x : Char) (pt t : List Char) (h : p ≠ x) :
    (p :: pt).isPrefixOf (x :: t) = false := by
  rw [isPrefixOf_cons_eq, beq_eq_false_iff_ne.mpr h, Bool.false_and]

theorem findSub_cons_eq (pat : List Char) (x : Char) (t : List Char) :
    findSub pat (x :: t) = if pat.isPrefixOf (x :: t) then some 0
      else (findSub pat t).map (· + 1) := rfl

theorem findSub_step_hit (pat : List Char) (x : Char) (t : List Char)
    (h : pat.isPrefixOf (x :: t) = true) : findSub pat (x :: t) = some 0 := by
  rw [findSub_cons_eq, if_pos h]

theorem findSub_step_miss (pat : List Char) (x : Char) (t : List Char)
    (h : pat.isPrefixOf (x :: t) = false) :
    findSub pat (x :: t) = (findSub pat t).map (· + 1) := by
  rw [findSub_cons_eq, if_neg (by rw [h]; exact Bool.noConfusion)]

theorem option_map_add_assoc (o : Option Nat) (m n : Nat) :
    (o.map (· + m)).map (· + n) = o.map (· + (m + n)) := by
  cases o with
  | none => rfl
  | some i =>
    show some (i + m + n) = some (i + (m + n))
    rw [Nat.add_assoc]

theorem findSub_shift_pair (c0 c1 : Char) (pt : List Char) : ∀ (a b : List Char),
    ¬ [c0, c1] <:+: a →
    ¬ (a.getLast? = some c0 ∧ b.head? = some c1) →
    findSub (c0 :: c1 :: pt) (a ++ b) =
      (findSub (c0 :: c1 :: pt) b).map (· + a.length) := by
  intro a
  induction a with
  | nil =>
    intro b _ _
    show findSub _ b = (findSub _ b).map (· + 0)
    cases findSub (c0 :: c1 :: pt) b with
    | none => rfl
    | some i => rfl
  | cons x xs ih =>
    intro b ha hb
    have hpre : (c0 :: c1 :: pt).isPrefixOf (x :: (xs ++ b)) = false := by
      by_cases hx : c0 = x
      · rw [isPrefixOf_cons_eq]
        have hsnd : (c1 :: pt).isPrefixOf (xs ++ b) = false := by
          cases hxs : xs with
          | nil =>
            cases hbb : b with
            | nil => rfl
            | cons y ys =>
              refine isPrefixOf_cons_of_ne c1 y pt ys (fun hy => ?_)
              exact hb ⟨by rw [hxs, hx]; exact List.getLast?_singleton x, by rw [hbb, ← hy]; rfl⟩
          | cons y ys =>
            refine isPrefixOf_cons_of_ne c1 y pt (ys ++ b) (fun hy => ?_)
            exact ha ⟨[], ys, by rw [hxs, ← hx, ← hy]; rfl⟩
        rw [hsnd, Bool.and_false]
      · exact isPrefixOf_cons_of_ne c0 x (c1 :: pt) (xs ++ b) hx
    show findSub (c0 :: c1 :: pt) (x :: (xs ++ b)) = _
    rw [findSub_step_miss _ _ _ hpre]
    rw [ih b (fun hinf => ha (infix_cons_extend x _ _ hinf)) ?_]
    · rw [option_map_add_assoc]
      rfl
    · intro hpair
      cases hxs : xs with
      | nil =>
        rw [hxs] at hpair
        exact absurd hpair.1 (by rw [List.getLast?_nil]; exact Option.noConfusion)
      | cons y ys =>
        refine hb ⟨?_, hpair.2⟩
        rw [hxs] at hpair
        rw [hxs, List.getLast?_cons_cons]
        exact hpair.1

theorem findSub_none_pair (c0 c1 : Char) (pt s : List Char)
    (h : ¬ [c0, c1] <:+: s) : findSub (c0 :: c1 :: pt) s = none := by
  have h2 := findSub_shift_pair c0 c1 pt s [] h
    (fun hpair => Option.noConfusion hpair.2)
  rw [List.append_nil] at h2
  rw [h2]
  rfl

theorem splitOnSubGo_succ (sep : List Char) (fuel : Nat) (s : List Char) :
    splitOnSubGo sep (fuel + 1) s = match findSub sep s with
      | none => [s]
      | some pos => s.take pos :: splitOnSubGo sep fuel (s.drop (pos + sep.length)) := rfl

theorem splitOnSub_of_none (sep s : List Char) (h : findSub sep s = none) :
    splitOnSub sep s = [s] := by
  unfold splitOnSub
  rw [splitOnSubGo_succ, h]

theorem joinSep_ge_length (sep : List Char) (hsep : 1 ≤ sep.length) :
    ∀ parts : List (List Char), parts.length ≤ (joinSep sep parts).length + 1 := by
  intro parts
  induction parts with
  | nil => exact Nat.zero_le 1
  | cons p ps ih =>
    cases ps with
    | nil =>
      show 1 ≤ p.length + 1
      omega
    | cons q rest =>
      have hj : joinSep sep (p :: q :: rest) = p ++ sep ++ joinSep sep (q :: rest) := by
        simp only [joinSep]
      rw [hj, List.length_cons, List.length_cons, List.length_append, List.length_append]
      rw [List.length_cons] at ih
      omega

theorem splitOnSubGo_chunks (c0 c1 : Char) (pt : List Char) (hne : c0 ≠ c1) :
    ∀ (parts : List (List Char)) (fuel : Nat), parts ≠ [] →
    (∀ p ∈ parts, ¬ [c0, c1] <:+: p) →
    parts.length ≤ fuel →
    splitOnSubGo (c0 :: c1 :: pt) fuel (joinSep (c0 :: c1 :: pt) parts) = parts := by
  intro parts
  induction parts with
  | nil => intro fuel h; exact absurd rfl h
  | cons p ps ih =>
    intro fuel _ hp hf
    cases ps with
    | nil =>
      show splitOnSubGo _ fuel p = [p]
      have hn : findSub (c0 :: c1 :: pt) p = none :=
        findSub_none_pair _ _ _ _ (hp p (List.mem_cons_self p []))
      cases fuel with
      | zero => rw [List.length_cons, List.length_nil] at hf; omega
      | succ n => rw [splitOnSubGo_succ, hn]
    | cons q rest =>
      have hj : joinSep (c0 :: c1 :: pt) (p :: q :: rest) =
          p ++ ((c0 :: c1 :: pt) ++ joinSep (c0 :: c1 :: pt) (q :: rest)) := by
        simp only [joinSep]
        rw [List.append_assoc]
      have hfind : findSub (c0 :: c1 :: pt)
          (p ++ ((c0 :: c1 :: pt) ++ joinSep (c0 :: c1 :: pt) (q :: rest))) =
          some p.length := by
        have hself : findSub (c0 :: c1 :: pt)
            ((c0 :: c1 :: pt) ++ joinSep (c0 :: c1 :: pt) (q :: rest)) = some 0 := by
          apply findSub_step_hit
          exact List.isPrefixOf_iff_prefix.mpr (List.prefix_append _ _)
        rw [findSub_shift_pair c0 c1 pt p
          ((c0 :: c1 :: pt) ++ joinSep (c0 :: c1 :: pt) (q :: rest))
          (hp p (List.mem_cons_self p _))
          (fun hpair => hne (Option.some.inj (show some c0 = some c1 from hpair.2))), hself]
        show some (0 + p.length) = some p.length
        rw [Nat.zero_add]
      cases fuel with
      | zero =>
        rw [List.length_cons] at hf
        omega
      | succ n =>
        rw [hj, splitOnSubGo_succ, hfind]
        show (p ++ ((c0 :: c1 :: pt) ++ joinSep (c0 :: c1 :: pt) (q :: rest))).take p.length ::
          splitOnSubGo (c0 :: c1 :: pt) n
            ((p ++ ((c0 :: c1 :: pt) ++ joinSep (c0 :: c1 :: pt) (q :: rest))).drop
              (p.length + (c0 :: c1 :: pt).length)) = p :: q :: rest
        rw [List.take_left, List.drop_append, List.drop_left]
        rw [ih n (List.cons_ne_nil q rest)
          (fun x hx => hp x (List.mem_cons_of_mem p hx))
          (by rw [List.length_cons, List.length_cons] at hf; rw [List.length_cons]; omega)]

theorem splitOnSub_chunks (c0 c1 : Char) (pt : List Char) (hne : c0 ≠ c1)
    (parts : List (List Char)) (hparts : parts ≠ [])
    (hp : ∀ p ∈ parts, ¬ [c0, c1] <:+: p) :
    splitOnSub (c0 :: c1 :: pt) (joinSep (c0 :: c1 :: pt) parts) = parts := by
  unfold splitOnSub
  refine splitOnSubGo_chunks c0 c1 pt hne parts _ hparts hp ?_
  have := joinSep_ge_length (c0 :: c1 :: pt) (by rw [List.length_cons]; omega) parts
  omega

-- ## Trim lemmas

theorem trimLeftWs_eq_self (s : List Char)
    (h : ∀ c, s.head? = some c → isWs c = false) : trimLeftWs s = s := by
  unfold trimLeftWs
  cases s with
  | nil => rfl
  | cons c r =>
    rw [List.dropWhile_cons, if_neg (by rw [h c rfl]; exact Bool.noConfusion)]

theorem trimRightWs_eq_self (s : List Char)
    (h : ∀ c, s.getLast? = some c → isWs c = false) : trimRightWs s = s := by
  unfold trimRightWs
  cases hs : s.reverse with
  | nil =>
    have h0 : s = [] := by
      have := congrArg List.reverse hs
      rw [List.reverse_reverse] at this
      rw [this]
      rfl
    rw [h0]
    rfl
  | cons c r =>
    have hlast : s.getLast? = some c := by
      rw [← List.head?_reverse, hs]
      rfl
    rw [List.dropWhile_cons, if_neg (by rw [h c hlast]; exact Bool.noConfusion)]
    rw [← hs, List.reverse_reverse]

theorem trimWs_eq_self (s : List Char)
    (hh : ∀ c, s.head? = some c → isWs c = false)
    (hl : ∀ c, s.getLast? = some c → isWs c = false) : trimWs s = s := by
  unfold trimWs
  rw [trimRightWs_eq_self s hl, trimLeftWs_eq_self s hh]

theorem trimRightWs_append_ws (a : List Char) (c : Char) (hc : isWs c = true) :
    trimRightWs (a ++ [c]) = trimRightWs a := by
  unfold trimRightWs
  rw [List.reverse_append]
  show ((c :: a.reverse).dropWhile isWs).reverse = _
  rw [List.dropWhile_cons, if_pos hc]

theorem trim_parts_of_trimWs (t : List Char) (ht : trimWs t = t) :
    trimLeftWs t = t ∧ trimRightWs t = t := by
  have hlen1 : (trimRightWs t).length ≤ t.length := by
    unfold trimRightWs
    rw [List.length_reverse]
    have := length_dropWhile_le isWs t.reverse
    rw [List.length_reverse] at this
    exact this
  have hlen2 : (trimWs t).length ≤ (trimRightWs t).length :=
    length_dropWhile_le isWs (trimRightWs t)
  have hlen3 : (trimWs t).length = t.length := by rw [ht]
  have hr : trimRightWs t = t := by
    unfold trimRightWs
    have hd := dropWhile_length_eq isWs t.reverse (by
      unfold trimRightWs at hlen1 hlen2
      rw [List.length_reverse]
      have h4 : (List.dropWhile isWs t.reverse).length =
          ((List.dropWhile isWs t.reverse).reverse).length := by
        rw [List.length_reverse]
      omega)
    rw [hd, List.reverse_reverse]
  have hlft : trimLeftWs t = t := by
    unfold trimWs at ht
    rw [hr] at ht
    exact ht
  exact ⟨hlft, hr⟩

theorem head_not_ws_of_trimmed (t : List Char) (ht : trimWs t = t) :
    ∀ c, t.head? = some c → isWs c = false := by
  intro c hc
  have hl := (trim_parts_of_trimWs t ht).1
  unfold trimLeftWs at hl
  cases t with
  | nil => exact Option.noConfusion hc
  | cons x xs =>
    have hx : x = c := Option.some.inj hc
    rw [List.dropWhile_cons] at hl
    by_cases hw : isWs x
    · rw [if_pos hw] at hl
      have := length_dropWhile_le isWs xs
      have h2 := congrArg List.length hl
      rw [List.length_cons] at h2
      omega
    · rw [← hx]
      revert hw
      cases isWs x with
      | false => intro _; rfl
      | true => intro hw; exact absurd rfl hw

theorem last_not_ws_of_trimmed (t : List Char) (ht : trimWs t = t) :
    ∀ c, t.getLast? = some c → isWs c = false := by
  intro c hc
  have hr := (trim_parts_of_trimWs t ht).2
  unfold trimRightWs at hr
  rw [← List.head?_reverse] at hc
  cases htr : t.reverse with
  | nil => rw [htr] at hc; exact Option.noConfusion hc
  | cons x xs =>
    rw [htr] at hc hr
    have hx : x = c := Option.some.inj hc
    rw [List.dropWhile_cons] at hr
    by_cases hw : isWs x
    · rw [if_pos hw] at hr
      have := length_dropWhile_le isWs xs
      have h2 := congrArg List.length hr
      rw [List.length_reverse] at h2
      have h3 : t.length = (t.reverse).length := (List.length_reverse t).symm
      rw [htr, List.length_cons] at h3
      omega
    · rw [← hx]
      revert hw
      cases isWs x with
      | false => intro _; rfl
      | true => intro hw; exact absurd rfl hw

theorem fmt3_head (q : ℚ) :
    ∃ c r, fmt3 q = c :: r ∧ (c.isDigit = true ∨ c = '-') := by
  rw [fmt3_eq]
  by_cases hneg : round (q * 1000) < 0
  · rw [if_pos hneg]
    exact ⟨'-', _, rfl, Or.inr rfl⟩
  · rw [if_neg hneg]
    cases hnd : natToDigits ((round (q * 1000)).natAbs / 1000) with
    | nil => exact absurd hnd (natToDigits_spec _).2.1
    | cons d ds =>
      refine ⟨d, ds ++ '.' :: pad3 ((round (q * 1000)).natAbs % 1000), rfl, Or.inl ?_⟩
      exact (natToDigits_spec _).2.2 d (by rw [hnd]; exact List.mem_cons_self d ds)

theorem sanitize_eq_self (t : List Char)
    (h : ∀ c ∈ t, isCtrl c = false ∧ c ≠ '/' ∧ c ≠ '[' ∧ c ≠ ']') :
    sanitize t = t := by
  unfold sanitize
  rw [List.filter_eq_self]
  intro c hc
  obtain ⟨h1, h2, h3, h4⟩ := h c hc
  rw [h1, beq_eq_false_iff_ne.mpr h2, beq_eq_false_iff_ne.mpr h3,
    beq_eq_false_iff_ne.mpr h4]
  rfl

-- ## Generic success computation for extract_data

theorem extract_data_found (ds marker v w : List Char) (pos : Nat)
    (hfind : findSub marker ds = some pos)
    (hdrop : ds.drop (pos + marker.length) = '[' :: (v ++ ']' :: w))
    (hv : ']' ∉ v) :
    extract_data ds marker = Except.ok v := by
  have hidx : findIdxQ (fun c => c == '[') (ds.drop (pos + marker.length)) = some 0 := by
    rw [hdrop, findIdxQ_cons_eq, if_pos (show (('[' == '[') = true) from rfl)]
  have hcb : findIdxQ (fun c => c == ']') ((ds.drop (pos + marker.length)).drop 0) =
      some (v.length + 1) := by
    rw [List.drop_zero, hdrop, findIdxQ_cons_eq, if_neg (by decide)]
    rw [findIdxQ_skip (fun c => c == ']') v (']' :: w)
      (fun x hx => beq_eq_false_iff_ne.mpr (fun he => hv (he ▸ hx)))]
    rw [findIdxQ_cons_eq, if_pos (show ((']' == ']') = true) from rfl)]
    show some (0 + v.length + 1) = some (v.length + 1)
    rw [Nat.zero_add]
  unfold extract_data
  rw [hfind]
  show (match findIdxQ (fun c => c == '[') (ds.drop (pos + marker.length)) with
    | none => Except.error ("Missing [".toList)
    | some ob =>
      match findIdxQ (fun c => c == ']') ((ds.drop (pos + marker.length)).drop ob) with
      | none => Except.error ("Missing ]".toList)
      | some cb =>
        Except.ok ((((ds.drop (pos + marker.length)).drop ob).drop 1).take (cb - 1))) =
    Except.ok v
  rw [hidx]
  show (match findIdxQ (fun c => c == ']') ((ds.drop (pos + marker.length)).drop 0) with
    | none => Except.error ("Missing ]".toList)
    | some cb =>
      Except.ok ((((ds.drop (pos + marker.length)).drop 0).drop 1).take (cb - 1))) =
    Except.ok v
  rw [hcb]
  show Except.ok ((((ds.drop (pos + marker.length)).drop 0).drop 1).take (v.length + 1 - 1)) =
    Except.ok v
  rw [List.drop_zero, hdrop]
  show Except.ok ((v ++ ']' :: w).take (v.length + 1 - 1)) = Except.ok v
  rw [Nat.add_sub_cancel, List.take_left]

-- ## C5: malformed numeric fields inside a successful decode

theorem mem_of_getLast?_eq (l : List Char) (c : Char) (h : l.getLast? = some c) :
    c ∈ l := by
  cases hl : l.reverse with
  | nil => rw [← List.head?_reverse, hl] at h; exact Option.noConfusion h
  | cons x xs =>
    rw [← List.head?_reverse, hl] at h
    have hx : x = c := Option.some.inj h
    have hm : x ∈ l.reverse := by rw [hl]; exact List.mem_cons_self x xs
    rw [hx] at hm
    exact (List.mem_reverse).mp hm

theorem getLast?_cons_of_ne_nil (x : Char) (l : List Char) (h : l ≠ []) :
    (x :: l).getLast? = l.getLast? := by
  cases l with
  | nil => exact absurd rfl h
  | cons y ys => exact List.getLast?_cons_cons

/-- A probe string for decoding: well-formed except that the fragment `s`
stands where the first line's start time, its end time, one keyframe's time
and another keyframe's percentage should be, and once as a whole keyframe
entry with no `/` separator.  (`s` ranges over unparsable fields.) -/
def c5doc (s : List Char) : List Char :=
  "hi[//][lbl][".toList ++ s ++ "/".toList ++ s ++ "][lsk][(".toList ++ s ++
    "/0.5,0.5/".toList ++ s ++ ",".toList ++ s ++ ",1.0/0.25)]".toList

/-- The data section of `c5doc s`. -/
def c5b (s : List Char) : List Char :=
  "[lbl][".toList ++ (s ++ ('/' :: (s ++ ("][lsk][(".toList ++ (s ++
    ("/0.5,0.5/".toList ++ (s ++ (',' :: (s ++ ",1.0/0.25)]".toList)))))))))

/-- The side conditions on the unparsable field `s`: it fails the numeric
parser, is nonempty, and avoids the structural characters of the format. -/
def c5ok (s : List Char) : Prop :=
  parseQ s = none ∧ s ≠ [] ∧
    ∀ c ∈ s, c ≠ '/' ∧ c ≠ ',' ∧ c ≠ '[' ∧ c ≠ ']' ∧ c ≠ '(' ∧ c ≠ ')' ∧ c ≠ 'l'

instance (s : List Char) : Decidable (c5ok s) := by
  unfold c5ok
  infer_instance

theorem c5b_no_marker_pair (s : List Char) (hne : s ≠ [])
    (hch : ∀ c ∈ s, c ≠ '/' ∧ c ≠ ',' ∧ c ≠ '[' ∧ c ≠ ']' ∧ c ≠ '(' ∧ c ≠ ')' ∧ c ≠ 'l') :
    ¬ ['[', '/'] <:+: c5b s := by
  intro hinf
  have hnotmem : '[' ∉ s := fun hm => (hch '[' hm).2.2.1 rfl
  rw [c5b] at hinf
  rcases pair_infix_append_cases '[' '/' _ _ hinf with h | h | h
  · exact absurd h (by decide)
  · rcases pair_infix_append_cases '[' '/' _ _ h with h2 | h2 | h2
    · exact absurd h2 (pair_not_infix_of_not_mem_left '[' '/' s hnotmem)
    · have h2b : ['[', '/'] <:+: (['/'] ++ (s ++ ("][lsk][(".toList ++ (s ++
          ("/0.5,0.5/".toList ++ (s ++ (',' :: (s ++ ",1.0/0.25)]".toList)))))))) := h2
      rcases pair_infix_append_cases '[' '/' _ _ h2b with h3 | h3 | h3
      · exact absurd h3 (pair_not_infix_short '[' '/' ['/'] (by decide))
      · rcases pair_infix_append_cases '[' '/' _ _ h3 with h4 | h4 | h4
        · exact absurd h4 (pair_not_infix_of_not_mem_left '[' '/' s hnotmem)
        · rcases pair_infix_append_cases '[' '/' _ _ h4 with h5 | h5 | h5
          · exact absurd h5 (by decide)
          · rcases pair_infix_append_cases '[' '/' _ _ h5 with h6 | h6 | h6
            · exact absurd h6 (pair_not_infix_of_not_mem_left '[' '/' s hnotmem)
            · rcases pair_infix_append_cases '[' '/' _ _ h6 with h7 | h7 | h7
              · exact absurd h7 (by decide)
              · rcases pair_infix_append_cases '[' '/' _ _ h7 with h8 | h8 | h8
                · exact absurd h8 (pair_not_infix_of_not_mem_left '[' '/' s hnotmem)
                · have h8b : ['[', '/'] <:+: ([','] ++ (s ++ ",1.0/0.25)]".toList)) := h8
                  rcases pair_infix_append_cases '[' '/' _ _ h8b with h9 | h9 | h9
                  · exact absurd h9 (pair_not_infix_short '[' '/' [','] (by decide))
                  · rcases pair_infix_append_cases '[' '/' _ _ h9 with h10 | h10 | h10
                    · exact absurd h10 (pair_not_infix_of_not_mem_left '[' '/' s hnotmem)
                    · exact absurd h10 (by decide)
                    · exact hnotmem (mem_of_getLast?_eq s '[' h10.1)
                  · exact absurd h9.1 (by decide)
                · exact hnotmem (mem_of_getLast?_eq s '[' h8.1)
              · exact absurd h7.1 (by decide)
            · exact hnotmem (mem_of_getLast?_eq s '[' h6.1)
          · exact absurd h5.1 (by decide)
        · exact hnotmem (mem_of_getLast?_eq s '[' h4.1)
      · exact absurd h3.1 (by decide)
    · exact hnotmem (mem_of_getLast?_eq s '[' h2.1)
  · obtain ⟨h1, h2⟩ := h
    cases s with
    | nil => exact hne rfl
    | cons c t =>
      have hc : c = '/' := Option.some.inj (show some c = some '/' from h2)
      exact (hch c (List.mem_cons_self c t)).1 hc

theorem c5_sections (s : List Char) (hne : s ≠ [])
    (hch : ∀ c ∈ s, c ≠ '/' ∧ c ≠ ',' ∧ c ≠ '[' ∧ c ≠ ']' ∧ c ≠ '(' ∧ c ≠ ')' ∧ c ≠ 'l') :
    splitOnSub DATA_SECTION_SPLIT_MARKER (c5doc s) = ["hi".toList, c5b s] := by
  have hj : c5doc s = joinSep DATA_SECTION_SPLIT_MARKER ["hi".toList, c5b s] := by
    simp only [c5doc, List.append_assoc]
    rfl
  rw [hj]
  apply splitOnSub_chunks '[' '/' ['/', ']'] (by decide)
  · exact List.cons_ne_nil _ _
  · intro p hp
    rcases List.mem_cons.mp hp with h | h
    · rw [h]; decide
    · rcases List.mem_cons.mp h with h2 | h2
      · rw [h2]; exact c5b_no_marker_pair s hne hch
      · exact absurd h2 (List.not_mem_nil p)

theorem c5_trim (s : List Char) (hne : s ≠ []) : trimWs (c5b s) = c5b s := by
  apply trimWs_eq_self
  · intro c hc
    have hc2 : '[' = c := Option.some.inj (show some '[' = some c from hc)
    rw [← hc2]
    rfl
  · intro c hc
    have hlast : (c5b s).getLast? = some ']' := by
      rw [c5b]
      rw [List.getLast?_append_of_ne_nil _ (List.append_ne_nil_of_left_ne_nil hne _)]
      rw [List.getLast?_append_of_ne_nil _ (List.cons_ne_nil '/' _)]
      rw [getLast?_cons_of_ne_nil '/' _ (List.append_ne_nil_of_left_ne_nil hne _)]
      rw [List.getLast?_append_of_ne_nil _
        (List.append_ne_nil_of_left_ne_nil (by decide) _)]
      rw [List.getLast?_append_of_ne_nil _
        (List.append_ne_nil_of_left_ne_nil hne _)]
      rw [List.getLast?_append_of_ne_nil _
        (List.append_ne_nil_of_left_ne_nil (by decide) _)]
      rw [List.getLast?_append_of_ne_nil _
        (List.append_ne_nil_of_left_ne_nil hne _)]
      rw [List.getLast?_append_of_ne_nil _ (List.cons_ne_nil ',' _)]
      rw [getLast?_cons_of_ne_nil ',' _ (List.append_ne_nil_of_left_ne_nil hne _)]
      rw [List.getLast?_append_of_ne_nil _
        (by decide : (",1.0/0.25)]".toList : List Char) ≠ [])]
      decide
    have hc2 : c = ']' := Option.some.inj (hc.symm.trans hlast)
    rw [hc2]
    rfl

theorem c5_lbl (s : List Char)
    (hch : ∀ c ∈ s, c ≠ '/' ∧ c ≠ ',' ∧ c ≠ '[' ∧ c ≠ ']' ∧ c ≠ '(' ∧ c ≠ ')' ∧ c ≠ 'l') :
    extract_data (c5b s) LINE_BY_LINE_TIMESTAMP_MARKER =
      Except.ok (s ++ '/' :: s) := by
  refine extract_data_found (c5b s) LINE_BY_LINE_TIMESTAMP_MARKER (s ++ '/' :: s)
    ("[lsk][(".toList ++ (s ++ ("/0.5,0.5/".toList ++ (s ++ (',' ::
      (s ++ ",1.0/0.25)]".toList)))))) 0 ?_ ?_ ?_
  · apply findSub_step_hit
    rfl
  · show '[' :: (s ++ ('/' :: (s ++ ("][lsk][(".toList ++ (s ++ ("/0.5,0.5/".toList ++
        (s ++ (',' :: (s ++ ",1.0/0.25)]".toList))))))))) =
      '[' :: ((s ++ '/' :: s) ++ ']' :: ("[lsk][(".toList ++ (s ++ ("/0.5,0.5/".toList ++
        (s ++ (',' :: (s ++ ",1.0/0.25)]".toList)))))))
    simp only [List.append_assoc, List.cons_append]
    rfl
  · intro hm
    rcases List.mem_append.mp hm with h | h
    · exact (hch ']' h).2.2.2.1 rfl
    · rcases List.mem_cons.mp h with h2 | h2
      · exact absurd h2 (by decide)
      · exact (hch ']' h2).2.2.2.1 rfl

theorem c5_lsk (s : List Char) (hne : s ≠ [])
    (hch : ∀ c ∈ s, c ≠ '/' ∧ c ≠ ',' ∧ c ≠ '[' ∧ c ≠ ']' ∧ c ≠ '(' ∧ c ≠ ')' ∧ c ≠ 'l') :
    extract_data (c5b s) LINE_SYLABLE_KEYFRAME_MARKER =
      Except.ok ('(' :: (s ++ ("/0.5,0.5/".toList ++ (s ++ (',' ::
        (s ++ ",1.0/0.25)".toList)))))) := by
  have hnotmem : '[' ∉ s := fun hm => (hch '[' hm).2.2.1 rfl
  have hfind : findSub LINE_SYLABLE_KEYFRAME_MARKER (c5b s) =
      some (s.length + (s.length + 8)) := by
    rw [show LINE_SYLABLE_KEYFRAME_MARKER = '[' :: 'l' :: "sk]".toList from rfl]
    cases s with
    | nil => exact absurd rfl hne
    | cons c t =>
      have hZ : findSub ('[' :: 'l' :: "sk]".toList)
          ("[lsk][(".toList ++ ((c :: t) ++ ("/0.5,0.5/".toList ++ ((c :: t) ++ (',' ::
            ((c :: t) ++ ",1.0/0.25)]".toList)))))) = some 0 := by
        apply findSub_step_hit
        rfl
      have hz1 : findSub ('[' :: 'l' :: "sk]".toList)
          (']' :: ("[lsk][(".toList ++ ((c :: t) ++ ("/0.5,0.5/".toList ++ ((c :: t) ++ (',' ::
            ((c :: t) ++ ",1.0/0.25)]".toList))))))) = some 1 := by
        have hstep := findSub_step_miss ('[' :: 'l' :: "sk]".toList) ']'
          ("[lsk][(".toList ++ ((c :: t) ++ ("/0.5,0.5/".toList ++ ((c :: t) ++ (',' ::
            ((c :: t) ++ ",1.0/0.25)]".toList)))))) rfl
        rw [hstep, hZ]
        rfl
      have hs2 : findSub ('[' :: 'l' :: "sk]".toList)
          ((c :: t) ++ (']' :: ("[lsk][(".toList ++ ((c :: t) ++ ("/0.5,0.5/".toList ++
            ((c :: t) ++ (',' :: ((c :: t) ++ ",1.0/0.25)]".toList)))))))) =
          some (1 + (c :: t).length) := by
        rw [findSub_shift_pair '[' 'l' ("sk]".toList) (c :: t) _
          (pair_not_infix_of_not_mem_left '[' 'l' (c :: t) hnotmem)
          (fun hp => hnotmem (mem_of_getLast?_eq (c :: t) '[' hp.1))]
        rw [hz1]
        rfl
      have hsl : findSub ('[' :: 'l' :: "sk]".toList)
          ('/' :: ((c :: t) ++ (']' :: ("[lsk][(".toList ++ ((c :: t) ++ ("/0.5,0.5/".toList ++
            ((c :: t) ++ (',' :: ((c :: t) ++ ",1.0/0.25)]".toList))))))))) =
          some (1 + (c :: t).length + 1) := by
        have hstep2 := findSub_step_miss ('[' :: 'l' :: "sk]".toList) '/'
          ((c :: t) ++ (']' :: ("[lsk][(".toList ++ ((c :: t) ++ ("/0.5,0.5/".toList ++
            ((c :: t) ++ (',' :: ((c :: t) ++ ",1.0/0.25)]".toList)))))))) rfl
        rw [hstep2, hs2]
        rfl
      have hs1 : findSub ('[' :: 'l' :: "sk]".toList)
          ((c :: t) ++ ('/' :: ((c :: t) ++ (']' :: ("[lsk][(".toList ++ ((c :: t) ++
            ("/0.5,0.5/".toList ++ ((c :: t) ++ (',' ::
              ((c :: t) ++ ",1.0/0.25)]".toList)))))))))) =
          some (1 + (c :: t).length + 1 + (c :: t).length) := by
        rw [findSub_shift_pair '[' 'l' ("sk]".toList) (c :: t) _
          (pair_not_infix_of_not_mem_left '[' 'l' (c :: t) hnotmem)
          (fun hp => hnotmem (mem_of_getLast?_eq (c :: t) '[' hp.1))]
        rw [hsl]
        rfl
      have h5 : ('[' :: 'l' :: "sk]".toList).isPrefixOf
          ('[' :: ((c :: t) ++ ('/' :: ((c :: t) ++ (']' :: ("[lsk][(".toList ++ ((c :: t) ++
            ("/0.5,0.5/".toList ++ ((c :: t) ++ (',' ::
              ((c :: t) ++ ",1.0/0.25)]".toList))))))))))) = false := by
        show ('[' :: 'l' :: "sk]".toList).isPrefixOf
          ('[' :: (c :: (t ++ ('/' :: ((c :: t) ++ (']' :: ("[lsk][(".toList ++ ((c :: t) ++
            ("/0.5,0.5/".toList ++ ((c :: t) ++ (',' ::
              ((c :: t) ++ ",1.0/0.25)]".toList)))))))))))) = false
        rw [isPrefixOf_cons_eq]
        rw [isPrefixOf_cons_of_ne 'l' c _ _
          (fun he => (hch c (List.mem_cons_self c t)).2.2.2.2.2.2 he.symm)]
        rw [Bool.and_false]
      have e0 : findSub ('[' :: 'l' :: "sk]".toList) ('[' :: 'l' :: 'b' :: 'l' :: ']' :: '[' :: ((c :: t) ++ ('/' :: ((c :: t) ++ (']' :: ("[lsk][(".toList ++ ((c :: t) ++ ("/0.5,0.5/".toList ++ ((c :: t) ++ (',' :: ((c :: t) ++ ",1.0/0.25)]".toList))))))))))) =
          (findSub ('[' :: 'l' :: "sk]".toList) ('l' :: 'b' :: 'l' :: ']' :: '[' :: ((c :: t) ++ ('/' :: ((c :: t) ++ (']' :: ("[lsk][(".toList ++ ((c :: t) ++ ("/0.5,0.5/".toList ++ ((c :: t) ++ (',' :: ((c :: t) ++ ",1.0/0.25)]".toList)))))))))))).map (· + 1) :=
        findSub_step_miss ('[' :: 'l' :: "sk]".toList) _ _ rfl
      have e1 : findSub ('[' :: 'l' :: "sk]".toList) ('l' :: 'b' :: 'l' :: ']' :: '[' :: ((c :: t) ++ ('/' :: ((c :: t) ++ (']' :: ("[lsk][(".toList ++ ((c :: t) ++ ("/0.5,0.5/".toList ++ ((c :: t) ++ (',' :: ((c :: t) ++ ",1.0/0.25)]".toList))))))))))) =
          (findSub ('[' :: 'l' :: "sk]".toList) ('b' :: 'l' :: ']' :: '[' :: ((c :: t) ++ ('/' :: ((c :: t) ++ (']' :: ("[lsk][(".toList ++ ((c :: t) ++ ("/0.5,0.5/".toList ++ ((c :: t) ++ (',' :: ((c :: t) ++ ",1.0/0.25)]".toList)))))))))))).map (· + 1) :=
        findSub_step_miss ('[' :: 'l' :: "sk]".toList) _ _ rfl
      have e2 : findSub ('[' :: 'l' :: "sk]".toList) ('b' :: 'l' :: ']' :: '[' :: ((c :: t) ++ ('/' :: ((c :: t) ++ (']' :: ("[lsk][(".toList ++ ((c :: t) ++ ("/0.5,0.5/".toList ++ ((c :: t) ++ (',' :: ((c :: t) ++ ",1.0/0.25)]".toList))))))))))) =
          (findSub ('[' :: 'l' :: "sk]".toList) ('l' :: ']' :: '[' :: ((c :: t) ++ ('/' :: ((c :: t) ++ (']' :: ("[lsk][(".toList ++ ((c :: t) ++ ("/0.5,0.5/".toList ++ ((c :: t) ++ (',' :: ((c :: t) ++ ",1.0/0.25)]".toList)))))))))))).map (· + 1) :=
        findSub_step_miss ('[' :: 'l' :: "sk]".toList) _ _ rfl
      have e3 : findSub ('[' :: 'l' :: "sk]".toList) ('l' :: ']' :: '[' :: ((c :: t) ++ ('/' :: ((c :: t) ++ (']' :: ("[lsk][(".toList ++ ((c :: t) ++ ("/0.5,0.5/".toList ++ ((c :: t) ++ (',' :: ((c :: t) ++ ",1.0/0.25)]".toList))))))))))) =
          (findSub ('[' :: 'l' :: "sk]".toList) (']' :: '[' :: ((c :: t) ++ ('/' :: ((c :: t) ++ (']' :: ("[lsk][(".toList ++ ((c :: t) ++ ("/0.5,0.5/".toList ++ ((c :: t) ++ (',' :: ((c :: t) ++ ",1.0/0.25)]".toList)))))))))))).map (· + 1) :=
        findSub_step_miss ('[' :: 'l' :: "sk]".toList) _ _ rfl
      have e4 : findSub ('[' :: 'l' :: "sk]".toList) (']' :: '[' :: ((c :: t) ++ ('/' :: ((c :: t) ++ (']' :: ("[lsk][(".toList ++ ((c :: t) ++ ("/0.5,0.5/".toList ++ ((c :: t) ++ (',' :: ((c :: t) ++ ",1.0/0.25)]".toList))))))))))) =
          (findSub ('[' :: 'l' :: "sk]".toList) ('[' :: ((c :: t) ++ ('/' :: ((c :: t) ++ (']' :: ("[lsk][(".toList ++ ((c :: t) ++ ("/0.5,0.5/".toList ++ ((c :: t) ++ (',' :: ((c :: t) ++ ",1.0/0.25)]".toList)))))))))))).map (· + 1) :=
        findSub_step_miss ('[' :: 'l' :: "sk]".toList) _ _ rfl
      have e5 : findSub ('[' :: 'l' :: "sk]".toList) ('[' :: ((c :: t) ++ ('/' :: ((c :: t) ++ (']' :: ("[lsk][(".toList ++ ((c :: t) ++ ("/0.5,0.5/".toList ++ ((c :: t) ++ (',' :: ((c :: t) ++ ",1.0/0.25)]".toList))))))))))) =
          (findSub ('[' :: 'l' :: "sk]".toList) ((c :: t) ++ ('/' :: ((c :: t) ++ (']' :: ("[lsk][(".toList ++ ((c :: t) ++ ("/0.5,0.5/".toList ++ ((c :: t) ++ (',' :: ((c :: t) ++ ",1.0/0.25)]".toList))))))))))).map (· + 1) :=
        findSub_step_miss ('[' :: 'l' :: "sk]".toList) _ _ h5
      show findSub ('[' :: 'l' :: "sk]".toList)
        ('[' :: 'l' :: 'b' :: 'l' :: ']' :: '[' :: ((c :: t) ++ ('/' :: ((c :: t) ++ (']' :: ("[lsk][(".toList ++ ((c :: t) ++ ("/0.5,0.5/".toList ++ ((c :: t) ++ (',' :: ((c :: t) ++ ",1.0/0.25)]".toList))))))))))) =
        some ((c :: t).length + ((c :: t).length + 8))
      rw [e0, e1, e2, e3, e4, e5, hs1]
      show some (1 + (t.length + 1) + 1 + (t.length + 1) + 1 + 1 + 1 + 1 + 1 + 1) =
        some (t.length + 1 + (t.length + 1 + 8))
      exact congrArg some (by omega)
  refine extract_data_found (c5b s) LINE_SYLABLE_KEYFRAME_MARKER
    ('(' :: (s ++ ("/0.5,0.5/".toList ++ (s ++ (',' :: (s ++ ",1.0/0.25)".toList))))))
    [] (s.length + (s.length + 8)) hfind ?_ ?_
  · rw [show s.length + (s.length + 8) + LINE_SYLABLE_KEYFRAME_MARKER.length =
        "[lbl][".toList.length + (s.length + (s.length + 7)) from by
      rw [show LINE_SYLABLE_KEYFRAME_MARKER.length = 5 from rfl,
        show "[lbl][".toList.length = 6 from rfl]
      omega]
    rw [show c5b s = "[lbl][".toList ++ (s ++ ('/' :: (s ++ ("][lsk][(".toList ++ (s ++
      ("/0.5,0.5/".toList ++ (s ++ (',' :: (s ++ ",1.0/0.25)]".toList))))))))) from rfl]
    rw [List.drop_append (s.length + (s.length + 7))]
    rw [List.drop_append (s.length + 7)]
    rw [show s.length + 7 = s.length + 6 + 1 from by omega]
    rw [List.drop_succ_cons]
    rw [List.drop_append 6]
    show '[' :: ('(' :: (s ++ ("/0.5,0.5/".toList ++ (s ++ (',' ::
        (s ++ ",1.0/0.25)]".toList)))))) =
      '[' :: (('(' :: (s ++ ("/0.5,0.5/".toList ++ (s ++ (',' ::
        (s ++ ",1.0/0.25)".toList)))))) ++ ']' :: [])
    simp only [List.cons_append, List.append_assoc]
    rfl
  · intro hm
    rcases List.mem_cons.mp hm with h | h
    · exact absurd h (by decide)
    · rcases List.mem_append.mp h with h2 | h2
      · exact (hch ']' h2).2.2.2.1 rfl
      · rcases List.mem_append.mp h2 with h3 | h3
        · exact absurd h3 (by decide)
        · rcases List.mem_append.mp h3 with h4 | h4
          · exact (hch ']' h4).2.2.2.1 rfl
          · rcases List.mem_cons.mp h4 with h5 | h5
            · exact absurd h5 (by decide)
            · rcases List.mem_append.mp h5 with h6 | h6
              · exact (hch ']' h6).2.2.2.1 rfl
              · exact absurd h6 (by decide)

theorem trimParens_wrap (m : List Char)
    (hh : ∀ c, m.head? = some c → ((c == '(') || (c == ')')) = false)
    (hl : ∀ c, m.getLast? = some c → ((c == '(') || (c == ')')) = false) :
    trimParens ('(' :: (m ++ [')'])) = m := by
  cases hm : m with
  | nil => rfl
  | cons x xs =>
    show ((List.dropWhile (fun c => c == '(' || c == ')')
        ('(' :: ((x :: xs) ++ [')']))).reverse.dropWhile
          (fun c => c == '(' || c == ')')).reverse = x :: xs
    rw [List.dropWhile_cons,
      if_pos (show ((('(' == '(') || ('(' == ')')) = true) from rfl)]
    have hx := hh x (by rw [hm]; rfl)
    rw [show ((x :: xs) ++ [')']) = x :: (xs ++ [')']) from rfl,
      List.dropWhile_cons, if_neg (by rw [hx]; exact Bool.noConfusion)]
    rw [show (x :: (xs ++ [')'])) = (x :: xs) ++ [')'] from rfl, List.reverse_append]
    show (List.dropWhile (fun c => c == '(' || c == ')')
      (')' :: (x :: xs).reverse)).reverse = x :: xs
    rw [List.dropWhile_cons,
      if_pos (show (((')' == '(') || (')' == ')')) = true) from rfl)]
    have hdw : List.dropWhile (fun c => c == '(' || c == ')') (x :: xs).reverse =
        (x :: xs).reverse := by
      cases hr : (x :: xs).reverse with
      | nil =>
        have hlen := congrArg List.length hr
        rw [List.length_reverse, List.length_cons, List.length_nil] at hlen
        exact absurd hlen (by omega)
      | cons y ys =>
        have hy : (x :: xs).getLast? = some y := by
          rw [← List.head?_reverse, hr]
          rfl
        have hyp := hl y (by rw [hm]; exact hy)
        rw [List.dropWhile_cons, if_neg (by rw [hyp]; exact Bool.noConfusion)]
    rw [hdw, List.reverse_reverse]

theorem from_string_pct_time_none (a b : List Char) (len : ℚ)
    (ha : '/' ∉ a) (hpa : parseQ a = none) :
    Keyframe.from_string_pct (a ++ '/' :: b) len = none := by
  unfold Keyframe.from_string_pct
  rw [splitOnce_append '/' a b ha]
  show (match parseQ a, parseQ b with
    | some time, some pct => some (⟨time, pct * len⟩ : Keyframe)
    | _, _ => none) = none
  rw [hpa]

theorem from_string_pct_pct_none (a b : List Char) (len : ℚ)
    (ha : '/' ∉ a) (hpb : parseQ b = none) :
    Keyframe.from_string_pct (a ++ '/' :: b) len = none := by
  unfold Keyframe.from_string_pct
  rw [splitOnce_append '/' a b ha]
  show (match parseQ a, parseQ b with
    | some time, some pct => some (⟨time, pct * len⟩ : Keyframe)
    | _, _ => none) = none
  rw [hpb]
  cases parseQ a with
  | none => rfl
  | some q => rfl

theorem from_string_pct_no_slash (a : List Char) (len : ℚ) (ha : '/' ∉ a) :
    Keyframe.from_string_pct a len = none := by
  unfold Keyframe.from_string_pct
  rw [splitOnce_not_mem '/' a ha]

theorem c5_applyTs (s : List Char) (hp : parseQ s = none)
    (hch : ∀ c ∈ s, c ≠ '/' ∧ c ≠ ',' ∧ c ≠ '[' ∧ c ≠ ']' ∧ c ≠ '(' ∧ c ≠ ')' ∧ c ≠ 'l') :
    applyTs ⟨"hi".toList, none, 0, 0, []⟩ (s ++ '/' :: s) =
      ⟨"hi".toList, none, 0, 0, []⟩ := by
  have hsplit2 : splitChar '/' (s ++ '/' :: s) = [s, s] := by
    rw [splitChar_append]
    rw [splitChar_of_not_mem '/' s (fun hm => (hch '/' hm).1 rfl)]
    rfl
  unfold applyTs
  rw [hsplit2]
  rw [if_pos (show ([s, s] : List (List Char)).length = 2 from rfl)]
  rw [show ([s, s].getD 0 []) = s from rfl]
  rw [show ([s, s].getD 1 []) = s from rfl]
  rw [hp]
  decide

theorem c5_applyGroup (s : List Char) (hne : s ≠ []) (hp : parseQ s = none)
    (hch : ∀ c ∈ s, c ≠ '/' ∧ c ≠ ',' ∧ c ≠ '[' ∧ c ≠ ']' ∧ c ≠ '(' ∧ c ≠ ')' ∧ c ≠ 'l') :
    applyGroup ⟨"hi".toList, none, 0, 0, []⟩
      ('(' :: (s ++ ("/0.5,0.5/".toList ++ (s ++ (',' ::
        (s ++ ",1.0/0.25)".toList)))))) =
      ⟨"hi".toList, none, 0, 0, [⟨1, 1 / 2⟩]⟩ := by
  have hslash : '/' ∉ s := fun hm => (hch '/' hm).1 rfl
  have htp : trimParens ('(' :: (s ++ ("/0.5,0.5/".toList ++ (s ++ (',' ::
      (s ++ ",1.0/0.25)".toList)))))) =
      s ++ ("/0.5,0.5/".toList ++ (s ++ (',' :: (s ++ ",1.0/0.25".toList)))) := by
    have hsh : ('(' : Char) :: (s ++ ("/0.5,0.5/".toList ++ (s ++ (',' ::
        (s ++ ",1.0/0.25)".toList))))) =
        '(' :: ((s ++ ("/0.5,0.5/".toList ++ (s ++ (',' ::
          (s ++ ",1.0/0.25".toList))))) ++ [')']) := by
      simp only [List.append_assoc, List.cons_append]
      rfl
    rw [hsh]
    apply trimParens_wrap
    · intro c hc
      cases s with
      | nil => exact absurd rfl hne
      | cons x t =>
        have hxc : x = c := Option.some.inj (show some x = some c from hc)
        rw [← hxc]
        rw [beq_eq_false_iff_ne.mpr (hch x (List.mem_cons_self x t)).2.2.2.2.1,
          beq_eq_false_iff_ne.mpr (hch x (List.mem_cons_self x t)).2.2.2.2.2.1]
        rfl
    · intro c hc
      have hlast : (s ++ ("/0.5,0.5/".toList ++ (s ++ (',' ::
          (s ++ ",1.0/0.25".toList))))).getLast? = some '5' := by
        rw [List.getLast?_append_of_ne_nil _
          (List.append_ne_nil_of_left_ne_nil (by decide) _)]
        rw [List.getLast?_append_of_ne_nil _
          (List.append_ne_nil_of_left_ne_nil hne _)]
        rw [List.getLast?_append_of_ne_nil _ (List.cons_ne_nil ',' _)]
        rw [getLast?_cons_of_ne_nil ',' _ (List.append_ne_nil_of_left_ne_nil hne _)]
        rw [List.getLast?_append_of_ne_nil _
          (by decide : (",1.0/0.25".toList : List Char) ≠ [])]
        decide
      have hc5 : c = '5' := Option.some.inj (hc.symm.trans hlast)
      rw [hc5]
      rfl
  have hsc : splitChar ',' (s ++ ("/0.5,0.5/".toList ++ (s ++ (',' ::
      (s ++ ",1.0/0.25".toList))))) =
      [s ++ "/0.5".toList, "0.5".toList ++ '/' :: s, s, "1.0/0.25".toList] := by
    have hm1 : ',' ∉ s ++ "/0.5".toList := by
      intro hm
      rcases List.mem_append.mp hm with h1 | h1
      · exact (hch ',' h1).2.1 rfl
      · exact absurd h1 (by decide)
    have hm2 : ',' ∉ "0.5".toList ++ '/' :: s := by
      intro hm
      rcases List.mem_append.mp hm with h1 | h1
      · exact absurd h1 (by decide)
      · rcases List.mem_cons.mp h1 with h2 | h2
        · exact absurd h2 (by decide)
        · exact (hch ',' h2).2.1 rfl
    have hm3 : ',' ∉ s := fun hm => (hch ',' hm).2.1 rfl
    have hsh2 : s ++ ("/0.5,0.5/".toList ++ (s ++ (',' :: (s ++ ",1.0/0.25".toList)))) =
        (s ++ "/0.5".toList) ++ ',' :: (("0.5".toList ++ '/' :: s) ++ ',' ::
          (s ++ ',' :: "1.0/0.25".toList)) := by
      simp only [List.append_assoc, List.cons_append]
      rfl
    rw [hsh2, splitChar_append, splitChar_append, splitChar_append]
    rw [splitChar_of_not_mem ',' (s ++ "/0.5".toList) hm1,
      splitChar_of_not_mem ',' ("0.5".toList ++ '/' :: s) hm2,
      splitChar_of_not_mem ',' s hm3,
      show splitChar ',' ("1.0/0.25".toList) = ["1.0/0.25".toList] from by decide]
    rfl
  have hd1 : Keyframe.from_string_pct (s ++ "/0.5".toList)
      ((("hi".toList : List Char).length : ℚ)) = none :=
    from_string_pct_time_none s ("0.5".toList) _ hslash hp
  have hd2 : Keyframe.from_string_pct ("0.5".toList ++ '/' :: s)
      ((("hi".toList : List Char).length : ℚ)) = none :=
    from_string_pct_pct_none ("0.5".toList) s _ (by decide) hp
  have hd3 : Keyframe.from_string_pct s
      ((("hi".toList : List Char).length : ℚ)) = none :=
    from_string_pct_no_slash s _ hslash
  have hfm1 : List.filterMap (fun e => Keyframe.from_string_pct e
      ((("hi".toList : List Char).length : ℚ)))
      [s ++ "/0.5".toList, "0.5".toList ++ '/' :: s, s, "1.0/0.25".toList] =
      List.filterMap (fun e => Keyframe.from_string_pct e
        ((("hi".toList : List Char).length : ℚ)))
      ["0.5".toList ++ '/' :: s, s, "1.0/0.25".toList] :=
    List.filterMap_cons_none hd1
  have hfm2 : List.filterMap (fun e => Keyframe.from_string_pct e
      ((("hi".toList : List Char).length : ℚ)))
      ["0.5".toList ++ '/' :: s, s, "1.0/0.25".toList] =
      List.filterMap (fun e => Keyframe.from_string_pct e
        ((("hi".toList : List Char).length : ℚ))) [s, "1.0/0.25".toList] :=
    List.filterMap_cons_none hd2
  have hfm3 : List.filterMap (fun e => Keyframe.from_string_pct e
      ((("hi".toList : List Char).length : ℚ))) [s, "1.0/0.25".toList] =
      List.filterMap (fun e => Keyframe.from_string_pct e
        ((("hi".toList : List Char).length : ℚ))) ["1.0/0.25".toList] :=
    List.filterMap_cons_none hd3
  have happlyeq : applyGroup ⟨"hi".toList, none, 0, 0, []⟩
      ('(' :: (s ++ ("/0.5,0.5/".toList ++ (s ++ (',' ::
        (s ++ ",1.0/0.25)".toList)))))) =
      (⟨"hi".toList, none, 0, 0,
        List.insertionSort kfLe (([] : List Keyframe) ++
          (splitChar ',' (trimParens ('(' :: (s ++ ("/0.5,0.5/".toList ++ (s ++ (',' ::
            (s ++ ",1.0/0.25)".toList)))))))).filterMap
            (fun e => Keyframe.from_string_pct e
              ((("hi".toList : List Char).length : ℚ))))⟩ : LyricLine) := rfl
  rw [happlyeq, htp, hsc]
  rw [show ((([s ++ "/0.5".toList, "0.5".toList ++ '/' :: s, s,
      "1.0/0.25".toList] : List (List Char)).filterMap
      (fun e => Keyframe.from_string_pct e
        ((("hi".toList : List Char).length : ℚ)))) =
      List.filterMap (fun e => Keyframe.from_string_pct e
        ((("hi".toList : List Char).length : ℚ))) ["1.0/0.25".toList]) from
    (hfm1.trans (hfm2.trans hfm3))]
  decide

theorem c5_groups (s : List Char) (hne : s ≠ [])
    (hch : ∀ c ∈ s, c ≠ '/' ∧ c ≠ ',' ∧ c ≠ '[' ∧ c ≠ ']' ∧ c ≠ '(' ∧ c ≠ ')' ∧ c ≠ 'l') :
    splitOnSub KF_GROUP_SEP ('(' :: (s ++ ("/0.5,0.5/".toList ++ (s ++ (',' ::
        (s ++ ",1.0/0.25)".toList)))))) =
      [('(' :: (s ++ ("/0.5,0.5/".toList ++ (s ++ (',' ::
        (s ++ ",1.0/0.25)".toList))))))] := by
  apply splitOnSub_of_none
  have hnotr : ')' ∉ s := fun hm => (hch ')' hm).2.2.2.2.2.1 rfl
  have hpair : ¬ [')', ','] <:+: ('(' :: (s ++ ("/0.5,0.5/".toList ++ (s ++ (',' ::
      (s ++ ",1.0/0.25)".toList)))))) := by
    intro hinf
    have hinf2 : [')', ','] <:+: (['('] ++ (s ++ ("/0.5,0.5/".toList ++ (s ++ (',' ::
        (s ++ ",1.0/0.25)".toList)))))) := hinf
    rcases pair_infix_append_cases ')' ',' _ _ hinf2 with h | h | h
    · exact absurd h (pair_not_infix_short ')' ',' ['('] (by decide))
    · rcases pair_infix_append_cases ')' ',' _ _ h with h2 | h2 | h2
      · exact absurd h2 (pair_not_infix_of_not_mem_left ')' ',' s hnotr)
      · rcases pair_infix_append_cases ')' ',' _ _ h2 with h3 | h3 | h3
        · exact absurd h3 (by decide)
        · rcases pair_infix_append_cases ')' ',' _ _ h3 with h4 | h4 | h4
          · exact absurd h4 (pair_not_infix_of_not_mem_left ')' ',' s hnotr)
          · have h4b : [')', ','] <:+: ([','] ++ (s ++ ",1.0/0.25)".toList)) := h4
            rcases pair_infix_append_cases ')' ',' _ _ h4b with h5 | h5 | h5
            · exact absurd h5 (pair_not_infix_short ')' ',' [','] (by decide))
            · rcases pair_infix_append_cases ')' ',' _ _ h5 with h6 | h6 | h6
              · exact absurd h6 (pair_not_infix_of_not_mem_left ')' ',' s hnotr)
              · exact absurd h6 (by decide)
              · exact hnotr (mem_of_getLast?_eq s ')' h6.1)
            · exact absurd h5.1 (by decide)
          · exact hnotr (mem_of_getLast?_eq s ')' h4.1)
        · exact absurd h3.1 (by decide)
      · exact hnotr (mem_of_getLast?_eq s ')' h2.1)
    · exact absurd h.1 (by decide)
  exact findSub_none_pair ')' ',' ("(".toList) _ hpair

/-- C5 (amended): during a successful decode, an unparsable `start` field and
an unparsable `end` field both default silently to `0.0` (the probe document
puts the unparsable fragment `s` in both slots), while keyframe entries whose
time fails to parse, whose percentage fails to parse, or which lack a `/`
separator are silently dropped rather than defaulted; the remaining valid
keyframe survives with its percentage re-scaled by the line length. -/
theorem C5_silent_default_and_drop (s : List Char) (h : c5ok s) :
    AnimationData.from_str (c5doc s) =
      Except.ok ⟨[⟨"hi".toList, none, 0, 0, [⟨1, 1 / 2⟩]⟩]⟩ ∧
    (parseQ s).getD 0 = 0 ∧
    Keyframe.from_string_pct (s ++ "/0.5".toList) 2 = none ∧
    Keyframe.from_string_pct ("0.5".toList ++ '/' :: s) 2 = none ∧
    Keyframe.from_string_pct s 2 = none := by
  obtain ⟨hp, hne, hch⟩ := h
  have hslash : '/' ∉ s := fun hm => (hch '/' hm).1 rfl
  refine ⟨?_, ?_, ?_, ?_, ?_⟩
  · have hsec := c5_sections s hne hch
    have htrim := c5_trim s hne
    have hsplitlbl : splitChar ',' (s ++ '/' :: s) = [s ++ '/' :: s] := by
      apply splitChar_of_not_mem
      intro hm
      rcases List.mem_append.mp hm with h1 | h1
      · exact (hch ',' h1).2.1 rfl
      · rcases List.mem_cons.mp h1 with h2 | h2
        · exact absurd h2 (by decide)
        · exact (hch ',' h2).2.1 rfl
    have hpts : parseTextSection (trimWs ("hi".toList)) =
        [⟨"hi".toList, none, 0, 0, []⟩] := by decide
    have hok := from_str_eq_ok (c5doc s) ("hi".toList) (c5b s) []
      (s ++ '/' :: s)
      ('(' :: (s ++ ("/0.5,0.5/".toList ++ (s ++ (',' :: (s ++ ",1.0/0.25)".toList))))))
      hsec (by rw [htrim]; exact c5_lbl s hch) (by rw [htrim]; exact c5_lsk s hne hch)
      (by rw [hsplitlbl, hpts]; rfl)
    rw [hok, hpts, hsplitlbl]
    show Except.ok (AnimationData.mk (applyKfGroups
      [applyTs ⟨"hi".toList, none, 0, 0, []⟩ (s ++ '/' :: s)]
      (splitOnSub KF_GROUP_SEP ('(' :: (s ++ ("/0.5,0.5/".toList ++ (s ++ (',' ::
        (s ++ ",1.0/0.25)".toList))))))))) = _
    rw [c5_applyTs s hp hch, c5_groups s hne hch]
    show Except.ok (AnimationData.mk [applyGroup ⟨"hi".toList, none, 0, 0, []⟩
      ('(' :: (s ++ ("/0.5,0.5/".toList ++ (s ++ (',' ::
        (s ++ ",1.0/0.25)".toList))))))]) = _
    rw [c5_applyGroup s hne hp hch]
  · rw [hp]
    rfl
  · exact from_string_pct_time_none s ("0.5".toList) 2 hslash hp
  · exact from_string_pct_pct_none ("0.5".toList) s 2 (by decide) hp
  · exact from_string_pct_no_slash s 2 hslash

/-- Witness: the unparsable field `"x"` exercises the amended C5 statement. -/
theorem C5_amended_witness : c5ok ("x".toList) ∧
    (AnimationData.from_str (c5doc ("x".toList)) =
      Except.ok ⟨[⟨"hi".toList, none, 0, 0, [⟨1, 1 / 2⟩]⟩]⟩ ∧
    (parseQ ("x".toList)).getD 0 = 0 ∧
    Keyframe.from_string_pct ("x".toList ++ "/0.5".toList) 2 = none ∧
    Keyframe.from_string_pct ("0.5".toList ++ '/' :: "x".toList) 2 = none ∧
    Keyframe.from_string_pct ("x".toList) 2 = none) :=
  ⟨by decide, C5_silent_default_and_drop ("x".toList) (by decide)⟩

-- ## C1: round-trip machinery


theorem joinSep_cons_cons (sep p q : List Char) (rest : List (List Char)) :
    joinSep sep (p :: q :: rest) = p ++ (sep ++ joinSep sep (q :: rest)) := by
  simp only [joinSep]
  rw [List.append_assoc]

theorem mem_joinSep (sep : List Char) : ∀ (parts : List (List Char)) (c : Char),
    c ∈ joinSep sep parts → (∃ p ∈ parts, c ∈ p) ∨ c ∈ sep := by
  intro parts
  induction parts with
  | nil => intro c hc; exact absurd hc (List.not_mem_nil c)
  | cons p ps ih =>
    intro c hc
    cases ps with
    | nil => exact Or.inl ⟨p, List.mem_cons_self p [], hc⟩
    | cons q rest =>
      rw [joinSep_cons_cons] at hc
      rcases List.mem_append.mp hc with h | h
      · exact Or.inl ⟨p, List.mem_cons_self p _, h⟩
      · rcases List.mem_append.mp h with h2 | h2
        · exact Or.inr h2
        · rcases ih c h2 with ⟨p2, hp2, hcp⟩ | h3
          · exact Or.inl ⟨p2, List.mem_cons_of_mem p hp2, hcp⟩
          · exact Or.inr h3

theorem joinSep_head_eq (sep p : List Char) (ps : List (List Char)) (hp : p ≠ []) :
    (joinSep sep (p :: ps)).head? = p.head? := by
  cases ps with
  | nil => rfl
  | cons q rest =>
    rw [joinSep_cons_cons]
    exact List.head?_append_of_ne_nil p hp

theorem joinSep_concat_last (sep : List Char) : ∀ (parts : List (List Char)) (p : List Char),
    p ≠ [] → joinSep sep (parts ++ [p]) ≠ [] ∧
      (joinSep sep (parts ++ [p])).getLast? = p.getLast? := by
  intro parts
  induction parts with
  | nil => intro p hp; exact ⟨hp, rfl⟩
  | cons q rest ih =>
    intro p hp
    cases rest with
    | nil =>
      rw [show (([q] : List (List Char)) ++ [p]) = [q, p] from rfl, joinSep_cons_cons]
      have hsp : sep ++ joinSep sep [p] ≠ [] := by
        intro h0
        apply hp
        have hlen := congrArg List.length h0
        rw [List.length_append, List.length_nil] at hlen
        have : (joinSep sep [p]).length = 0 := by omega
        exact List.length_eq_zero.mp (by
          show (joinSep sep [p]).length = 0
          exact this)
      constructor
      · exact fun h0 => hsp (by
          have hlen := congrArg List.length h0
          rw [List.length_append, List.length_nil] at hlen
          exact List.length_eq_zero.mp (by omega))
      · rw [List.getLast?_append_of_ne_nil _ hsp,
          show joinSep sep [p] = p from rfl,
          List.getLast?_append_of_ne_nil _ hp]
    | cons r rs =>
      obtain ⟨ihne, ihlast⟩ := ih p hp
      rw [show ((q :: r :: rs) ++ [p]) = q :: ((r :: rs) ++ [p]) from rfl]
      rw [show (((r :: rs) : List (List Char)) ++ [p]) = r :: (rs ++ [p]) from rfl]
      rw [joinSep_cons_cons]
      rw [show (r :: (rs ++ [p])) = ((r :: rs) ++ [p] : List (List Char)) from rfl]
      have hsp : sep ++ joinSep sep ((r :: rs) ++ [p]) ≠ [] := by
        intro h0
        apply ihne
        have hlen := congrArg List.length h0
        rw [List.length_append, List.length_nil] at hlen
        exact List.length_eq_zero.mp (by omega)
      refine ⟨?_, ?_⟩
      · intro h0
        apply hsp
        have hlen := congrArg List.length h0
        rw [List.length_append, List.length_nil] at hlen
        exact List.length_eq_zero.mp (by omega)
      · rw [List.getLast?_append_of_ne_nil _ hsp,
          List.getLast?_append_of_ne_nil _ ihne]
        exact ihlast

theorem fmt3_ne_nil (q : ℚ) : fmt3 q ≠ [] := by
  obtain ⟨c, r, hcr, _⟩ := fmt3_head q
  rw [hcr]
  exact List.cons_ne_nil c r

theorem fmt3_excludes (q : ℚ) (x : Char) (hx : x.isDigit = false)
    (h1 : x ≠ '.') (h2 : x ≠ '-') : x ∉ fmt3 q := by
  intro hm
  rcases fmt3_chars q x hm with h | h | h
  · rw [h] at hx; exact Bool.noConfusion hx
  · exact h1 h
  · exact h2 h

theorem tsStrOf_chars (l : LyricLine) (c : Char) (hc : c ∈ tsStrOf l) :
    c.isDigit = true ∨ c = '.' ∨ c = '-' ∨ c = '/' := by
  unfold tsStrOf at hc
  rcases List.mem_append.mp hc with h | h
  · rcases fmt3_chars _ c h with h2 | h2 | h2
    · exact Or.inl h2
    · exact Or.inr (Or.inl h2)
    · exact Or.inr (Or.inr (Or.inl h2))
  · rcases List.mem_cons.mp h with h2 | h2
    · exact Or.inr (Or.inr (Or.inr h2))
    · rcases fmt3_chars _ c h2 with h3 | h3 | h3
      · exact Or.inl h3
      · exact Or.inr (Or.inl h3)
      · exact Or.inr (Or.inr (Or.inl h3))

theorem to_string_pct_chars (kf : Keyframe) (len : ℚ) (c : Char)
    (hc : c ∈ kf.to_string_pct len) :
    c.isDigit = true ∨ c = '.' ∨ c = '-' ∨ c = '/' := by
  unfold Keyframe.to_string_pct at hc
  rcases List.mem_append.mp hc with h | h
  · rcases fmt3_chars _ c h with h2 | h2 | h2
    · exact Or.inl h2
    · exact Or.inr (Or.inl h2)
    · exact Or.inr (Or.inr (Or.inl h2))
  · rcases List.mem_cons.mp h with h2 | h2
    · exact Or.inr (Or.inr (Or.inr h2))
    · rcases fmt3_chars _ c h2 with h3 | h3 | h3
      · exact Or.inl h3
      · exact Or.inr (Or.inl h3)
      · exact Or.inr (Or.inr (Or.inl h3))

theorem innerOf_chars (l : LyricLine) (c : Char) (hc : c ∈ innerOf l) :
    c.isDigit = true ∨ c = '.' ∨ c = '-' ∨ c = '/' ∨ c = ',' := by
  unfold innerOf at hc
  rcases mem_joinSep _ _ c hc with ⟨p, hp, hcp⟩ | h
  · obtain ⟨kf, _, rfl⟩ := List.mem_map.mp hp
    rcases to_string_pct_chars kf _ c hcp with h2 | h2 | h2 | h2
    · exact Or.inl h2
    · exact Or.inr (Or.inl h2)
    · exact Or.inr (Or.inr (Or.inl h2))
    · exact Or.inr (Or.inr (Or.inr (Or.inl h2)))
  · exact Or.inr (Or.inr (Or.inr (Or.inr (List.mem_singleton.mp h))))

theorem s2_chars (ls : List LyricLine) (c : Char)
    (hc : c ∈ joinSep [','] (ls.map tsStrOf)) :
    c.isDigit = true ∨ c = '.' ∨ c = '-' ∨ c = '/' ∨ c = ',' := by
  rcases mem_joinSep _ _ c hc with ⟨p, hp, hcp⟩ | h
  · obtain ⟨l, _, rfl⟩ := List.mem_map.mp hp
    rcases tsStrOf_chars l c hcp with h2 | h2 | h2 | h2
    · exact Or.inl h2
    · exact Or.inr (Or.inl h2)
    · exact Or.inr (Or.inr (Or.inl h2))
    · exact Or.inr (Or.inr (Or.inr (Or.inl h2)))
  · exact Or.inr (Or.inr (Or.inr (Or.inr (List.mem_singleton.mp h))))

theorem s3_chars (ls : List LyricLine) (c : Char)
    (hc : c ∈ joinSep [','] (ls.map kfGroupOf)) :
    c.isDigit = true ∨ c = '.' ∨ c = '-' ∨ c = '/' ∨ c = ',' ∨ c = '(' ∨ c = ')' := by
  rcases mem_joinSep _ _ c hc with ⟨p, hp, hcp⟩ | h
  · obtain ⟨l, _, rfl⟩ := List.mem_map.mp hp
    unfold kfGroupOf at hcp
    rcases List.mem_cons.mp hcp with h2 | h2
    · exact Or.inr (Or.inr (Or.inr (Or.inr (Or.inr (Or.inl h2)))))
    · rcases List.mem_append.mp h2 with h3 | h3
      · rcases innerOf_chars l c h3 with h4 | h4 | h4 | h4 | h4
        · exact Or.inl h4
        · exact Or.inr (Or.inl h4)
        · exact Or.inr (Or.inr (Or.inl h4))
        · exact Or.inr (Or.inr (Or.inr (Or.inl h4)))
        · exact Or.inr (Or.inr (Or.inr (Or.inr (Or.inl h4))))
      · exact Or.inr (Or.inr (Or.inr (Or.inr (Or.inr (Or.inr
          (List.mem_singleton.mp h3))))))
  · exact Or.inr (Or.inr (Or.inr (Or.inr (Or.inl (List.mem_singleton.mp h)))))

theorem sanitize_mem (t : List Char) (c : Char) (hc : c ∈ sanitize t) :
    c ∈ t ∧ isCtrl c = false ∧ c ≠ '/' ∧ c ≠ '[' ∧ c ≠ ']' := by
  have hmem := (List.mem_filter.mp hc).1
  have hpred := (List.mem_filter.mp hc).2
  simp only [Bool.and_eq_true, Bool.not_eq_true'] at hpred
  refine ⟨hmem, hpred.1.1.1, ?_, ?_, ?_⟩
  · exact fun he => by rw [he] at hpred; exact absurd hpred.1.1.2 (by decide)
  · exact fun he => by rw [he] at hpred; exact absurd hpred.1.2 (by decide)
  · exact fun he => by rw [he] at hpred; exact absurd hpred.2 (by decide)

theorem append_ne_nil_right (a b : List Char) (hb : b ≠ []) : a ++ b ≠ [] := by
  intro h0
  apply hb
  have hlen := congrArg List.length h0
  rw [List.length_append, List.length_nil] at hlen
  exact List.length_eq_zero.mp (by omega)

/-- The blank `LyricLine` produced in stage 1 of the decoder for a given
source line. -/
def blankOf (l : LyricLine) : LyricLine := ⟨l.text, l.part, 0, 0, []⟩

/-- The fragments (pieces between newlines) contributed by one line to the
text section of the encoded document. -/
def fragsOf (l : LyricLine) : List (List Char) :=
  match l.part with
  | none => [sanitize l.text]
  | some p => [[], '[' :: (p ++ [']']), sanitize l.text]

theorem pieceOf_ne_nil (l : LyricLine) (h1 : l.text ≠ [])
    (hsan : sanitize l.text = l.text) : pieceOf l ≠ [] := by
  unfold pieceOf
  cases l.part with
  | none => rw [hsan]; exact h1
  | some p => exact List.cons_ne_nil _ _

theorem pieceOf_getLast (l : LyricLine) (h1 : l.text ≠ [])
    (hsan : sanitize l.text = l.text) :
    (pieceOf l).getLast? = l.text.getLast? := by
  unfold pieceOf
  cases l.part with
  | none => rw [hsan]
  | some p =>
    rw [getLast?_cons_of_ne_nil _ _ (List.cons_ne_nil _ _)]
    rw [getLast?_cons_of_ne_nil _ _
      (append_ne_nil_right p _ (List.cons_ne_nil _ _))]
    rw [List.getLast?_append_of_ne_nil _ (List.cons_ne_nil _ _)]
    rw [getLast?_cons_of_ne_nil _ _ (List.cons_ne_nil _ _)]
    rw [hsan]
    rw [getLast?_cons_of_ne_nil _ _ h1]

theorem splitChar_pieceOf (l : LyricLine)
    (hctrl : ∀ c ∈ l.text, isCtrl c = false)
    (hpart : ∀ p, l.part = some p → ∀ c ∈ p, isCtrl c = false) :
    splitChar '\n' (pieceOf l) = fragsOf l := by
  unfold pieceOf fragsOf
  have hnotext : '\n' ∉ sanitize l.text := fun hm =>
    absurd ((sanitize_mem _ _ hm).2.1) (by decide)
  cases hp : l.part with
  | none => exact splitChar_of_not_mem '\n' _ hnotext
  | some p =>
    show splitChar '\n' ('\n' :: '[' :: (p ++ ']' :: '\n' :: sanitize l.text)) =
      [[], '[' :: (p ++ [']']), sanitize l.text]
    have hnop : '\n' ∉ '[' :: (p ++ [']']) := by
      intro hm
      rcases List.mem_cons.mp hm with h | h
      · exact absurd h (by decide)
      · rcases List.mem_append.mp h with h2 | h2
        · have := hpart p hp '\n' h2
          rw [show isCtrl '\n' = true from rfl] at this
          exact Bool.noConfusion this
        · exact absurd h2 (by decide)
    have hsh : ('\n' :: '[' :: (p ++ ']' :: '\n' :: sanitize l.text)) =
        [] ++ '\n' :: (('[' :: (p ++ [']'])) ++ '\n' :: sanitize l.text) := by
      show ('\n' :: '[' :: (p ++ ']' :: '\n' :: sanitize l.text)) =
        '\n' :: ('[' :: ((p ++ [']']) ++ '\n' :: sanitize l.text))
      rw [List.append_assoc]
      rfl
    rw [hsh, splitChar_append]
    rw [splitChar_append '\n' ('[' :: (p ++ [']'])) (sanitize l.text)]
    rw [splitChar_of_not_mem '\n' ('[' :: (p ++ [']'])) hnop]
    rw [splitChar_of_not_mem '\n' (sanitize l.text) hnotext]
    rfl

theorem splitChar_s1 : ∀ (ls : List LyricLine), ls ≠ [] →
    (∀ l ∈ ls, ∀ c ∈ l.text, isCtrl c = false) →
    (∀ l ∈ ls, ∀ p, l.part = some p → ∀ c ∈ p, isCtrl c = false) →
    splitChar '\n' (joinSep ['\n'] (ls.map pieceOf)) = (ls.map fragsOf).flatten := by
  intro ls
  induction ls with
  | nil => intro h; exact absurd rfl h
  | cons l rest ih =>
    intro _ hctrl hpart
    cases rest with
    | nil =>
      rw [List.map_cons, List.map_nil]
      rw [show joinSep ['\n'] [pieceOf l] = pieceOf l from rfl]
      rw [splitChar_pieceOf l (hctrl l (List.mem_cons_self l _))
        (hpart l (List.mem_cons_self l _))]
      rw [List.map_cons, List.map_nil, List.flatten_cons, List.flatten_nil,
        List.append_nil]
    | cons r rrest =>
      rw [List.map_cons]
      rw [show (((r :: rrest).map pieceOf) : List (List Char)) =
        pieceOf r :: (rrest.map pieceOf) from rfl]
      rw [joinSep_cons_cons]
      rw [show (['\n'] ++ joinSep ['\n'] (pieceOf r :: rrest.map pieceOf)) =
        '\n' :: joinSep ['\n'] (pieceOf r :: rrest.map pieceOf) from rfl]
      rw [splitChar_append]
      rw [splitChar_pieceOf l (hctrl l (List.mem_cons_self l _))
        (hpart l (List.mem_cons_self l _))]
      rw [show (joinSep ['\n'] (pieceOf r :: rrest.map pieceOf)) =
        joinSep ['\n'] ((r :: rrest).map pieceOf) from rfl]
      rw [ih (List.cons_ne_nil r rrest)
        (fun x hx => hctrl x (List.mem_cons_of_mem l hx))
        (fun x hx => hpart x (List.mem_cons_of_mem l hx))]
      rw [List.map_cons, List.flatten_cons, List.map_cons, List.flatten_cons,
        List.map_cons, List.flatten_cons]

theorem parseLinesGo_cons (cp : Option (List Char)) (f : List Char)
    (fs : List (List Char)) : parseLinesGo cp (f :: fs) =
    (if trimWs f = [] then parseLinesGo cp fs
     else if (trimWs f).head? = some '[' ∧ (trimWs f).getLast? = some ']' then
       parseLinesGo (some (((trimWs f).drop 1).dropLast)) fs
     else ⟨trimWs f, cp, 0, 0, []⟩ :: parseLinesGo cp fs) := rfl

theorem parseLinesGo_blank (cp : Option (List Char)) (fs : List (List Char)) :
    parseLinesGo cp ([] :: fs) = parseLinesGo cp fs := by
  rw [parseLinesGo_cons, if_pos (show trimWs [] = [] from rfl)]

theorem parseLinesGo_flatten : ∀ (ls : List LyricLine) (cp : Option (List Char)),
    (∀ l ∈ ls, l.text ≠ [] ∧ trimWs l.text = l.text ∧
      ∀ c ∈ l.text, isCtrl c = false ∧ c ≠ '/' ∧ c ≠ '[' ∧ c ≠ ']') →
    (∀ l ∈ ls, ∀ p, l.part = some p → ∀ c ∈ p, isCtrl c = false ∧ c ≠ '/') →
    List.Pairwise (fun a b => b.part = none → a.part = none) ls →
    (∀ l ∈ ls, l.part = none → cp = none) →
    parseLinesGo cp ((ls.map fragsOf).flatten) = ls.map blankOf := by
  intro ls
  induction ls with
  | nil =>
    intro cp _ _ _ _
    rw [List.map_nil, List.flatten_nil, List.map_nil]
    rfl
  | cons l rest ih =>
    intro cp htext hpart hpw hcp
    obtain ⟨h1, h2, h3⟩ := htext l (List.mem_cons_self l rest)
    have hsan : sanitize l.text = l.text :=
      sanitize_eq_self _ (fun c hc => (h3 c hc))
    have hbr : ¬((trimWs l.text).head? = some '[' ∧
        (trimWs l.text).getLast? = some ']') := by
      rw [h2]
      intro hand
      cases hlt : l.text with
      | nil => exact h1 hlt
      | cons c t =>
        rw [hlt] at hand
        have hc : c = '[' := Option.some.inj hand.1
        have := (h3 c (by rw [hlt]; exact List.mem_cons_self c t)).2.2.1
        exact this hc
    rw [List.map_cons, List.flatten_cons, List.map_cons]
    cases hlp : l.part with
    | none =>
      rw [show fragsOf l = [sanitize l.text] from by unfold fragsOf; rw [hlp]]
      rw [hsan]
      rw [show (([l.text] : List (List Char)) ++ (rest.map fragsOf).flatten) =
        l.text :: (rest.map fragsOf).flatten from rfl]
      rw [parseLinesGo_cons]
      rw [h2]
      rw [if_neg h1, if_neg (by rw [← h2]; exact hbr)]
      rw [ih cp (fun x hx => htext x (List.mem_cons_of_mem l hx))
        (fun x hx => hpart x (List.mem_cons_of_mem l hx))
        (List.pairwise_cons.mp hpw).2
        (fun x hx hxn => hcp x (List.mem_cons_of_mem l hx) hxn)]
      have hcpn : cp = none := hcp l (List.mem_cons_self l rest) hlp
      rw [hcpn]
      show (⟨l.text, none, 0, 0, []⟩ : LyricLine) :: rest.map blankOf =
        blankOf l :: rest.map blankOf
      rw [show blankOf l = ⟨l.text, none, 0, 0, []⟩ from by unfold blankOf; rw [hlp]]
    | some p =>
      rw [show fragsOf l = [[], '[' :: (p ++ [']']), sanitize l.text] from by
        unfold fragsOf; rw [hlp]]
      rw [hsan]
      rw [show (([[], '[' :: (p ++ [']']), l.text] : List (List Char)) ++
        (rest.map fragsOf).flatten) =
        [] :: ('[' :: (p ++ [']'])) :: l.text :: (rest.map fragsOf).flatten from rfl]
      rw [parseLinesGo_blank]
      have htb : trimWs ('[' :: (p ++ [']'])) = '[' :: (p ++ [']']) := by
        apply trimWs_eq_self
        · intro c hc
          have : '[' = c := Option.some.inj (show some '[' = some c from hc)
          rw [← this]
          rfl
        · intro c hc
          have hlast : ('[' :: (p ++ [']'])).getLast? = some ']' :=
            List.getLast?_concat ('[' :: p)
          have : c = ']' := Option.some.inj (hc.symm.trans hlast)
          rw [this]
          rfl
      rw [parseLinesGo_cons, htb]
      rw [if_neg (List.cons_ne_nil '[' (p ++ [']']))]
      rw [if_pos ⟨rfl, List.getLast?_concat ('[' :: p)⟩]
      rw [show ((('[' :: (p ++ [']'])).drop 1).dropLast) = p from by
        rw [show (('[' :: (p ++ [']'])).drop 1) = p ++ [']'] from rfl,
          List.dropLast_concat]]
      rw [parseLinesGo_cons]
      rw [h2]
      rw [if_neg h1, if_neg (by rw [← h2]; exact hbr)]
      rw [ih (some p) (fun x hx => htext x (List.mem_cons_of_mem l hx))
        (fun x hx => hpart x (List.mem_cons_of_mem l hx))
        (List.pairwise_cons.mp hpw).2
        (fun x hx hxn => by
          have := (List.pairwise_cons.mp hpw).1 x hx hxn
          rw [hlp] at this
          exact Option.noConfusion this)]
      show (⟨l.text, some p, 0, 0, []⟩ : LyricLine) :: rest.map blankOf =
        blankOf l :: rest.map blankOf
      rw [show blankOf l = ⟨l.text, some p, 0, 0, []⟩ from by unfold blankOf; rw [hlp]]

theorem stage1_text (d : AnimationData)
    (hne : d.lines ≠ [])
    (htext : ∀ l ∈ d.lines, l.text ≠ [] ∧ trimWs l.text = l.text ∧
      ∀ c ∈ l.text, isCtrl c = false ∧ c ≠ '/' ∧ c ≠ '[' ∧ c ≠ ']')
    (hpart : ∀ l ∈ d.lines, ∀ p, l.part = some p → ∀ c ∈ p,
      isCtrl c = false ∧ c ≠ '/')
    (hsticky : List.Pairwise (fun a b => b.part = none → a.part = none) d.lines) :
    parseTextSection (trimWs (joinSep ['\n'] (d.lines.map pieceOf) ++ ['\n'])) =
      d.lines.map blankOf := by
  have hctrl : ∀ l ∈ d.lines, ∀ c ∈ l.text, isCtrl c = false :=
    fun l hl c hc => ((htext l hl).2.2 c hc).1
  have hpartc : ∀ l ∈ d.lines, ∀ p, l.part = some p → ∀ c ∈ p, isCtrl c = false :=
    fun l hl p hp c hc => (hpart l hl p hp c hc).1
  have hflat := splitChar_s1 d.lines hne hctrl hpartc
  have htrR : trimRightWs (joinSep ['\n'] (d.lines.map pieceOf) ++ ['\n']) =
      joinSep ['\n'] (d.lines.map pieceOf) := by
    rw [trimRightWs_append_ws _ '\n' rfl]
    apply trimRightWs_eq_self
    intro c hc
    rcases List.eq_nil_or_concat d.lines with h0 | ⟨L, b, hLb⟩
    · exact absurd h0 hne
    · have hbmem : b ∈ d.lines := by
        rw [hLb, List.concat_eq_append]
        exact List.mem_append.mpr (Or.inr (List.mem_cons_self b []))
      obtain ⟨hb1, hb2, hb3⟩ := htext b hbmem
      have hsanb : sanitize b.text = b.text := sanitize_eq_self _ hb3
      have hpne := pieceOf_ne_nil b hb1 hsanb
      rw [hLb, List.concat_eq_append, List.map_append] at hc
      rw [show (List.map pieceOf [b]) = [pieceOf b] from rfl] at hc
      rw [(joinSep_concat_last ['\n'] (L.map pieceOf) (pieceOf b) hpne).2] at hc
      rw [pieceOf_getLast b hb1 hsanb] at hc
      exact last_not_ws_of_trimmed b.text hb2 c hc
  have hTW : trimWs (joinSep ['\n'] (d.lines.map pieceOf) ++ ['\n']) =
      trimLeftWs (joinSep ['\n'] (d.lines.map pieceOf)) := by
    show trimLeftWs (trimRightWs _) = _
    rw [htrR]
  unfold parseTextSection
  rw [hTW]
  cases hlines : d.lines with
  | nil => exact absurd hlines hne
  | cons l0 rest =>
    rw [hlines] at hflat
    obtain ⟨h01, h02, h03⟩ := htext l0 (by rw [hlines]; exact List.mem_cons_self l0 rest)
    have hsan0 : sanitize l0.text = l0.text := sanitize_eq_self _ h03
    have hgo := parseLinesGo_flatten (l0 :: rest) none
      (by rw [← hlines]; exact htext)
      (by rw [← hlines]; exact hpart)
      (by rw [← hlines]; exact hsticky)
      (fun _ _ _ => rfl)
    cases hp0 : l0.part with
    | none =>
      have hhead : ∀ c, (joinSep ['\n'] ((l0 :: rest).map pieceOf)).head? = some c →
          isWs c = false := by
        intro c hc
        rw [List.map_cons,
          joinSep_head_eq _ _ _ (pieceOf_ne_nil l0 h01 hsan0)] at hc
        rw [show pieceOf l0 = sanitize l0.text from by unfold pieceOf; rw [hp0]] at hc
        rw [hsan0] at hc
        exact head_not_ws_of_trimmed l0.text h02 c hc
      rw [trimLeftWs_eq_self _ hhead, hflat]
      exact hgo
    | some p0 =>
      have hs1 : ∃ T, joinSep ['\n'] ((l0 :: rest).map pieceOf) = '\n' :: T ∧
          T.head? = some '[' := by
        have hpiece : pieceOf l0 = '\n' :: '[' :: (p0 ++ ']' :: '\n' :: sanitize l0.text) := by
          unfold pieceOf
          rw [hp0]
        cases rest with
        | nil =>
          refine ⟨'[' :: (p0 ++ ']' :: '\n' :: sanitize l0.text), ?_, rfl⟩
          rw [List.map_cons, List.map_nil,
            show joinSep ['\n'] [pieceOf l0] = pieceOf l0 from rfl, hpiece]
        | cons r rr =>
          refine ⟨('[' :: (p0 ++ ']' :: '\n' :: sanitize l0.text)) ++
            ('\n' :: joinSep ['\n'] ((r :: rr).map pieceOf)), ?_, ?_⟩
          · rw [List.map_cons,
              show ((r :: rr).map pieceOf) = pieceOf r :: (rr.map pieceOf) from rfl,
              joinSep_cons_cons, hpiece]
            rfl
          · rw [List.head?_append_of_ne_nil _ (List.cons_ne_nil _ _)]
            rfl
      obtain ⟨T, hT, hThead⟩ := hs1
      have htl : trimLeftWs ('\n' :: T) = T := by
        show List.dropWhile isWs ('\n' :: T) = T
        rw [List.dropWhile_cons, if_pos (show isWs '\n' = true from rfl)]
        exact trimLeftWs_eq_self T (fun c hc => by
          have hceq : '[' = c := Option.some.inj (hThead.symm.trans hc)
          rw [← hceq]
          rfl)
      have hsplitcons : splitChar '\n' ('\n' :: T) = [] :: splitChar '\n' T := by
        rw [splitChar_cons_eq, if_pos rfl]
      rw [hT, htl]
      have hback : parseLinesGo none (splitChar '\n' T) =
          parseLinesGo none ([] :: splitChar '\n' T) :=
        (parseLinesGo_blank none _).symm
      rw [hback, ← hsplitcons, ← hT, hflat]
      exact hgo

/-- The first joined block of the encoded document (text pieces). -/
def s1Of (d : AnimationData) : List Char := joinSep ['\n'] (d.lines.map pieceOf)

/-- The joined timestamp block. -/
def s2Of (d : AnimationData) : List Char := joinSep [','] (d.lines.map tsStrOf)

/-- The joined keyframe block. -/
def s3Of (d : AnimationData) : List Char := joinSep [','] (d.lines.map kfGroupOf)

/-- The data section (after the `[//]` separator and its newline). -/
def dsOf (d : AnimationData) : List Char :=
  LINE_BY_LINE_TIMESTAMP_MARKER ++ '[' :: (s2Of d ++ ']' :: '\n' ::
    (LINE_SYLABLE_KEYFRAME_MARKER ++ '[' :: (s3Of d ++ [']'])))

theorem pair_not_infix_of_not_mem_right (x y : Char) (s : List Char) (h : y ∉ s) :
    ¬ [x, y] <:+: s :=
  fun hinf => h (hinf.subset (List.mem_cons_of_mem x (List.mem_cons_self y [])))

theorem s1_no_slash (d : AnimationData)
    (hpart : ∀ l ∈ d.lines, ∀ p, l.part = some p → ∀ c ∈ p,
      isCtrl c = false ∧ c ≠ '/') : '/' ∉ s1Of d := by
  intro hm
  rcases mem_joinSep _ _ '/' hm with ⟨p, hp, hcp⟩ | h
  · obtain ⟨l, hl, rfl⟩ := List.mem_map.mp hp
    unfold pieceOf at hcp
    rcases hlp : l.part with _ | q
    · rw [hlp] at hcp
      exact (sanitize_mem _ _ hcp).2.2.1 rfl
    · rw [hlp] at hcp
      rcases List.mem_cons.mp hcp with h2 | h2
      · exact absurd h2 (by decide)
      · rcases List.mem_cons.mp h2 with h3 | h3
        · exact absurd h3 (by decide)
        · rcases List.mem_append.mp h3 with h4 | h4
          · exact (hpart l hl q hlp '/' h4).2 rfl
          · rcases List.mem_cons.mp h4 with h5 | h5
            · exact absurd h5 (by decide)
            · rcases List.mem_cons.mp h5 with h6 | h6
              · exact absurd h6 (by decide)
              · exact (sanitize_mem _ _ h6).2.2.1 rfl
  · exact absurd h (by decide)

theorem s2_no_char (ls : List LyricLine) (x : Char) (hx : x.isDigit = false)
    (h1 : x ≠ '.') (h2 : x ≠ '-') (h3 : x ≠ '/') (h4 : x ≠ ',') :
    x ∉ joinSep [','] (ls.map tsStrOf) := by
  intro hm
  rcases s2_chars ls x hm with h | h | h | h | h
  · rw [h] at hx; exact Bool.noConfusion hx
  · exact h1 h
  · exact h2 h
  · exact h3 h
  · exact h4 h

theorem s3_no_char (ls : List LyricLine) (x : Char) (hx : x.isDigit = false)
    (h1 : x ≠ '.') (h2 : x ≠ '-') (h3 : x ≠ '/') (h4 : x ≠ ',')
    (h5 : x ≠ '(') (h6 : x ≠ ')') :
    x ∉ joinSep [','] (ls.map kfGroupOf) := by
  intro hm
  rcases s3_chars ls x hm with h | h | h | h | h | h | h
  · rw [h] at hx; exact Bool.noConfusion hx
  · exact h1 h
  · exact h2 h
  · exact h3 h
  · exact h4 h
  · exact h5 h
  · exact h6 h

theorem s2_head (d : AnimationData) (hne : d.lines ≠ []) :
    ∃ c t2, s2Of d = c :: t2 ∧ (c.isDigit = true ∨ c = '-') := by
  cases hlines : d.lines with
  | nil => exact absurd hlines hne
  | cons l0 rest =>
    obtain ⟨c, r, hcr, hclass⟩ := fmt3_head l0.start
    have hh : (s2Of d).head? = some c := by
      unfold s2Of
      rw [hlines, List.map_cons]
      rw [joinSep_head_eq [','] (tsStrOf l0) (List.map tsStrOf rest)
        (show tsStrOf l0 ≠ [] from append_ne_nil_right _ _ (List.cons_ne_nil _ _))]
      unfold tsStrOf
      rw [List.head?_append_of_ne_nil _ (fmt3_ne_nil _), hcr]
      rfl
    cases hs2 : s2Of d with
    | nil => rw [hs2] at hh; exact Option.noConfusion hh
    | cons x t =>
      rw [hs2] at hh
      have hxc : x = c := Option.some.inj (show some x = some c from hh)
      exact ⟨x, t, rfl, by rw [hxc]; exact hclass⟩

theorem s3_head (d : AnimationData) (hne : d.lines ≠ []) :
    ∃ t3, s3Of d = '(' :: t3 := by
  cases hlines : d.lines with
  | nil => exact absurd hlines hne
  | cons l0 rest =>
    have hh : (s3Of d).head? = some '(' := by
      unfold s3Of
      rw [hlines, List.map_cons]
      rw [joinSep_head_eq [','] (kfGroupOf l0) (List.map kfGroupOf rest)
        (show kfGroupOf l0 ≠ [] from List.cons_ne_nil _ _)]
      rfl
    cases hs3 : s3Of d with
    | nil => rw [hs3] at hh; exact Option.noConfusion hh
    | cons x t =>
      rw [hs3] at hh
      exact ⟨t, by rw [Option.some.inj hh]⟩

theorem ds_no_marker_pair (d : AnimationData) (hne : d.lines ≠ []) :
    ¬ ['[', '/'] <:+: ('\n' :: dsOf d) := by
  intro hinf
  have hnot2 : '[' ∉ s2Of d :=
    s2_no_char d.lines '[' (by decide) (by decide) (by decide) (by decide) (by decide)
  have hnot3 : '[' ∉ s3Of d :=
    s3_no_char d.lines '[' (by decide) (by decide) (by decide) (by decide) (by decide)
      (by decide) (by decide)
  have hds2 : ('\n' :: dsOf d) = "\n[lbl][".toList ++
      (s2Of d ++ ("]\n[lsk][".toList ++ (s3Of d ++ [']']))) := rfl
  rw [hds2] at hinf
  rcases pair_infix_append_cases '[' '/' _ _ hinf with h | h | h
  · exact absurd h (by decide)
  · rcases pair_infix_append_cases '[' '/' _ _ h with h2 | h2 | h2
    · exact absurd h2 (pair_not_infix_of_not_mem_left '[' '/' _ hnot2)
    · rcases pair_infix_append_cases '[' '/' _ _ h2 with h3 | h3 | h3
      · exact absurd h3 (by decide)
      · rcases pair_infix_append_cases '[' '/' _ _ h3 with h4 | h4 | h4
        · exact absurd h4 (pair_not_infix_of_not_mem_left '[' '/' _ hnot3)
        · exact absurd h4 (pair_not_infix_short '[' '/' _ (by decide))
        · exact hnot3 (mem_of_getLast?_eq _ '[' h4.1)
      · obtain ⟨hl3, hh3⟩ := h3
        obtain ⟨t3, ht3⟩ := s3_head d hne
        rw [ht3] at hh3
        have : '(' = '/' := Option.some.inj (show some '(' = some '/' from by
          rw [show ((('(' :: t3) ++ [']']).head? : Option Char) = some '(' from rfl] at hh3
          exact hh3)
        exact absurd this (by decide)
    · exact hnot2 (mem_of_getLast?_eq _ '[' h2.1)
  · obtain ⟨hl1, hh1⟩ := h
    obtain ⟨c2, t2, hs2eq, hclass⟩ := s2_head d hne
    rw [hs2eq] at hh1
    have hc2 : c2 = '/' := Option.some.inj (show some c2 = some '/' from hh1)
    rcases hclass with hd | hd
    · rw [hc2] at hd
      exact absurd hd (by decide)
    · rw [hc2] at hd
      exact absurd hd (by decide)

theorem stage0_sections (d : AnimationData) (hne : d.lines ≠ [])
    (hpart : ∀ l ∈ d.lines, ∀ p, l.part = some p → ∀ c ∈ p,
      isCtrl c = false ∧ c ≠ '/') :
    splitOnSub DATA_SECTION_SPLIT_MARKER (AnimationData.toString d) =
      [s1Of d ++ ['\n'], '\n' :: dsOf d] := by
  have hj : AnimationData.toString d =
      joinSep DATA_SECTION_SPLIT_MARKER [s1Of d ++ ['\n'], '\n' :: dsOf d] := by
    have h1 : joinSep DATA_SECTION_SPLIT_MARKER [s1Of d ++ ['\n'], '\n' :: dsOf d] =
        ((s1Of d ++ ['\n']) ++ DATA_SECTION_SPLIT_MARKER) ++ ('\n' :: dsOf d) := rfl
    rw [h1, List.append_assoc, List.append_assoc]
    rfl
  rw [hj]
  apply splitOnSub_chunks '[' '/' ['/', ']'] (by decide)
  · exact List.cons_ne_nil _ _
  · intro p hp
    rcases List.mem_cons.mp hp with h | h
    · rw [h]
      apply pair_not_infix_of_not_mem_right
      intro hm
      rcases List.mem_append.mp hm with h2 | h2
      · exact s1_no_slash d hpart h2
      · exact absurd h2 (by decide)
    · rcases List.mem_cons.mp h with h2 | h2
      · rw [h2]
        exact ds_no_marker_pair d hne
      · exact absurd h2 (List.not_mem_nil p)

theorem ds_getLast (d : AnimationData) : (dsOf d).getLast? = some ']' := by
  unfold dsOf
  rw [List.getLast?_append_of_ne_nil _ (List.cons_ne_nil _ _)]
  rw [getLast?_cons_of_ne_nil _ _
    (append_ne_nil_right _ _ (List.cons_ne_nil _ _))]
  rw [List.getLast?_append_of_ne_nil _ (List.cons_ne_nil _ _)]
  rw [getLast?_cons_of_ne_nil _ _ (List.cons_ne_nil _ _)]
  rw [getLast?_cons_of_ne_nil _ _
    (append_ne_nil_right _ _ (List.cons_ne_nil _ _))]
  rw [List.getLast?_append_of_ne_nil _ (List.cons_ne_nil _ _)]
  rw [getLast?_cons_of_ne_nil _ _
    (append_ne_nil_right _ _ (List.cons_ne_nil _ _))]
  rw [List.getLast?_append_of_ne_nil _ (List.cons_ne_nil _ _)]
  rfl

theorem ds_trim (d : AnimationData) : trimWs ('\n' :: dsOf d) = dsOf d := by
  have htr : trimRightWs ('\n' :: dsOf d) = '\n' :: dsOf d := by
    apply trimRightWs_eq_self
    intro c hc
    rw [getLast?_cons_of_ne_nil _ _ (by
      show dsOf d ≠ []
      unfold dsOf
      exact List.append_ne_nil_of_left_ne_nil (by decide) _)] at hc
    rw [ds_getLast] at hc
    have : c = ']' := (Option.some.inj hc).symm
    rw [this]
    rfl
  show trimLeftWs (trimRightWs ('\n' :: dsOf d)) = dsOf d
  rw [htr]
  show List.dropWhile isWs ('\n' :: dsOf d) = dsOf d
  rw [List.dropWhile_cons, if_pos (show isWs '\n' = true from rfl)]
  exact trimLeftWs_eq_self _ (fun c hc => by
    have : '[' = c := Option.some.inj (show some '[' = some c from hc)
    rw [← this]
    rfl)

theorem ds_lbl (d : AnimationData) :
    extract_data (dsOf d) LINE_BY_LINE_TIMESTAMP_MARKER = Except.ok (s2Of d) := by
  refine extract_data_found (dsOf d) LINE_BY_LINE_TIMESTAMP_MARKER (s2Of d)
    ('\n' :: (LINE_SYLABLE_KEYFRAME_MARKER ++ '[' :: (s3Of d ++ [']']))) 0 ?_ rfl ?_
  · apply findSub_step_hit
    rfl
  · exact s2_no_char d.lines ']' (by decide) (by decide) (by decide) (by decide)
      (by decide)

theorem ds_lsk (d : AnimationData) (hne : d.lines ≠ []) :
    extract_data (dsOf d) LINE_SYLABLE_KEYFRAME_MARKER = Except.ok (s3Of d) := by
  obtain ⟨c2, t2, hs2eq, hclass⟩ := s2_head d hne
  have hnot2 : '[' ∉ s2Of d :=
    s2_no_char d.lines '[' (by decide) (by decide) (by decide) (by decide) (by decide)
  have hnot2c : '[' ∉ (c2 :: t2) := by rw [← hs2eq]; exact hnot2
  have hlc2 : 'l' ≠ c2 := by
    rcases hclass with hd | hd
    · exact fun he => absurd (he ▸ hd) (by decide)
    · exact fun he => absurd (he.trans hd) (by decide)
  have hfind : findSub LINE_SYLABLE_KEYFRAME_MARKER (dsOf d) =
      some ((s2Of d).length + 8) := by
    rw [show LINE_SYLABLE_KEYFRAME_MARKER = '[' :: 'l' :: "sk]".toList from rfl]
    have hds : dsOf d = '[' :: 'l' :: 'b' :: 'l' :: ']' :: '[' :: ((c2 :: t2) ++ ("]\n".toList ++ ("[lsk][".toList ++ (s3Of d ++ [']'])))) := by
      unfold dsOf
      rw [hs2eq]
      rfl
    rw [hds, hs2eq]
    have hR : findSub ('[' :: 'l' :: "sk]".toList)
        ("]\n".toList ++ ("[lsk][".toList ++ (s3Of d ++ [']']))) = some 2 := by
      rw [findSub_shift_pair '[' 'l' ("sk]".toList) ("]\n".toList) _ (by decide)
        (fun hp => absurd hp.1 (by decide))]
      have hpref : findSub ('[' :: 'l' :: "sk]".toList)
          ("[lsk][".toList ++ (s3Of d ++ [']'])) = some 0 := by
        apply findSub_step_hit
        rfl
      rw [hpref]
      rfl
    have hS : findSub ('[' :: 'l' :: "sk]".toList) ((c2 :: t2) ++ ("]\n".toList ++ ("[lsk][".toList ++ (s3Of d ++ [']'])))) = some (2 + (c2 :: t2).length) := by
      rw [findSub_shift_pair '[' 'l' ("sk]".toList) (c2 :: t2) _
        (pair_not_infix_of_not_mem_left '[' 'l' (c2 :: t2) hnot2c)
        (fun hp => hnot2c (mem_of_getLast?_eq (c2 :: t2) '[' hp.1))]
      rw [hR]
      rfl
    have h5 : ('[' :: 'l' :: "sk]".toList).isPrefixOf ('[' :: ((c2 :: t2) ++ ("]\n".toList ++ ("[lsk][".toList ++ (s3Of d ++ [']']))))) = false := by
      show ('[' :: 'l' :: "sk]".toList).isPrefixOf
        ('[' :: (c2 :: (t2 ++ ("]\n".toList ++
          ("[lsk][".toList ++ (s3Of d ++ [']'])))))) = false
      rw [isPrefixOf_cons_eq]
      rw [isPrefixOf_cons_of_ne 'l' c2 _ _ hlc2]
      rw [Bool.and_false]
    have e0 : findSub ('[' :: 'l' :: "sk]".toList) ('[' :: 'l' :: 'b' :: 'l' :: ']' :: '[' :: ((c2 :: t2) ++ ("]\n".toList ++ ("[lsk][".toList ++ (s3Of d ++ [']']))))) =
        (findSub ('[' :: 'l' :: "sk]".toList) ('l' :: 'b' :: 'l' :: ']' :: '[' :: ((c2 :: t2) ++ ("]\n".toList ++ ("[lsk][".toList ++ (s3Of d ++ [']'])))))).map (· + 1) :=
      findSub_step_miss ('[' :: 'l' :: "sk]".toList) _ _ rfl
    have e1 : findSub ('[' :: 'l' :: "sk]".toList) ('l' :: 'b' :: 'l' :: ']' :: '[' :: ((c2 :: t2) ++ ("]\n".toList ++ ("[lsk][".toList ++ (s3Of d ++ [']']))))) =
        (findSub ('[' :: 'l' :: "sk]".toList) ('b' :: 'l' :: ']' :: '[' :: ((c2 :: t2) ++ ("]\n".toList ++ ("[lsk][".toList ++ (s3Of d ++ [']'])))))).map (· + 1) :=
      findSub_step_miss ('[' :: 'l' :: "sk]".toList) _ _ rfl
    have e2 : findSub ('[' :: 'l' :: "sk]".toList) ('b' :: 'l' :: ']' :: '[' :: ((c2 :: t2) ++ ("]\n".toList ++ ("[lsk][".toList ++ (s3Of d ++ [']']))))) =
        (findSub ('[' :: 'l' :: "sk]".toList) ('l' :: ']' :: '[' :: ((c2 :: t2) ++ ("]\n".toList ++ ("[lsk][".toList ++ (s3Of d ++ [']'])))))).map (· + 1) :=
      findSub_step_miss ('[' :: 'l' :: "sk]".toList) _ _ rfl
    have e3 : findSub ('[' :: 'l' :: "sk]".toList) ('l' :: ']' :: '[' :: ((c2 :: t2) ++ ("]\n".toList ++ ("[lsk][".toList ++ (s3Of d ++ [']']))))) =
        (findSub ('[' :: 'l' :: "sk]".toList) (']' :: '[' :: ((c2 :: t2) ++ ("]\n".toList ++ ("[lsk][".toList ++ (s3Of d ++ [']'])))))).map (· + 1) :=
      findSub_step_miss ('[' :: 'l' :: "sk]".toList) _ _ rfl
    have e4 : findSub ('[' :: 'l' :: "sk]".toList) (']' :: '[' :: ((c2 :: t2) ++ ("]\n".toList ++ ("[lsk][".toList ++ (s3Of d ++ [']']))))) =
        (findSub ('[' :: 'l' :: "sk]".toList) ('[' :: ((c2 :: t2) ++ ("]\n".toList ++ ("[lsk][".toList ++ (s3Of d ++ [']'])))))).map (· + 1) :=
      findSub_step_miss ('[' :: 'l' :: "sk]".toList) _ _ rfl
    have e5 : findSub ('[' :: 'l' :: "sk]".toList) ('[' :: ((c2 :: t2) ++ ("]\n".toList ++ ("[lsk][".toList ++ (s3Of d ++ [']']))))) =
        (findSub ('[' :: 'l' :: "sk]".toList) ((c2 :: t2) ++ ("]\n".toList ++ ("[lsk][".toList ++ (s3Of d ++ [']']))))).map (· + 1) :=
      findSub_step_miss ('[' :: 'l' :: "sk]".toList) _ _ h5
    rw [e0, e1, e2, e3, e4, e5, hS]
    show some (2 + (t2.length + 1) + 1 + 1 + 1 + 1 + 1 + 1) = some ((c2 :: t2).length + 8)
    rw [List.length_cons]
    exact congrArg some (by omega)
  refine extract_data_found (dsOf d) LINE_SYLABLE_KEYFRAME_MARKER (s3Of d) []
    ((s2Of d).length + 8) hfind ?_ ?_
  · rw [show (s2Of d).length + 8 + LINE_SYLABLE_KEYFRAME_MARKER.length =
      (s2Of d).length + 13 from by
        rw [show LINE_SYLABLE_KEYFRAME_MARKER.length = 5 from rfl]]
    have hsplit : dsOf d = ("[lbl][".toList ++ (s2Of d ++ "]\n[lsk]".toList)) ++
        ('[' :: (s3Of d ++ [']'])) := by
      rw [List.append_assoc, List.append_assoc]
      rfl
    rw [hsplit]
    rw [show (s2Of d).length + 13 =
      ("[lbl][".toList ++ (s2Of d ++ "]\n[lsk]".toList)).length + 0 from by
        rw [List.length_append, List.length_append,
          show "[lbl][".toList.length = 6 from rfl,
          show "]\n[lsk]".toList.length = 7 from rfl]
        omega]
    rw [List.drop_append 0]
    rfl
  · exact s3_no_char d.lines ']' (by decide) (by decide) (by decide) (by decide)
      (by decide) (by decide) (by decide)

theorem s2_split (d : AnimationData) (hne : d.lines ≠ []) :
    splitChar ',' (s2Of d) = d.lines.map tsStrOf := by
  unfold s2Of
  apply splitChar_joinSep
  · intro h0
    exact hne (List.map_eq_nil.mp h0)
  · intro p hp
    obtain ⟨l, _, rfl⟩ := List.mem_map.mp hp
    intro hm
    rcases tsStrOf_chars l ',' hm with h | h | h | h
    · exact absurd h (by decide)
    · exact absurd h (by decide)
    · exact absurd h (by decide)
    · exact absurd h (by decide)

/-- The line after stage 3 (timestamps decoded, keyframes still empty). -/
def tsedOf (l : LyricLine) : LyricLine :=
  ⟨l.text, l.part, round3 l.start, round3 l.«end», []⟩

theorem applyTs_round (b : LyricLine) (q1 q2 : ℚ) :
    applyTs b (fmt3 q1 ++ '/' :: fmt3 q2) =
      { b with start := round3 q1, «end» := round3 q2 } := by
  have hsp : splitChar '/' (fmt3 q1 ++ '/' :: fmt3 q2) = [fmt3 q1, fmt3 q2] := by
    rw [splitChar_append,
      splitChar_of_not_mem '/' _ (fmt3_excludes q1 '/' (by decide) (by decide) (by decide)),
      splitChar_of_not_mem '/' _ (fmt3_excludes q2 '/' (by decide) (by decide) (by decide))]
    rfl
  unfold applyTs
  rw [hsp]
  rw [if_pos (show ([fmt3 q1, fmt3 q2] : List (List Char)).length = 2 from rfl)]
  rw [show ([fmt3 q1, fmt3 q2].getD 0 []) = fmt3 q1 from rfl]
  rw [show ([fmt3 q1, fmt3 q2].getD 1 []) = fmt3 q2 from rfl]
  rw [parseQ_fmt3, parseQ_fmt3]
  rfl

theorem zip_applyTs : ∀ ls : List LyricLine,
    List.zipWith applyTs (ls.map blankOf) (ls.map tsStrOf) = ls.map tsedOf := by
  intro ls
  induction ls with
  | nil => rfl
  | cons l rest ih =>
    rw [List.map_cons, List.map_cons, List.map_cons, List.zipWith_cons_cons, ih]
    congr 1
    rw [show tsStrOf l = fmt3 l.start ++ '/' :: fmt3 l.«end» from rfl]
    rw [applyTs_round]
    rfl

/-- The middle/last pieces the keyframe block is split into: every piece is
one line's joined keyframe list, the final one keeping its `)`. -/
def decoMid : List (List Char) → List (List Char)
  | [] => []
  | [i] => [i ++ [')']]
  | i :: rest => i :: decoMid rest

/-- All pieces of the keyframe-block split: the first keeps its `(`. -/
def decoParts : List (List Char) → List (List Char)
  | [] => []
  | [i] => ['(' :: (i ++ [')'])]
  | i :: rest => ('(' :: i) :: decoMid rest

theorem innerOf_no_paren (l : LyricLine) :
    ∀ c ∈ innerOf l, ((c == '(') || (c == ')')) = false := by
  intro c hc
  rcases innerOf_chars l c hc with h | h | h | h | h
  · rw [beq_eq_false_iff_ne.mpr (isDigit_ne c h '(' (by decide)),
      beq_eq_false_iff_ne.mpr (isDigit_ne c h ')' (by decide))]
    rfl
  · rw [h]; rfl
  · rw [h]; rfl
  · rw [h]; rfl
  · rw [h]; rfl

theorem s3_mid : ∀ (ls : List LyricLine), ls ≠ [] →
    joinSep [','] (ls.map kfGroupOf) =
      '(' :: joinSep KF_GROUP_SEP (decoMid (ls.map innerOf)) := by
  intro ls
  induction ls with
  | nil => intro h; exact absurd rfl h
  | cons l rest ih =>
    intro _
    cases rest with
    | nil =>
      show kfGroupOf l = '(' :: joinSep KF_GROUP_SEP [innerOf l ++ [')']]
      rfl
    | cons r rrest =>
      rw [List.map_cons,
        show ((r :: rrest).map kfGroupOf) = kfGroupOf r :: rrest.map kfGroupOf from rfl,
        joinSep_cons_cons]
      rw [show (List.map innerOf (l :: r :: rrest)) =
        innerOf l :: innerOf r :: rrest.map innerOf from rfl]
      rw [show decoMid (innerOf l :: innerOf r :: rrest.map innerOf) =
        innerOf l :: decoMid (innerOf r :: rrest.map innerOf) from rfl]
      have ih2 := ih (List.cons_ne_nil r rrest)
      rw [List.map_cons, List.map_cons] at ih2
      cases hdm : decoMid (innerOf r :: rrest.map innerOf) with
      | nil =>
        exfalso
        cases hmap : rrest.map innerOf with
        | nil =>
          rw [hmap] at hdm
          rw [show decoMid [innerOf r] = [innerOf r ++ [')']] from rfl] at hdm
          exact List.noConfusion hdm
        | cons z zs =>
          rw [hmap] at hdm
          rw [show decoMid (innerOf r :: z :: zs) =
            innerOf r :: decoMid (z :: zs) from rfl] at hdm
          exact List.noConfusion hdm
      | cons g gs =>
        rw [ih2, hdm, joinSep_cons_cons]
        show '(' :: ((innerOf l ++ [')']) ++
            ([','] ++ ('(' :: joinSep KF_GROUP_SEP (g :: gs)))) =
          '(' :: (innerOf l ++ (KF_GROUP_SEP ++ joinSep KF_GROUP_SEP (g :: gs)))
        congr 1
        rw [List.append_assoc]
        rfl

theorem decoMid_ne_nil (i : List Char) (is : List (List Char)) :
    decoMid (i :: is) ≠ [] := by
  cases is with
  | nil => exact List.cons_ne_nil _ _
  | cons j js => exact List.cons_ne_nil _ _

theorem s3_join (ls : List LyricLine) (h : ls ≠ []) :
    joinSep [','] (ls.map kfGroupOf) =
      joinSep KF_GROUP_SEP (decoParts (ls.map innerOf)) := by
  cases ls with
  | nil => exact absurd rfl h
  | cons l rest =>
    cases rest with
    | nil =>
      show kfGroupOf l = joinSep KF_GROUP_SEP ['(' :: (innerOf l ++ [')'])]
      rfl
    | cons r rrest =>
      rw [show (List.map innerOf (l :: r :: rrest)) =
        innerOf l :: innerOf r :: rrest.map innerOf from rfl]
      rw [show decoParts (innerOf l :: innerOf r :: rrest.map innerOf) =
        ('(' :: innerOf l) :: decoMid (innerOf r :: rrest.map innerOf) from rfl]
      rw [List.map_cons,
        show ((r :: rrest).map kfGroupOf) = kfGroupOf r :: rrest.map kfGroupOf from rfl,
        joinSep_cons_cons]
      have hm := s3_mid (r :: rrest) (List.cons_ne_nil r rrest)
      rw [List.map_cons, List.map_cons] at hm
      rw [hm]
      cases hdm : decoMid (innerOf r :: rrest.map innerOf) with
      | nil => exact absurd hdm (decoMid_ne_nil _ _)
      | cons g gs =>
        rw [joinSep_cons_cons]
        show '(' :: ((innerOf l ++ [')']) ++
            ([','] ++ ('(' :: joinSep KF_GROUP_SEP (g :: gs)))) =
          '(' :: (innerOf l ++ (KF_GROUP_SEP ++ joinSep KF_GROUP_SEP (g :: gs)))
        congr 1
        rw [List.append_assoc]
        rfl

theorem decoMid_pairfree : ∀ (inners : List (List Char)),
    (∀ i ∈ inners, ')' ∉ i) → ∀ p ∈ decoMid inners, ¬ [')', ','] <:+: p := by
  intro inners
  induction inners with
  | nil => intro _ p hp; exact absurd hp (List.not_mem_nil p)
  | cons i is ih =>
    intro h p hp
    cases is with
    | nil =>
      rw [show decoMid [i] = [i ++ [')']] from rfl] at hp
      rcases List.mem_cons.mp hp with h2 | h2
      · rw [h2]
        intro hinf
        rcases pair_infix_append_cases ')' ',' _ _ hinf with h3 | h3 | h3
        · exact absurd h3 (pair_not_infix_of_not_mem_left ')' ',' i
            (h i (List.mem_cons_self i [])))
        · exact absurd h3 (pair_not_infix_short _ _ _ (by decide))
        · exact (h i (List.mem_cons_self i [])) (mem_of_getLast?_eq i ')' h3.1)
      · exact absurd h2 (List.not_mem_nil p)
    | cons j js =>
      rw [show decoMid (i :: j :: js) = i :: decoMid (j :: js) from rfl] at hp
      rcases List.mem_cons.mp hp with h2 | h2
      · rw [h2]
        exact pair_not_infix_of_not_mem_left ')' ',' i (h i (List.mem_cons_self i _))
      · exact ih (fun x hx => h x (List.mem_cons_of_mem i hx)) p h2

theorem decoParts_pairfree (inners : List (List Char))
    (h : ∀ i ∈ inners, ')' ∉ i) : ∀ p ∈ decoParts inners, ¬ [')', ','] <:+: p := by
  intro p hp
  cases inners with
  | nil => exact absurd hp (List.not_mem_nil p)
  | cons i is =>
    cases is with
    | nil =>
      rw [show decoParts [i] = ['(' :: (i ++ [')'])] from rfl] at hp
      rcases List.mem_cons.mp hp with h2 | h2
      · rw [h2]
        intro hinf
        have hinf2 : [')', ','] <:+: (['('] ++ (i ++ [')'])) := hinf
        rcases pair_infix_append_cases ')' ',' _ _ hinf2 with h3 | h3 | h3
        · exact absurd h3 (pair_not_infix_short _ _ _ (by decide))
        · rcases pair_infix_append_cases ')' ',' _ _ h3 with h4 | h4 | h4
          · exact absurd h4 (pair_not_infix_of_not_mem_left ')' ',' i
              (h i (List.mem_cons_self i [])))
          · exact absurd h4 (pair_not_infix_short _ _ _ (by decide))
          · exact (h i (List.mem_cons_self i [])) (mem_of_getLast?_eq i ')' h4.1)
        · exact absurd h3.1 (by decide)
      · exact absurd h2 (List.not_mem_nil p)
    | cons j js =>
      rw [show decoParts (i :: j :: js) = ('(' :: i) :: decoMid (j :: js) from rfl] at hp
      rcases List.mem_cons.mp hp with h2 | h2
      · rw [h2]
        intro hinf
        have hinf2 : [')', ','] <:+: (['('] ++ i) := hinf
        rcases pair_infix_append_cases ')' ',' _ _ hinf2 with h3 | h3 | h3
        · exact absurd h3 (pair_not_infix_short _ _ _ (by decide))
        · exact absurd h3 (pair_not_infix_of_not_mem_left ')' ',' i
            (h i (List.mem_cons_self i _)))
        · exact absurd h3.1 (by decide)
      · exact decoMid_pairfree (j :: js)
          (fun x hx => h x (List.mem_cons_of_mem i hx)) p h2

theorem splitOnSub_s3 (d : AnimationData) (hne : d.lines ≠ []) :
    splitOnSub KF_GROUP_SEP (s3Of d) = decoParts (d.lines.map innerOf) := by
  rw [show s3Of d = joinSep [','] (d.lines.map kfGroupOf) from rfl]
  rw [s3_join d.lines hne]
  apply splitOnSub_chunks ')' ',' ("(".toList) (by decide)
  · cases hlines : d.lines with
    | nil => exact absurd hlines hne
    | cons l rest =>
      rw [List.map_cons]
      cases hmap : rest.map innerOf with
      | nil =>
        rw [show decoParts [innerOf l] = ['(' :: (innerOf l ++ [')'])] from rfl]
        exact List.cons_ne_nil _ _
      | cons z zs =>
        rw [show decoParts (innerOf l :: z :: zs) =
          ('(' :: innerOf l) :: decoMid (z :: zs) from rfl]
        exact List.cons_ne_nil _ _
  · apply decoParts_pairfree
    intro i hi
    obtain ⟨l, _, rfl⟩ := List.mem_map.mp hi
    intro hm
    exact absurd (innerOf_no_paren l ')' hm) (by decide)

theorem trimParens_plain (i : List Char)
    (hi : ∀ c ∈ i, ((c == '(') || (c == ')')) = false) : trimParens i = i := by
  show ((List.dropWhile (fun c => c == '(' || c == ')') i).reverse.dropWhile
    (fun c => c == '(' || c == ')')).reverse = i
  rw [dropWhile_all_false _ i hi]
  rw [dropWhile_all_false _ i.reverse (fun c hc => hi c (List.mem_reverse.mp hc))]
  exact List.reverse_reverse i

theorem trimParens_open (i : List Char)
    (hi : ∀ c ∈ i, ((c == '(') || (c == ')')) = false) : trimParens ('(' :: i) = i := by
  show ((List.dropWhile (fun c => c == '(' || c == ')') ('(' :: i)).reverse.dropWhile
    (fun c => c == '(' || c == ')')).reverse = i
  rw [List.dropWhile_cons, if_pos (show ((('(' == '(') || ('(' == ')')) = true) from rfl)]
  rw [dropWhile_all_false _ i hi]
  rw [dropWhile_all_false _ i.reverse (fun c hc => hi c (List.mem_reverse.mp hc))]
  exact List.reverse_reverse i

theorem trimParens_close (i : List Char)
    (hi : ∀ c ∈ i, ((c == '(') || (c == ')')) = false) : trimParens (i ++ [')']) = i := by
  show ((List.dropWhile (fun c => c == '(' || c == ')') (i ++ [')'])).reverse.dropWhile
    (fun c => c == '(' || c == ')')).reverse = i
  cases hm : i with
  | nil => rfl
  | cons x xs =>
    have hx := hi x (by rw [hm]; exact List.mem_cons_self x xs)
    rw [show ((x :: xs) ++ [')']) = x :: (xs ++ [')']) from rfl]
    rw [List.dropWhile_cons, if_neg (by rw [hx]; exact Bool.noConfusion)]
    rw [show (x :: (xs ++ [')'])) = ((x :: xs) ++ [')']) from rfl]
    rw [List.reverse_append]
    show (List.dropWhile (fun c => c == '(' || c == ')')
      (')' :: (x :: xs).reverse)).reverse = x :: xs
    rw [List.dropWhile_cons,
      if_pos (show (((')' == '(') || (')' == ')')) = true) from rfl)]
    rw [dropWhile_all_false _ (x :: xs).reverse (fun c hc => hi c (by
      rw [hm]
      exact List.mem_reverse.mp hc))]
    rw [List.reverse_reverse]

theorem from_string_pct_round (kf : Keyframe) (len : ℚ) :
    Keyframe.from_string_pct (kf.to_string_pct len) len =
      some ⟨round3 kf.time, round3 (if len > 0 then kf.index / len else 0) * len⟩ := by
  show Keyframe.from_string_pct
    (fmt3 kf.time ++ '/' :: fmt3 (if len > 0 then kf.index / len else 0)) len = _
  unfold Keyframe.from_string_pct
  rw [splitOnce_append '/' _ _ (fmt3_excludes _ '/' (by decide) (by decide) (by decide))]
  show (match parseQ (fmt3 kf.time),
      parseQ (fmt3 (if len > 0 then kf.index / len else 0)) with
    | some time, some pct => some (⟨time, pct * len⟩ : Keyframe)
    | _, _ => none) = _
  rw [parseQ_fmt3, parseQ_fmt3]

theorem filterMap_tostring (len : ℚ) : ∀ kfs : List Keyframe,
    (kfs.map (fun kf => kf.to_string_pct len)).filterMap
      (fun e => Keyframe.from_string_pct e len) =
    kfs.map (fun kf => (⟨round3 kf.time,
      round3 (if len > 0 then kf.index / len else 0) * len⟩ : Keyframe)) := by
  intro kfs
  induction kfs with
  | nil => rfl
  | cons k ks ih =>
    rw [List.map_cons, List.filterMap_cons, from_string_pct_round, ih, List.map_cons]

/-- The fully decoded line corresponding to a source line (text and part
reproduced, numbers re-rounded, keyframe percentages re-scaled). -/
def roundLine (l : LyricLine) : LyricLine :=
  ⟨l.text, l.part, round3 l.start, round3 l.«end»,
    l.keyframes.map (fun kf =>
      ⟨round3 kf.time,
       round3 (if (l.text.length : ℚ) > 0 then kf.index / (l.text.length : ℚ) else 0) *
         (l.text.length : ℚ)⟩)⟩

theorem applyGroup_inner (l : LyricLine) (g : List Char)
    (htrim : trimParens g = innerOf l)
    (hsorted : List.Sorted kfLe l.keyframes) :
    applyGroup (tsedOf l) g = roundLine l := by
  have heq : applyGroup (tsedOf l) g =
      (⟨l.text, l.part, round3 l.start, round3 l.«end»,
        List.insertionSort kfLe (([] : List Keyframe) ++
          (splitChar ',' (trimParens g)).filterMap
            (fun e => Keyframe.from_string_pct e ((l.text.length : ℚ))))⟩ :
        LyricLine) := rfl
  rw [heq, htrim]
  cases hkf : l.keyframes with
  | nil =>
    have hinner : innerOf l = [] := by
      rw [show innerOf l = joinSep [','] ((l.keyframes.map
        (fun kf => kf.to_string_pct (l.text.length : ℚ)))) from rfl, hkf]
      rfl
    rw [hinner]
    show (⟨l.text, l.part, round3 l.start, round3 l.«end», []⟩ : LyricLine) = roundLine l
    unfold roundLine
    rw [hkf]
    rfl
  | cons k ks =>
    have hsplit : splitChar ',' (innerOf l) =
        l.keyframes.map (fun kf => kf.to_string_pct (l.text.length : ℚ)) := by
      rw [show innerOf l = joinSep [','] ((l.keyframes.map
        (fun kf => kf.to_string_pct (l.text.length : ℚ)))) from rfl]
      apply splitChar_joinSep
      · rw [hkf]
        exact List.cons_ne_nil _ _
      · intro p hp
        obtain ⟨kf, _, rfl⟩ := List.mem_map.mp hp
        intro hm
        rcases to_string_pct_chars kf _ ',' hm with h | h | h | h
        · exact absurd h (by decide)
        · exact absurd h (by decide)
        · exact absurd h (by decide)
        · exact absurd h (by decide)
    have hpair : List.Sorted kfLe (l.keyframes.map (fun kf => (⟨round3 kf.time,
        round3 (if (l.text.length : ℚ) > 0 then kf.index / (l.text.length : ℚ) else 0) *
          (l.text.length : ℚ)⟩ : Keyframe))) :=
      List.pairwise_map.mpr (hsorted.imp (fun hab => round3_mono hab))
    rw [hsplit, filterMap_tostring, List.nil_append, hpair.insertionSort_eq]
    rfl

theorem mem_of_head?_eq (l : List Char) (c : Char) (h : l.head? = some c) : c ∈ l := by
  cases l with
  | nil => exact Option.noConfusion h
  | cons x xs =>
    have : x = c := Option.some.inj h
    rw [← this]
    exact List.mem_cons_self x xs

theorem applyKf_decoMid : ∀ (ls : List LyricLine),
    (∀ l ∈ ls, List.Sorted kfLe l.keyframes) →
    applyKfGroups (ls.map tsedOf) (decoMid (ls.map innerOf)) = ls.map roundLine := by
  intro ls
  induction ls with
  | nil => intro _; rfl
  | cons l rest ih =>
    intro hs
    cases rest with
    | nil =>
      show applyGroup (tsedOf l) (innerOf l ++ [')']) :: applyKfGroups [] [] =
        [roundLine l]
      rw [applyGroup_inner l _ (trimParens_close _ (innerOf_no_paren l))
        (hs l (List.mem_cons_self l _))]
      rfl
    | cons r rrest =>
      show applyGroup (tsedOf l) (innerOf l) ::
        applyKfGroups ((r :: rrest).map tsedOf) (decoMid ((r :: rrest).map innerOf)) =
        roundLine l :: (r :: rrest).map roundLine
      rw [applyGroup_inner l _ (trimParens_plain _ (innerOf_no_paren l))
        (hs l (List.mem_cons_self l _))]
      rw [ih (fun x hx => hs x (List.mem_cons_of_mem l hx))]

theorem applyKf_deco (ls : List LyricLine) (hne : ls ≠ [])
    (hs : ∀ l ∈ ls, List.Sorted kfLe l.keyframes) :
    applyKfGroups (ls.map tsedOf) (decoParts (ls.map innerOf)) = ls.map roundLine := by
  cases ls with
  | nil => exact absurd rfl hne
  | cons l rest =>
    cases rest with
    | nil =>
      show applyGroup (tsedOf l) ('(' :: (innerOf l ++ [')'])) :: applyKfGroups [] [] =
        [roundLine l]
      have htp : trimParens ('(' :: (innerOf l ++ [')'])) = innerOf l :=
        trimParens_wrap (innerOf l)
          (fun c hc => innerOf_no_paren l c (mem_of_head?_eq _ _ hc))
          (fun c hc => innerOf_no_paren l c (mem_of_getLast?_eq _ _ hc))
      rw [applyGroup_inner l _ htp (hs l (List.mem_cons_self l _))]
      rfl
    | cons r rrest =>
      show applyGroup (tsedOf l) ('(' :: innerOf l) ::
        applyKfGroups ((r :: rrest).map tsedOf) (decoMid ((r :: rrest).map innerOf)) =
        roundLine l :: (r :: rrest).map roundLine
      rw [applyGroup_inner l _ (trimParens_open _ (innerOf_no_paren l))
        (hs l (List.mem_cons_self l _))]
      rw [applyKf_decoMid (r :: rrest) (fun x hx => hs x (List.mem_cons_of_mem l hx))]

/-- C1 (amended): for a nonempty `AnimationData` whose line texts are
nonempty, already trimmed and free of control characters, `/`, `[` and `]`,
whose part labels are free of control characters and `/`, whose keyframe
lists are sorted by time (as the editor maintains), and whose part labels
follow the sticky-decode discipline (once a line carries a label, all later
lines do too), decoding the encoded document succeeds and reproduces every
line exactly up to the 3-decimal rounding of `start`, `end` and keyframe
times and the percentage re-derivation of keyframe indices; the rounded
values are within 0.001 of the originals. -/
theorem C1_round_trip (d : AnimationData)
    (hne : d.lines ≠ [])
    (htext : ∀ l ∈ d.lines, l.text ≠ [] ∧ trimWs l.text = l.text ∧
      ∀ c ∈ l.text, isCtrl c = false ∧ c ≠ '/' ∧ c ≠ '[' ∧ c ≠ ']')
    (hpart : ∀ l ∈ d.lines, ∀ p, l.part = some p → ∀ c ∈ p,
      isCtrl c = false ∧ c ≠ '/')
    (hsorted : ∀ l ∈ d.lines, List.Sorted kfLe l.keyframes)
    (hsticky : List.Pairwise (fun a b => b.part = none → a.part = none) d.lines) :
    AnimationData.from_str (AnimationData.toString d) =
      Except.ok ⟨d.lines.map roundLine⟩ ∧
    ∀ l ∈ d.lines, |round3 l.start - l.start| ≤ 1 / 1000 ∧
      |round3 l.«end» - l.«end»| ≤ 1 / 1000 ∧
      ∀ kf ∈ l.keyframes, |round3 kf.time - kf.time| ≤ 1 / 1000 := by
  refine ⟨?_, fun l _ => ⟨round3_abs_le _, round3_abs_le _,
    fun kf _ => round3_abs_le _⟩⟩
  have hok := from_str_eq_ok (AnimationData.toString d)
    (s1Of d ++ ['\n']) ('\n' :: dsOf d) [] (s2Of d) (s3Of d)
    (stage0_sections d hne hpart)
    (by rw [ds_trim]; exact ds_lbl d)
    (by rw [ds_trim]; exact ds_lsk d hne)
    (by
      rw [s2_split d hne]
      rw [show s1Of d = joinSep ['\n'] (d.lines.map pieceOf) from rfl]
      rw [stage1_text d hne htext hpart hsticky]
      rw [List.length_map, List.length_map])
  rw [hok]
  rw [show s1Of d = joinSep ['\n'] (d.lines.map pieceOf) from rfl]
  rw [stage1_text d hne htext hpart hsticky, s2_split d hne, zip_applyTs,
    splitOnSub_s3 d hne, applyKf_deco d.lines hne hsorted]

/-- Witness: the built-in demo value satisfies the amended C1 hypotheses
and therefore round-trips. -/
theorem C1_amended_witness :
    (AnimationData.demo.lines ≠ [] ∧
     (∀ l ∈ AnimationData.demo.lines, l.text ≠ [] ∧ trimWs l.text = l.text ∧
       ∀ c ∈ l.text, isCtrl c = false ∧ c ≠ '/' ∧ c ≠ '[' ∧ c ≠ ']') ∧
     (∀ l ∈ AnimationData.demo.lines, ∀ p, l.part = some p → ∀ c ∈ p,
       isCtrl c = false ∧ c ≠ '/') ∧
     (∀ l ∈ AnimationData.demo.lines, List.Sorted kfLe l.keyframes) ∧
     List.Pairwise (fun a b => b.part = none → a.part = none)
       AnimationData.demo.lines) ∧
    (AnimationData.from_str (AnimationData.toString AnimationData.demo) =
      Except.ok ⟨AnimationData.demo.lines.map roundLine⟩ ∧
    ∀ l ∈ AnimationData.demo.lines, |round3 l.start - l.start| ≤ 1 / 1000 ∧
      |round3 l.«end» - l.«end»| ≤ 1 / 1000 ∧
      ∀ kf ∈ l.keyframes, |round3 kf.time - kf.time| ≤ 1 / 1000) :=
  ⟨⟨by decide, by decide, by decide, by decide, by decide⟩,
   C1_round_trip AnimationData.demo (by decide) (by decide) (by decide)
     (by decide) (by decide)⟩
